import Mathlib

/-!
Car pooling service: store, transactions and allocation engine.

A shallow embedding of the Go packages `internal/models`,
`internal/storage/inMemory` and `internal/services`.

The Go program keeps `*Car` and `*Journey` pointers in its maps and slices and
mutates the objects they point to in place, so the embedding has an explicit
heap: an object is a cell of `Store.carObjs` or `Store.journeyObjs`, a pointer
is the index of its cell, and `nil` is `none`.  Go's `uint` is taken at its
64-bit width.  A Go map is an association list; the order of the list stands
for the order in which the runtime happens to iterate the map.
-/

namespace CarPool

/-! ## Machine integers -/

/-- Number of values of Go's `uint` on a 64-bit platform. -/
def uintSize : Nat := 2 ^ 64

/-- The constant `^uint(0)`, the largest `uint`. -/
def maxUint : Nat := uintSize - 1

/-- Wrap-around addition of `uint`. -/
def uintAdd (a b : Nat) : Nat := (a + b) % uintSize

/-- Wrap-around subtraction of `uint`. -/
def uintSub (a b : Nat) : Nat := (a + uintSize - b % uintSize) % uintSize

/-! ## `internal/models` -/

def MAX_SEATS : Nat := 6

def MIN_SEATS : Nat := 4

/-- The struct `models.Car`. -/
structure Car where
  ID : Nat
  Seats : Nat
  AvailableSeats : Nat
deriving DecidableEq, Repr, Inhabited

/-- The struct `models.Journey`; `AssignedTo` is a pointer to a car object. -/
structure Journey where
  Id : Nat
  Passengers : Nat
  AssignedTo : Option Nat
deriving DecidableEq, Repr, Inhabited

/-- The struct `models.APIError` (the request id plays no part here). -/
structure APIError where
  Code : Nat
  Message : String
  Details : String
deriving DecidableEq, Repr

def APIError.HTTPStatus (e : APIError) : Nat := e.Code

def NewAPIError (code : Nat) (message details : String) : APIError :=
  { Code := code, Message := message, Details := details }

def ErrNotFound : APIError := { Code := 404, Message := "Resource not found", Details := "" }

def ErrDuplicatedID : APIError := { Code := 400, Message := "Duplicate ID provided", Details := "" }

def ErrInvalidSeats : APIError := { Code := 400, Message := "Invalid number of seats", Details := "" }

def Car.HasValidSeats (c : Car) : Bool :=
  decide (c.Seats ≥ MIN_SEATS) && decide (c.Seats ≤ MAX_SEATS)

def Car.FreeUpSeats (c : Car) (amount : Nat) : Car :=
  { c with AvailableSeats := uintAdd c.AvailableSeats amount }

def Car.TakeSeats (c : Car) (amount : Nat) : Car :=
  { c with AvailableSeats := uintSub c.AvailableSeats amount }

def Journey.AssignCar (j : Journey) (c : Nat) : Journey :=
  { j with AssignedTo := some c }

/-! ## Association lists standing for Go maps -/

/-- Map read `m[k]`: the value filed under `k`, if any. -/
def mapGet : List (Nat × Nat) → Nat → Option Nat
  | [], _ => none
  | (k, v) :: m, key => if k = key then some v else mapGet m key

/-- Map write `m[k] = v`: replaces the value under `k`, or adds the key. -/
def mapSet : List (Nat × Nat) → Nat → Nat → List (Nat × Nat)
  | [], key, val => [(key, val)]
  | (k, v) :: m, key, val => if k = key then (k, val) :: m else (k, v) :: mapSet m key val

/-- The builtin `delete(m, k)`. -/
def mapDel (m : List (Nat × Nat)) (key : Nat) : List (Nat × Nat) :=
  m.filter (fun p => decide (p.1 ≠ key))

/-! ## The heap and the three storages -/

/-- The memory of the process as far as the store is concerned: the car and
journey objects, and the contents of `CarStorage.cars`,
`JourneysStorage.journeys` and `PendingStorage.pending`. -/
structure Store where
  carObjs : List Car
  journeyObjs : List Journey
  cars : List (Nat × Nat)
  journeys : List (Nat × Nat)
  pending : List Nat
deriving DecidableEq, Repr

/-- The store of `NewTransactionFactory()`: three empty storages. -/
def Store.empty : Store :=
  { carObjs := [], journeyObjs := [], cars := [], journeys := [], pending := [] }

/-- Dereference of a car pointer. -/
def Store.carAt (s : Store) (p : Nat) : Car := s.carObjs.getD p default

/-- Dereference of a journey pointer. -/
def Store.journeyAt (s : Store) (p : Nat) : Journey := s.journeyObjs.getD p default

/-- Assignment `*p = c` through a car pointer. -/
def Store.setCar (s : Store) (p : Nat) (c : Car) : Store :=
  { s with carObjs := s.carObjs.set p c }

/-- Assignment `*p = j` through a journey pointer. -/
def Store.setJourney (s : Store) (p : Nat) (j : Journey) : Store :=
  { s with journeyObjs := s.journeyObjs.set p j }

/-! ## `internal/services`: best-fit selection -/

/-- The loop of `findCar`, carrying `bestCar` and `minSeats`. -/
def findCarLoop (mem : Nat → Car) (seats : Nat) : List Nat → Option Nat → Nat → Option Nat
  | [], bestCar, _ => bestCar
  | c :: cars, bestCar, minSeats =>
    if (mem c).AvailableSeats ≥ seats ∧ (mem c).AvailableSeats < minSeats then
      findCarLoop mem seats cars (some c) (mem c).AvailableSeats
    else
      findCarLoop mem seats cars bestCar minSeats

/-- The function `findCar(cars, seats)`: `cars` are pointers read through `mem`. -/
def findCar (mem : Nat → Car) (cars : List Nat) (seats : Nat) : Option Nat :=
  findCarLoop mem seats cars none maxUint

/-! ## `internal/storage/inMemory`: the three storages -/

/-- `CarStorage.FindById`: the pointer filed under `carId`. -/
def CarStorage.FindById (s : Store) (carId : Nat) : Except APIError Nat :=
  match mapGet s.cars carId with
  | none => .error ErrNotFound
  | some car => .ok car

/-- `CarStorage.GetAllCars`: the pointers of the map, in iteration order. -/
def CarStorage.GetAllCars (s : Store) : List Nat := s.cars.map Prod.snd

/-- `CarStorage.UpdateCar`: `*car = *newCar` on the car filed under `carId`. -/
def CarStorage.UpdateCar (s : Store) (carId newCar : Nat) : Except APIError Store :=
  match mapGet s.cars carId with
  | none => .error ErrNotFound
  | some car => .ok (s.setCar car (s.carAt newCar))

/-- `CarStorage.NewCar`: `cars[car.ID] = car`. -/
def CarStorage.NewCar (s : Store) (car : Nat) : Store :=
  { s with cars := mapSet s.cars (s.carAt car).ID car }

def CarStorage.ResetMemory (s : Store) : Store := { s with cars := [] }

/-- `JourneysStorage.FindById`. -/
def JourneysStorage.FindById (s : Store) (journeyId : Nat) : Except APIError Nat :=
  match mapGet s.journeys journeyId with
  | none => .error ErrNotFound
  | some journey => .ok journey

/-- `JourneysStorage.DeleteById`: `delete(journeys, journeyId)`, never an error. -/
def JourneysStorage.DeleteById (s : Store) (journeyId : Nat) : Store :=
  { s with journeys := mapDel s.journeys journeyId }

/-- `JourneysStorage.UpdateJourney`: `*journey = *newJourney`. -/
def JourneysStorage.UpdateJourney (s : Store) (journeyId newJourney : Nat) : Except APIError Store :=
  match mapGet s.journeys journeyId with
  | none => .error ErrNotFound
  | some journey => .ok (s.setJourney journey (s.journeyAt newJourney))

/-- `JourneysStorage.NewJourney`: `journeys[journey.Id] = journey`. -/
def JourneysStorage.NewJourney (s : Store) (journey : Nat) : Store :=
  { s with journeys := mapSet s.journeys (s.journeyAt journey).Id journey }

def JourneysStorage.ResetMemory (s : Store) : Store := { s with journeys := [] }

/-- The first pointer of a slice whose journey has the given id. -/
def findPending (mem : Nat → Journey) (pendingId : Nat) : List Nat → Option Nat
  | [] => none
  | p :: ps => if (mem p).Id = pendingId then some p else findPending mem pendingId ps

/-- The slice without its first entry whose journey has the given id:
`append(pending[:i], pending[i+1:]...)` at the first matching `i`. -/
def removePending (mem : Nat → Journey) (journeyId : Nat) : List Nat → List Nat
  | [] => []
  | p :: ps => if (mem p).Id = journeyId then ps else p :: removePending mem journeyId ps

def PendingStorage.GetAllPendings (s : Store) : List Nat := s.pending

/-- `PendingStorage.FindByID`. -/
def PendingStorage.FindByID (s : Store) (pendingId : Nat) : Except APIError Nat :=
  match findPending s.journeyAt pendingId s.pending with
  | none => .error ErrNotFound
  | some p => .ok p

/-- `PendingStorage.UpdatePending`: `*pending = *newPending` on the first
entry with that id. -/
def PendingStorage.UpdatePending (s : Store) (pendingId newPending : Nat) : Except APIError Store :=
  match findPending s.journeyAt pendingId s.pending with
  | none => .error ErrNotFound
  | some p => .ok (s.setJourney p (s.journeyAt newPending))

/-- `PendingStorage.DeleteById`: drops the first entry with that id, never an error. -/
def PendingStorage.DeleteById (s : Store) (journeyId : Nat) : Store :=
  { s with pending := removePending s.journeyAt journeyId s.pending }

/-- `PendingStorage.NewPending`: `append(pending, p)`. -/
def PendingStorage.NewPending (s : Store) (p : Nat) : Store :=
  { s with pending := s.pending ++ [p] }

def PendingStorage.ResetMemory (s : Store) : Store := { s with pending := [] }

/-! ## `internal/storage/inMemory`: snapshots and transactions

The objects made by `cloneCars`, `cloneJourneys` and `clonePending` are
reachable from nothing but the map or slice that the function returns.  A
clone is therefore kept as the list of the copied struct values; the copies
get their addresses when `Rollback` makes the clone the live collection. -/

/-- `cloneCars`: `copied := *v` for every entry of the map. -/
def cloneCars (mem : Nat → Car) (src : List (Nat × Nat)) : List (Nat × Car) :=
  src.map (fun kv => (kv.1, mem kv.2))

/-- `cloneJourneys`: `copied := *v`; the `AssignedTo` pointer is copied as it is. -/
def cloneJourneys (mem : Nat → Journey) (src : List (Nat × Nat)) : List (Nat × Journey) :=
  src.map (fun kv => (kv.1, mem kv.2))

/-- `clonePending`: `copied := *v` for every entry of the slice. -/
def clonePending (mem : Nat → Journey) (src : List Nat) : List Journey :=
  src.map mem

/-- The struct `Transaction`: the three handles all denote the one live store,
so only the backups and the flag are kept.  A `nil` backup is an empty one. -/
structure Transaction where
  carBackup : List (Nat × Car)
  journeyBackup : List (Nat × Journey)
  pendingBackup : List Journey
  committed : Bool
deriving DecidableEq, Repr

/-- `TransactionFactory.Begin`. -/
def Begin (s : Store) : Transaction :=
  { carBackup := cloneCars s.carAt s.cars
    journeyBackup := cloneJourneys s.journeyAt s.journeys
    pendingBackup := clonePending s.journeyAt s.pending
    committed := false }

/-- `Transaction.Commit`. -/
def Transaction.Commit (u : Transaction) : Transaction :=
  { u with carBackup := [], journeyBackup := [], pendingBackup := [], committed := true }

def Transaction.HasCommited (u : Transaction) : Bool := u.committed

/-- Fresh objects for copied values: the pointers given to them, starting at `base`. -/
def freshPtrs {α : Type} (base : Nat) (vals : List α) : List Nat :=
  List.range' base vals.length

/-- `Transaction.Rollback`: each live collection is replaced by a clone of
its backup, made of fresh objects. -/
def Transaction.Rollback (u : Transaction) (s : Store) : Store :=
  { carObjs := s.carObjs ++ u.carBackup.map Prod.snd
    journeyObjs := s.journeyObjs ++ u.journeyBackup.map Prod.snd ++ u.pendingBackup
    cars := (u.carBackup.map Prod.fst).zip (freshPtrs s.carObjs.length u.carBackup)
    journeys := (u.journeyBackup.map Prod.fst).zip (freshPtrs s.journeyObjs.length u.journeyBackup)
    pending := freshPtrs (s.journeyObjs.length + u.journeyBackup.length) u.pendingBackup }

/-- The deferred `handleTxn(txn)`. -/
def handleTxn (txn : Transaction) (s : Store) : Store :=
  if !txn.HasCommited then txn.Rollback s else s

/-! ## `internal/services`: the operations of `CarPool`

Every operation returns the store as it is once the deferred `handleTxn` has
run, together with what the Go method returns.  `Begin` has no failing path
in the in-memory factory, so the branch on its error is not reachable.  The
objects that a caller hands over (`journey` in `NewJourney`, `cars` in
`ResetCars`) are new objects of the caller; they are placed in the heap on
entry. -/

/-- The loop of `ResetCars` over the car pointers, with the set `seenIDs`. -/
def resetCarsLoop (txn : Transaction) : List Nat → List Nat → Store → Store × Option APIError
  | [], _, s => (handleTxn txn.Commit s, none)
  | car :: cars, seenIDs, s =>
    if !(s.carAt car).HasValidSeats then
      (handleTxn txn s, some ErrInvalidSeats)
    else if (s.carAt car).ID ∈ seenIDs then
      (handleTxn txn s, some ErrDuplicatedID)
    else
      match CarStorage.FindById s (s.carAt car).ID with
      | .error err =>
        if err ≠ ErrNotFound then
          (handleTxn txn s, some (NewAPIError 500 "Failed to check existing car" err.Message))
        else
          resetCarsLoop txn cars ((s.carAt car).ID :: seenIDs) (CarStorage.NewCar s car)
      | .ok _ =>
        resetCarsLoop txn cars ((s.carAt car).ID :: seenIDs) (CarStorage.NewCar s car)

/-- `CarPool.ResetCars(cars)`. -/
def ResetCars (s : Store) (cars : List Car) : Store × Option APIError :=
  let ptrs := freshPtrs s.carObjs.length cars
  let s := { s with carObjs := s.carObjs ++ cars }
  let txn := Begin s
  let s := CarStorage.ResetMemory s
  let s := JourneysStorage.ResetMemory s
  let s := PendingStorage.ResetMemory s
  resetCarsLoop txn ptrs [] s

/-- `CarPool.NewJourney(journey)`. -/
def NewJourney (s : Store) (j : Journey) : Store × Option APIError :=
  let journey := s.journeyObjs.length
  let s := { s with journeyObjs := s.journeyObjs ++ [j] }
  let txn := Begin s
  let lookupFailed : Option APIError :=
    match JourneysStorage.FindById s (s.journeyAt journey).Id with
    | .error err => if err ≠ ErrNotFound then some err else none
    | .ok _ => none
  match lookupFailed with
  | some err =>
    (handleTxn txn s, some (NewAPIError 500 "Failed to check existing journey" err.Message))
  | none =>
    let seats := (s.journeyAt journey).Passengers
    let cars := CarStorage.GetAllCars s
    match findCar s.carAt cars seats with
    | some car =>
      let s := s.setCar car ((s.carAt car).TakeSeats seats)
      match CarStorage.UpdateCar s (s.carAt car).ID car with
      | .error err => (handleTxn txn s, some (NewAPIError 500 "Failed to update car" err.Message))
      | .ok s =>
        let s := s.setJourney journey ((s.journeyAt journey).AssignCar car)
        let s := JourneysStorage.NewJourney s journey
        (handleTxn txn.Commit s, none)
    | none =>
      let s := JourneysStorage.NewJourney s journey
      let s := PendingStorage.NewPending s journey
      (handleTxn txn.Commit s, none)

/-- `CarPool.Dropoff(journeyId)`: the store, the returned car pointer and the error. -/
def Dropoff (s : Store) (journeyId : Nat) : Store × Option Nat × Option APIError :=
  let txn := Begin s
  match JourneysStorage.FindById s journeyId with
  | .error err => (handleTxn txn s, none, some err)
  | .ok journey =>
    let s := JourneysStorage.DeleteById s (s.journeyAt journey).Id
    match (s.journeyAt journey).AssignedTo with
    | some car =>
      let s := s.setCar car ((s.carAt car).FreeUpSeats (s.journeyAt journey).Passengers)
      match CarStorage.UpdateCar s (s.carAt car).ID car with
      | .error err =>
        (handleTxn txn s, none, some (NewAPIError 500 "Failed to update car" err.Message))
      | .ok s => (handleTxn txn.Commit s, some car, none)
    | none =>
      let s := PendingStorage.DeleteById s (s.journeyAt journey).Id
      (handleTxn txn.Commit s, none, none)

/-- The body of the loop of `Reassign` for the pending journey `p`: the store
when the body is left, and the error if it returns one. -/
def reassignBody (car p : Nat) (s : Store) : Store × Option APIError :=
  if (s.journeyAt p).Passengers ≤ (s.carAt car).AvailableSeats then
    let s := s.setJourney p { s.journeyAt p with AssignedTo := some car }
    match PendingStorage.UpdatePending s (s.journeyAt p).Id p with
    | .error err => (s, some (NewAPIError 500 "Failed to update pending journey" err.Message))
    | .ok s =>
      let s := s.setCar car ((s.carAt car).TakeSeats (s.journeyAt p).Passengers)
      match CarStorage.UpdateCar s (s.carAt car).ID car with
      | .error err => (s, some (NewAPIError 500 "Failed to update car" err.Message))
      | .ok s => (PendingStorage.DeleteById s (s.journeyAt p).Id, none)
  else
    (s, none)

/-- The statement `for _, p := range pending` of `Reassign`.  `pending` is
the slice returned by `GetAllPendings`, which is the live slice itself: the
loop runs over the indices `0 .. len-1` fixed at its start and reads
`arr[i]` from the backing array at each round, while `DeleteById` shifts the
live entries of that same array down in place.  `arr` is the backing array
over the initial length; after a round it is the live slice followed by the
cells beyond its length, which keep their old contents. -/
def reassignLoop (car : Nat) : List Nat → List Nat → Store → Store × Option APIError
  | [], _, s => (s, none)
  | i :: is, arr, s =>
    match reassignBody car (arr.getD i 0) s with
    | (s, some err) => (s, some err)
    | (s, none) => reassignLoop car is (s.pending ++ arr.drop s.pending.length) s

/-- `CarPool.Reassign(car)`. -/
def Reassign (s : Store) (car : Nat) : Store × Option APIError :=
  let txn := Begin s
  let pending := PendingStorage.GetAllPendings s
  match reassignLoop car (List.range pending.length) pending s with
  | (s, some err) => (handleTxn txn s, some err)
  | (s, none) => (handleTxn txn.Commit s, none)

/-- `CarPool.Locate(journeyId)`.  The transaction it begins is neither committed
nor rolled back, and no `handleTxn` is deferred: the store is only read. -/
def Locate (s : Store) (journeyId : Nat) : Store × Option Nat × Option APIError :=
  match JourneysStorage.FindById s journeyId with
  | .error err => (s, none, some err)
  | .ok journey => (s, (s.journeyAt journey).AssignedTo, none)

/-! ## Contents of the store by value -/

/-- A journey with its assigned car read through the pointer. -/
structure JourneyValue where
  Id : Nat
  Passengers : Nat
  AssignedTo : Option Car
deriving DecidableEq, Repr

def Store.journeyValue (s : Store) (j : Journey) : JourneyValue :=
  { Id := j.Id, Passengers := j.Passengers, AssignedTo := j.AssignedTo.map s.carAt }

/-- The car store by value: each key with the car filed under it. -/
def Store.carsValue (s : Store) : List (Nat × Car) :=
  s.cars.map (fun kv => (kv.1, s.carAt kv.2))

/-- The journey store by value. -/
def Store.journeysValue (s : Store) : List (Nat × JourneyValue) :=
  s.journeys.map (fun kv => (kv.1, s.journeyValue (s.journeyAt kv.2)))

/-- The pending queue by value, in queue order. -/
def Store.pendingValue (s : Store) : List JourneyValue :=
  s.pending.map (fun p => s.journeyValue (s.journeyAt p))

/-! ## Well-formed stores -/

/-- Every pointer held by the store refers to an allocated object, as Go
guarantees of any non-nil pointer. -/
def Store.PtrValid (s : Store) : Prop :=
  (∀ kv ∈ s.cars, kv.2 < s.carObjs.length) ∧
  (∀ kv ∈ s.journeys, kv.2 < s.journeyObjs.length) ∧
  (∀ p ∈ s.pending, p < s.journeyObjs.length) ∧
  (∀ j ∈ s.journeyObjs, ∀ c ∈ j.AssignedTo, c < s.carObjs.length)

instance (s : Store) : Decidable s.PtrValid := by
  unfold Store.PtrValid
  infer_instance

/-- Every car of the car store is filed under its own `ID`, which is how
`NewCar` files it. -/
def Store.CarsKeyed (s : Store) : Prop :=
  ∀ kv ∈ s.cars, mapGet s.cars (s.carAt kv.2).ID = some kv.2

instance (s : Store) : Decidable s.CarsKeyed := by
  unfold Store.CarsKeyed
  infer_instance

/-! ## The reassignment pass as the specification words it -/

/-- The single front-to-back pass of the specification over the pending
queue `q` with the running seat count `a`: a journey is assigned exactly when
its passengers fit in `a` at the moment it is visited.  The result is the
journeys assigned, the journeys left pending, and the final seat count. -/
def specReassignPass (passengers : Nat → Nat) : List Nat → Nat → List Nat × List Nat × Nat
  | [], a => ([], [], a)
  | p :: q, a =>
    if passengers p ≤ a then
      let r := specReassignPass passengers q (a - passengers p)
      (p :: r.1, r.2.1, r.2.2)
    else
      let r := specReassignPass passengers q a
      (r.1, p :: r.2.1, r.2.2)

/-! ## Stores used as examples -/

/-- A fleet of two free cars: ID 1 with 6 seats, ID 2 with 4 seats. -/
def twoCars : Store :=
  { carObjs := [⟨1, 6, 6⟩, ⟨2, 4, 4⟩], journeyObjs := [], cars := [(1, 0), (2, 1)],
    journeys := [], pending := [] }

/-- The store after `ResetCars` of one car with ID 1, 4 seats and `maxUint`
seats available. -/
def maxCar : Store :=
  { carObjs := [⟨1, 4, maxUint⟩], journeyObjs := [], cars := [(1, 0)],
    journeys := [], pending := [] }

/-- A single car with ID 1 and 4 seats, all available. -/
def oneCar : Store :=
  { carObjs := [⟨1, 4, 4⟩], journeyObjs := [], cars := [(1, 0)],
    journeys := [], pending := [] }

/-- One car with ID 1 and 6 seats available, and the pending queue of the
journeys 30 (2 passengers), 31 (2 passengers) and 32 (5 passengers); the
journey 10 has just been dropped off. -/
def threePending : Store :=
  { carObjs := [⟨1, 6, 6⟩]
    journeyObjs := [⟨10, 6, some 0⟩, ⟨30, 2, none⟩, ⟨31, 2, none⟩, ⟨32, 5, none⟩]
    cars := [(1, 0)]
    journeys := [(30, 1), (31, 2), (32, 3)]
    pending := [1, 2, 3] }

/-- A store reached through the service (see `wrapStore_reached`): the car
with ID 1 has `2 ^ 64 - 2` seats available and the journey 3, of 2
passengers, is assigned to it. -/
def wrapStore : Store :=
  { carObjs := [⟨1, 4, 2 ^ 64 - 2⟩, ⟨9, 0, 0⟩, ⟨1, 4, 2 ^ 64 - 2⟩]
    journeyObjs := [⟨1, 2 ^ 64 - 5, some 0⟩, ⟨2, 1, some 0⟩, ⟨1, 2 ^ 64 - 5, some 0⟩,
      ⟨2, 1, some 0⟩, ⟨3, 2, some 2⟩]
    cars := [(1, 2)]
    journeys := [(3, 4)]
    pending := [] }

/-- A car with ID 1 of which 2 seats are taken by the journey 20. -/
def oneAssigned : Store :=
  { carObjs := [⟨1, 6, 4⟩], journeyObjs := [⟨20, 2, some 0⟩], cars := [(1, 0)],
    journeys := [(20, 0)], pending := [] }

/-- An empty fleet with the journeys 21 and 22 pending. -/
def twoQueued : Store :=
  { carObjs := [], journeyObjs := [⟨21, 3, none⟩, ⟨22, 5, none⟩], cars := [],
    journeys := [(21, 0), (22, 1)], pending := [0, 1] }

/-- The store after `ResetCars` of one car (ID 1, 4 seats) and `NewJourney`
of the journey 5 with 4 passengers: the car is full and the journey is
assigned to it. -/
def carTaken : Store :=
  { carObjs := [⟨1, 4, 0⟩], journeyObjs := [⟨5, 4, some 0⟩], cars := [(1, 0)],
    journeys := [(5, 0)], pending := [] }

/-- A fleet with the cars 1 and 2, the journey 40 assigned to car 2 and the
journey 41 pending. -/
def busyStore : Store :=
  { carObjs := [⟨1, 4, 4⟩, ⟨2, 4, 0⟩]
    journeyObjs := [⟨40, 4, some 1⟩, ⟨41, 6, none⟩]
    cars := [(1, 0), (2, 1)]
    journeys := [(40, 0), (41, 1)]
    pending := [1] }

/-- The store `carTaken` once a caller has made a car object of value
`(1, 4, 4)` and passed it to `UpdateCar(1, ·)`. -/
def carTakenUpdated : Store :=
  { carObjs := [⟨1, 4, 4⟩, ⟨1, 4, 4⟩], journeyObjs := [⟨5, 4, some 0⟩], cars := [(1, 0)],
    journeys := [(5, 0)], pending := [] }

/-- The car map holds every key once and files every car under its own `ID`:
the state of a Go map filled by `NewCar`. -/
def Store.CarsFiled (s : Store) : Prop :=
  (s.cars.map Prod.fst).Nodup ∧ ∀ kv ∈ s.cars, (s.carAt kv.2).ID = kv.1

instance (s : Store) : Decidable s.CarsFiled := by
  unfold Store.CarsFiled
  infer_instance

/-! ## `internal/controllers`: the handlers, past the decoding of the request

The checks on the method and the content type and the decoding of the body
belong to the HTTP layer; a handler is given the decoded body and returns the
store and the status code it answers with.  The binding rule `required` on
the field `ID` of the dropoff and locate forms is applied to the decoded
value and is part of the handler here.  `Journey` and `Car` carry no binding
rule: a journey is bound with whatever `assignedTo` the body gives, the car of
that field being a new object made by the decoder. -/

/-- `CarPool.PutCars`: `car.AvailableSeats = car.Seats` for every car of the
body, then `ResetCars`. -/
def PutCars (s : Store) (cars : List Car) : Store × Nat :=
  let cars := cars.map (fun car => { car with AvailableSeats := car.Seats })
  match ResetCars s cars with
  | (s, some err) => (s, err.HTTPStatus)
  | (s, none) => (s, 200)

/-- `CarPool.PostJourney`. -/
def PostJourney (s : Store) (journey : Journey) : Store × Nat :=
  match NewJourney s journey with
  | (s, some err) => (s, err.HTTPStatus)
  | (s, none) => (s, 200)

/-- `CarPool.PostDropoff`.  The form field `ID` is bound with the rule
`required`, which refuses the zero value: `ctx.Bind` then answers 400 and the
handler returns before `Dropoff` is called.  Otherwise `Dropoff`, then
`Reassign` of the returned car; an error of `Reassign` is logged and the
answer is still 200. -/
def PostDropoff (s : Store) (id : Nat) : Store × Nat :=
  if id = 0 then
    (s, 400)
  else
    match Dropoff s id with
    | (s, _, some err) => (s, err.HTTPStatus)
    | (s, none, none) => (s, 204)
    | (s, some car, none) => ((Reassign s car).1, 200)

/-- `CarPool.PostLocate`: the status and the car written as the body.  The
form field `ID` is bound with the rule `required` as in `PostDropoff`: for the
zero value the answer is 400 and `Locate` is not called. -/
def PostLocate (s : Store) (id : Nat) : Store × Nat × Option Car :=
  if id = 0 then
    (s, 400, none)
  else
    match Locate s id with
    | (s, _, some err) => (s, err.HTTPStatus, none)
    | (s, none, none) => (s, 204, none)
    | (s, some car, none) => (s, 200, some (s.carAt car))

/-- A request that changes the store. -/
inductive Call where
  | putCars (cars : List Car)
  | postJourney (id passengers : Nat)
  | postDropoff (id : Nat)
deriving DecidableEq, Repr

/-- The store after one request. -/
def Call.run (s : Store) : Call → Store
  | .putCars cars => (PutCars s cars).1
  | .postJourney id passengers => (PostJourney s ⟨id, passengers, none⟩).1
  | .postDropoff id => (PostDropoff s id).1

/-- The store after a sequence of requests, starting from `s`. -/
def runCalls (s : Store) (calls : List Call) : Store := calls.foldl Call.run s

/-! ## The invariants of the data model -/

/-- The passengers of the journeys of the journey store whose assigned car
has the ID `carId`. -/
def Store.assignedPassengers (s : Store) (carId : Nat) : Nat :=
  ((s.journeysValue.filter
    (fun kv => decide ((kv.2.AssignedTo.map Car.ID) = some carId))).map
      (fun kv => kv.2.Passengers)).sum

/-- Seat-sum invariant: for every stored car the seats in use are the
passengers of the journeys assigned to it. -/
def Store.SeatSum (s : Store) : Prop :=
  ∀ kv ∈ s.carsValue, kv.2.Seats = kv.2.AvailableSeats + s.assignedPassengers kv.1

instance (s : Store) : Decidable s.SeatSum := by
  unfold Store.SeatSum
  infer_instance

/-- Seat-bounds invariant: no stored car has more seats available than seats. -/
def Store.SeatBounds (s : Store) : Prop :=
  ∀ kv ∈ s.carsValue, kv.2.AvailableSeats ≤ kv.2.Seats

instance (s : Store) : Decidable s.SeatBounds := by
  unfold Store.SeatBounds
  infer_instance

/-- The IDs of the journeys of the pending queue, in queue order. -/
def Store.pendingIds (s : Store) : List Nat := s.pendingValue.map JourneyValue.Id

/-- Pending-XOR-assigned invariant: a journey of the journey store is in the
pending queue exactly when it has no assigned car, and every entry of the
pending queue is in the journey store. -/
def Store.PendingXorAssigned (s : Store) : Prop :=
  (∀ kv ∈ s.journeysValue, kv.1 ∈ s.pendingIds ↔ kv.2.AssignedTo = none) ∧
    ∀ id ∈ s.pendingIds, (mapGet s.journeys id).isSome

instance (s : Store) : Decidable s.PendingXorAssigned := by
  unfold Store.PendingXorAssigned
  infer_instance

/-- Pending-queue uniqueness: no two entries of the queue have the same ID. -/
def Store.PendingUnique (s : Store) : Prop := s.pendingIds.Nodup

instance (s : Store) : Decidable s.PendingUnique := by
  unfold Store.PendingUnique
  infer_instance

/-- A store in use: the car 1 carries the journey 1, the journey 2 is pending. -/
def usedStore : Store :=
  { carObjs := [⟨1, 4, 0⟩]
    journeyObjs := [⟨1, 4, some 0⟩, ⟨2, 3, none⟩]
    cars := [(1, 0)]
    journeys := [(1, 0), (2, 1)]
    pending := [1] }

/-! ## Sequences of requests used as examples -/

/-- A fleet of one car with 6 seats, then two journeys with the same ID 7. -/
def repeatedIdCalls : List Call :=
  [.putCars [⟨1, 6, 0⟩], .postJourney 7 2, .postJourney 7 3]

/-- Two journeys with the same ID 7 on an empty fleet. -/
def queuedTwiceCalls : List Call :=
  [.postJourney 7 9, .postJourney 7 8]

/-- A car with 4 seats filled by the journeys 1 and 2, a dropoff of the unknown
journey 99, then the dropoff of 1, the journey 3 and the dropoff of 2. -/
def staleCarCalls : List Call :=
  [.putCars [⟨1, 4, 0⟩], .postJourney 1 2, .postJourney 2 2, .postDropoff 99,
    .postDropoff 1, .postJourney 3 2, .postDropoff 2]

/-- A car with 4 seats filled by the journey 1, the journey 2 pending, and a
dropoff of the unknown journey 99. -/
def staleQueueCalls : List Call :=
  [.putCars [⟨1, 4, 0⟩], .postJourney 1 4, .postJourney 2 3, .postDropoff 99]

/-- Two cars with the same number of seats available. -/
def tiedCars : Store :=
  { carObjs := [⟨1, 4, 4⟩, ⟨2, 4, 4⟩], journeyObjs := [], cars := [(1, 0), (2, 1)],
    journeys := [], pending := [] }

/-! ## Calls on a transaction, with the store and the returned error -/

/-- A call `u.Commit()` seen whole: the transaction and the live store after
the call and the error returned, which is `nil` on every path. The method
writes the fields of `u` only. -/
def Transaction.CommitCall (u : Transaction) (s : Store) :
    Transaction × Store × Option APIError :=
  (u.Commit, s, none)

/-- A call `u.Rollback()` seen whole: the method writes the three live
collections and no field of `u`, and returns `nil`. -/
def Transaction.RollbackCall (u : Transaction) (s : Store) :
    Transaction × Store × Option APIError :=
  (u, u.Rollback s, none)

/-- A car with 6 seats carrying the journeys 10 (4 passengers) and 11 (2
passengers), and the journeys 30 (2), 31 (5) and 32 (1) pending. -/
def failingReassignCalls : List Call :=
  [.putCars [⟨1, 6, 0⟩], .postJourney 10 4, .postJourney 11 2, .postJourney 30 2,
    .postJourney 31 5, .postJourney 32 1]

/-- The call `NewCar(&car)` through a transaction handle, for a car object
that the caller has just made: the handle is the live car storage. -/
def insertNewCar (s : Store) (car : Car) : Store :=
  CarStorage.NewCar { s with carObjs := s.carObjs ++ [car] } s.carObjs.length

/-! ## The mutexes of the three storages

Each storage struct holds its collection (`cars`, `journeys`, `pending`) and
a `sync.RWMutex` named `mu`.  What follows records, for every method that
touches a collection, the calls on the mutexes and the accesses to the
collections in program order.  An access is to the field or to the map or
slice it holds; the car and journey objects behind the pointers are not part
of it. -/

/-- The three collections, each with the mutex of its storage. -/
inductive Coll where
  | cars
  | journeys
  | pending
deriving DecidableEq, Repr

/-- A call on the mutex of a collection, or an access to the collection. -/
inductive Sync where
  | RLock (c : Coll)
  | RUnlock (c : Coll)
  | Lock (c : Coll)
  | Unlock (c : Coll)
  | load (c : Coll)
  | store (c : Coll)
deriving DecidableEq, Repr

/-- The methods of the three storages, of the transaction and of its factory,
and the loop of `Reassign` over the slice that `GetAllPendings` returned. -/
inductive Method where
  | carFindById
  | carGetAllCars
  | carUpdateCar
  | carNewCar
  | carResetMemory
  | journeyFindById
  | journeyDeleteById
  | journeyUpdateJourney
  | journeyNewJourney
  | journeyResetMemory
  | pendingGetAllPendings
  | pendingFindByID
  | pendingUpdatePending
  | pendingDeleteById
  | pendingNewPending
  | pendingResetMemory
  | factoryBegin
  | txnCommit
  | txnRollback
  | reassignRange
deriving DecidableEq, Repr

/-- The mutex calls and collection accesses of a method, in program order, on
the path that touches the collection most (an entry found, for `DeleteById`).
`Begin` reads the three collections to clone them and `Rollback` assigns the
three fields, neither with a call on a mutex; `Commit` touches no collection.
`reassignRange` is `pending := GetAllPendings()` followed by a round of
`for _, p := range pending`: the slice returned is the live one, and its cell
is read after `RUnlock`. -/
def Method.sync : Method → List Sync
  | .carFindById => [.RLock .cars, .load .cars, .RUnlock .cars]
  | .carGetAllCars => [.RLock .cars, .load .cars, .RUnlock .cars]
  | .carUpdateCar => [.Lock .cars, .load .cars, .Unlock .cars]
  | .carNewCar => [.Lock .cars, .store .cars, .Unlock .cars]
  | .carResetMemory => [.Lock .cars, .store .cars, .Unlock .cars]
  | .journeyFindById => [.RLock .journeys, .load .journeys, .RUnlock .journeys]
  | .journeyDeleteById => [.Lock .journeys, .store .journeys, .Unlock .journeys]
  | .journeyUpdateJourney => [.Lock .journeys, .load .journeys, .Unlock .journeys]
  | .journeyNewJourney => [.Lock .journeys, .store .journeys, .Unlock .journeys]
  | .journeyResetMemory => [.Lock .journeys, .store .journeys, .Unlock .journeys]
  | .pendingGetAllPendings => [.RLock .pending, .load .pending, .RUnlock .pending]
  | .pendingFindByID => [.RLock .pending, .load .pending, .RUnlock .pending]
  | .pendingUpdatePending => [.Lock .pending, .load .pending, .Unlock .pending]
  | .pendingDeleteById => [.Lock .pending, .load .pending, .store .pending, .Unlock .pending]
  | .pendingNewPending => [.Lock .pending, .load .pending, .store .pending, .Unlock .pending]
  | .pendingResetMemory => [.Lock .pending, .store .pending, .Unlock .pending]
  | .factoryBegin => [.load .cars, .load .journeys, .load .pending]
  | .txnCommit => []
  | .txnRollback => [.store .cars, .store .journeys, .store .pending]
  | .reassignRange => [.RLock .pending, .load .pending, .RUnlock .pending, .load .pending]

/-- Every method of `Method`. -/
def Method.all : List Method :=
  [.carFindById, .carGetAllCars, .carUpdateCar, .carNewCar, .carResetMemory,
    .journeyFindById, .journeyDeleteById, .journeyUpdateJourney, .journeyNewJourney,
    .journeyResetMemory, .pendingGetAllPendings, .pendingFindByID, .pendingUpdatePending,
    .pendingDeleteById, .pendingNewPending, .pendingResetMemory, .factoryBegin, .txnCommit,
    .txnRollback, .reassignRange]

/-- How a goroutine holds the mutex of a collection at an access. -/
inductive Held where
  | free
  | shared
  | exclusive
deriving DecidableEq, Repr

/-- An access to a collection: whether it writes, and how the mutex is held. -/
structure Access where
  coll : Coll
  writes : Bool
  held : Held
deriving DecidableEq, Repr

/-- The accesses of a run of mutex calls and accesses, each with the way the
running goroutine holds the mutex of its collection; `h` gives that for every
collection at the start. -/
def accesses (h : Coll → Held) : List Sync → List Access
  | [] => []
  | .RLock c :: t => accesses (fun d => if d = c then .shared else h d) t
  | .RUnlock c :: t => accesses (fun d => if d = c then .free else h d) t
  | .Lock c :: t => accesses (fun d => if d = c then .exclusive else h d) t
  | .Unlock c :: t => accesses (fun d => if d = c then .free else h d) t
  | .load c :: t => ⟨c, false, h c⟩ :: accesses h t
  | .store c :: t => ⟨c, true, h c⟩ :: accesses h t

/-- The accesses of a method called by a goroutine that holds no mutex. -/
def Method.accesses (m : Method) : List Access := CarPool.accesses (fun _ => .free) m.sync

/-- An access is guarded when its goroutine holds the mutex of the collection:
in either mode for a read, exclusively for a write. -/
def Access.guarded (a : Access) : Bool :=
  if a.writes then decide (a.held = .exclusive) else decide (a.held ≠ .free)

/-- Two accesses made by two goroutines can overlap in time unless a mutex
keeps them apart, which it does when one goroutine holds it exclusively and the
other holds it in some mode. -/
def Access.apart (a b : Access) : Bool :=
  (decide (a.held = .exclusive) && decide (b.held ≠ .free)) ||
    (decide (b.held = .exclusive) && decide (a.held ≠ .free))

/-- A data race between two accesses: the same collection, one of them a
write, and no mutex keeping them apart. -/
def Access.races (a b : Access) : Bool :=
  decide (a.coll = b.coll) && (a.writes || b.writes) && !(a.apart b)

/-- Two methods running in parallel race when an access of one races with an
access of the other. -/
def Method.races (m n : Method) : Bool :=
  m.accesses.any (fun a => n.accesses.any (fun b => a.races b))

/-! ## The calls of `TakeSeats`

`TakeSeats` is called once in `NewJourney` and once in the loop body of
`Reassign`.  The functions below follow the same paths as `NewJourney`,
`reassignBody` and `reassignLoop` and return, for every call
`car.TakeSeats(amount)` that is made, the seats available in the car when the
call is made and the amount. -/

/-- The call of `TakeSeats` in `NewJourney(journey)`, if the path reaches it. -/
def NewJourney.takes (s : Store) (j : Journey) : List (Nat × Nat) :=
  let journey := s.journeyObjs.length
  let s := { s with journeyObjs := s.journeyObjs ++ [j] }
  let lookupFailed : Option APIError :=
    match JourneysStorage.FindById s (s.journeyAt journey).Id with
    | .error err => if err ≠ ErrNotFound then some err else none
    | .ok _ => none
  match lookupFailed with
  | some _ => []
  | none =>
    let seats := (s.journeyAt journey).Passengers
    let cars := CarStorage.GetAllCars s
    match findCar s.carAt cars seats with
    | some car => [((s.carAt car).AvailableSeats, seats)]
    | none => []

/-- The call of `TakeSeats` in the loop body of `Reassign` for the pending
journey `p`, if the path reaches it: after the test and `UpdatePending`. -/
def reassignBody.takes (car p : Nat) (s : Store) : List (Nat × Nat) :=
  if (s.journeyAt p).Passengers ≤ (s.carAt car).AvailableSeats then
    let s := s.setJourney p { s.journeyAt p with AssignedTo := some car }
    match PendingStorage.UpdatePending s (s.journeyAt p).Id p with
    | .error _ => []
    | .ok s => [((s.carAt car).AvailableSeats, (s.journeyAt p).Passengers)]
  else
    []

/-- The calls of `TakeSeats` over the rounds of the loop of `Reassign`. -/
def reassignLoop.takes (car : Nat) : List Nat → List Nat → Store → List (Nat × Nat)
  | [], _, _ => []
  | i :: is, arr, s =>
    reassignBody.takes car (arr.getD i 0) s ++
      match reassignBody car (arr.getD i 0) s with
      | (_, some _) => []
      | (s, none) => reassignLoop.takes car is (s.pending ++ arr.drop s.pending.length) s

/-- The calls of `TakeSeats` in `Reassign(car)`. -/
def Reassign.takes (s : Store) (car : Nat) : List (Nat × Nat) :=
  let pending := PendingStorage.GetAllPendings s
  reassignLoop.takes car (List.range pending.length) pending s

/-! ## Further example stores and runs -/

/-- Two cars that both have `maxUint` seats available. -/
def twoMaxCars : Store :=
  { carObjs := [⟨1, 4, maxUint⟩, ⟨2, 4, maxUint⟩], journeyObjs := [], cars := [(1, 0), (2, 1)],
    journeys := [], pending := [] }

/-- A car with 4 seats filled by the journey 10, then two journeys with the
same ID 7, of 5 and of 2 passengers, which both go to the pending queue. -/
def repeatedPendingCalls : List Call :=
  [.putCars [⟨1, 4, 0⟩], .postJourney 10 4, .postJourney 7 5, .postJourney 7 2]

/-! ## What `Reassign` keeps -/

/-- The relation between the store `s0` in which `Reassign(c)` starts and the
store `s` after some rounds of its loop: the car map and the journey map are
the same, no car other than `c` is written, `c` keeps its ID and seats, every
journey object keeps its ID and passengers, the pending queue is the initial
one without the journeys `removed`, and the seats that `c` has lost are the
passengers of those journeys. -/
def Store.ReassignedFrom (s s0 : Store) (c : Nat) : Prop :=
  s.cars = s0.cars ∧ s.journeys = s0.journeys ∧
  s.carObjs.length = s0.carObjs.length ∧
  (∀ q, q ≠ c → s.carAt q = s0.carAt q) ∧
  (s.carAt c).ID = (s0.carAt c).ID ∧ (s.carAt c).Seats = (s0.carAt c).Seats ∧
  s.journeyObjs.length = s0.journeyObjs.length ∧
  (∀ q, (s.journeyAt q).Id = (s0.journeyAt q).Id ∧
    (s.journeyAt q).Passengers = (s0.journeyAt q).Passengers) ∧
  s.pending.Sublist s0.pending ∧
  ∃ removed, s0.pending.Perm (s.pending ++ removed) ∧
    (s.carAt c).AvailableSeats + (removed.map (fun q => (s0.journeyAt q).Passengers)).sum =
      (s0.carAt c).AvailableSeats

theorem mapGet_mapSet_self (m : List (Nat × Nat)) (k v : Nat) :
    mapGet (mapSet m k v) k = some v := by
  induction m with
  | nil => simp [mapSet, mapGet]
  | cons x xs ih =>
    obtain ⟨a, b⟩ := x
    by_cases h : a = k
    · simp [mapSet, mapGet, h]
    · simp [mapSet, mapGet, h, ih]

theorem mapGet_mapDel_self (m : List (Nat × Nat)) (k : Nat) :
    mapGet (mapDel m k) k = none := by
  induction m with
  | nil => simp [mapDel, mapGet]
  | cons x xs ih =>
    obtain ⟨a, b⟩ := x
    by_cases h : a = k
    · simpa [mapDel, h] using ih
    · simpa [mapDel, h, mapGet] using ih

theorem uintSub_of_le (a b : Nat) (hb : b ≤ a) (ha : a < uintSize) : uintSub a b = a - b := by
  unfold uintSub uintSize at *
  have h1 : b % 2 ^ 64 = b := Nat.mod_eq_of_lt (by omega)
  rw [h1]
  have h2 : a + 2 ^ 64 - b = (a - b) + 2 ^ 64 := by omega
  rw [h2, Nat.add_mod_right]
  exact Nat.mod_eq_of_lt (by omega)

theorem carAt_setCar_self (s : Store) (p : Nat) (c : Car) (hp : p < s.carObjs.length) :
    (s.setCar p c).carAt p = c := by
  simp [Store.setCar, Store.carAt, List.getD_eq_getElem?_getD, hp]

theorem carAt_setCar_ne (s : Store) (p a : Nat) (c : Car) (ha : a ≠ p) :
    (s.setCar p c).carAt a = s.carAt a := by
  simp [Store.setCar, Store.carAt, List.getD_eq_getElem?_getD, List.getElem?_set, Ne.symm ha]


theorem findCarLoop_isSome (mem : Nat → Car) (seats : Nat) :
    ∀ (cars : List Nat) (bestCar : Option Nat) (minSeats : Nat),
      (bestCar.isSome ∨ ∃ p ∈ cars, seats ≤ (mem p).AvailableSeats ∧
          (mem p).AvailableSeats < minSeats) →
      (findCarLoop mem seats cars bestCar minSeats).isSome := by
  intro cars
  induction cars with
  | nil =>
    intro bestCar minSeats h
    rcases h with h | ⟨p, hp, _⟩
    · simpa [findCarLoop] using h
    · cases hp
  | cons x xs ih =>
    intro bestCar minSeats h
    unfold findCarLoop
    split
    · exact ih _ _ (Or.inl rfl)
    · rename_i hx
      apply ih
      rcases h with h | ⟨p, hp, hs, hlt⟩
      · exact Or.inl h
      · rcases List.mem_cons.mp hp with rfl | hp
        · exact absurd ⟨hs, hlt⟩ hx
        · exact Or.inr ⟨p, hp, hs, hlt⟩

theorem findById_not_failed (s : Store) (k : Nat) :
    (match JourneysStorage.FindById s k with
      | .error err => if err ≠ ErrNotFound then some err else none
      | .ok _ => none) = none := by
  unfold JourneysStorage.FindById
  cases mapGet s.journeys k <;> simp

theorem journeyAt_append_new (s : Store) (j : Journey) :
    ({ s with journeyObjs := s.journeyObjs ++ [j] } : Store).journeyAt s.journeyObjs.length = j := by
  simp [Store.journeyAt, List.getD_eq_getElem?_getD]

theorem NewJourney_pending_eq (s : Store) (j : Journey)
    (h : findCar s.carAt (CarStorage.GetAllCars s) j.Passengers = none) :
    NewJourney s j =
      ({ s with
          journeyObjs := s.journeyObjs ++ [j]
          journeys := mapSet s.journeys j.Id s.journeyObjs.length
          pending := s.pending ++ [s.journeyObjs.length] }, none) := by
  unfold NewJourney
  simp only [findById_not_failed, journeyAt_append_new]
  have h2 : findCar ({ s with journeyObjs := s.journeyObjs ++ [j] } : Store).carAt
      (CarStorage.GetAllCars { s with journeyObjs := s.journeyObjs ++ [j] }) j.Passengers = none := h
  simp only [h2]
  simp [JourneysStorage.NewJourney, PendingStorage.NewPending, handleTxn, Transaction.Commit,
    Transaction.HasCommited, journeyAt_append_new]

theorem NewJourney_assigned_eq (s : Store) (j : Journey) (c : Nat)
    (hc : c < s.carObjs.length)
    (hkey : mapGet s.cars (s.carAt c).ID = some c)
    (h : findCar s.carAt (CarStorage.GetAllCars s) j.Passengers = some c) :
    NewJourney s j =
      ({ s with
          carObjs := s.carObjs.set c ((s.carAt c).TakeSeats j.Passengers)
          journeyObjs := s.journeyObjs ++ [j.AssignCar c]
          journeys := mapSet s.journeys j.Id s.journeyObjs.length }, none) := by
  unfold NewJourney
  simp only [findById_not_failed, journeyAt_append_new]
  have h2 : findCar ({ s with journeyObjs := s.journeyObjs ++ [j] } : Store).carAt
      (CarStorage.GetAllCars { s with journeyObjs := s.journeyObjs ++ [j] }) j.Passengers = some c := h
  simp only [h2]
  have h3 : (Store.setCar { s with journeyObjs := s.journeyObjs ++ [j] } c
      ((Store.carAt { s with journeyObjs := s.journeyObjs ++ [j] } c).TakeSeats j.Passengers)).carAt c
      = (s.carAt c).TakeSeats j.Passengers := by
    exact carAt_setCar_self { s with journeyObjs := s.journeyObjs ++ [j] } c _ hc
  simp only [CarStorage.UpdateCar, h3]
  have h4 : ((s.carAt c).TakeSeats j.Passengers).ID = (s.carAt c).ID := rfl
  simp only [h4, Store.setCar, hkey]
  simp [JourneysStorage.NewJourney, handleTxn, Transaction.Commit,
    Transaction.HasCommited, Store.setJourney, Store.journeyAt, List.getD_eq_getElem?_getD,
    Journey.AssignCar]


theorem findCarLoop_spec (mem : Nat → Car) (seats : Nat) :
    ∀ (cars : List Nat) (bestCar : Option Nat) (minSeats c : Nat),
      findCarLoop mem seats cars bestCar minSeats = some c →
      (c ∈ cars ∧ seats ≤ (mem c).AvailableSeats ∧ (mem c).AvailableSeats < minSeats ∧
          ∀ d ∈ cars, seats ≤ (mem d).AvailableSeats →
            (mem c).AvailableSeats ≤ (mem d).AvailableSeats) ∨
      (bestCar = some c ∧
          ∀ d ∈ cars, seats ≤ (mem d).AvailableSeats → minSeats ≤ (mem d).AvailableSeats) := by
  intro cars
  induction cars with
  | nil =>
    intro bestCar minSeats c h
    right
    exact ⟨by simpa [findCarLoop] using h, by simp⟩
  | cons x xs ih =>
    intro bestCar minSeats c h
    unfold findCarLoop at h
    split at h
    · rename_i hx
      rcases ih _ _ _ h with ⟨hc, hs, hle, hall⟩ | ⟨hb, hall⟩
      · left
        refine ⟨List.mem_cons_of_mem _ hc, hs, by omega, ?_⟩
        intro d hd hsd
        rcases List.mem_cons.mp hd with rfl | hd
        · omega
        · exact hall d hd hsd
      · left
        have hxc : x = c := by simpa using hb
        subst hxc
        refine ⟨List.mem_cons_self _ _, hx.1, hx.2, ?_⟩
        intro d hd hsd
        rcases List.mem_cons.mp hd with rfl | hd
        · exact le_refl _
        · exact hall d hd hsd
    · rename_i hx
      rcases ih _ _ _ h with ⟨hc, hs, hle, hall⟩ | ⟨hb, hall⟩
      · left
        refine ⟨List.mem_cons_of_mem _ hc, hs, hle, ?_⟩
        intro d hd hsd
        rcases List.mem_cons.mp hd with rfl | hd
        · have : minSeats ≤ (mem d).AvailableSeats := by
            by_contra hlt
            exact hx ⟨hsd, by omega⟩
          omega
        · exact hall d hd hsd
      · right
        refine ⟨hb, ?_⟩
        intro d hd hsd
        rcases List.mem_cons.mp hd with rfl | hd
        · by_contra hlt
          exact hx ⟨hsd, by omega⟩
        · exact hall d hd hsd

theorem findCar_lt_maxUint (mem : Nat → Car) (cars : List Nat) (s c : Nat)
    (h : findCar mem cars s = some c) :
    c ∈ cars ∧ s ≤ (mem c).AvailableSeats ∧ (mem c).AvailableSeats < maxUint := by
  rcases findCarLoop_spec mem s cars none maxUint c h with ⟨hc, hs, hlt, _⟩ | ⟨hb, _⟩
  · exact ⟨hc, hs, hlt⟩
  · cases hb

/-- C1. Best-fit selection: a car returned by `findCar` is one of the cars
of the list, has at least the requested seats available, and no car of the
list with enough seats available has fewer seats available than it. -/
theorem findCar_best_fit (mem : Nat → Car) (cars : List Nat) (s c : Nat)
    (h : findCar mem cars s = some c) :
    c ∈ cars ∧ s ≤ (mem c).AvailableSeats ∧
      ∀ d ∈ cars, s ≤ (mem d).AvailableSeats →
        (mem c).AvailableSeats ≤ (mem d).AvailableSeats := by
  rcases findCarLoop_spec mem s cars none maxUint c h with ⟨hc, hs, _, hall⟩ | ⟨hb, _⟩
  · exact ⟨hc, hs, hall⟩
  · cases hb

/-- Witness of C1: of the cars with ID 1 (6 available) and ID 2 (4 available),
a request for 4 seats selects the car with ID 2. -/
theorem findCar_best_fit_witness :
    findCar twoCars.carAt [0, 1] 4 = some 1 ∧ (twoCars.carAt 1).ID = 2 ∧
      (1 ∈ [0, 1] ∧ 4 ≤ (twoCars.carAt 1).AvailableSeats ∧
        ∀ d ∈ [0, 1], 4 ≤ (twoCars.carAt d).AvailableSeats →
          (twoCars.carAt 1).AvailableSeats ≤ (twoCars.carAt d).AvailableSeats) :=
  ⟨by decide, by decide, findCar_best_fit twoCars.carAt [0, 1] 4 1 (by decide)⟩

/-- C3, as amended. When some stored car has enough seats available for `j`
and fewer than `maxUint`, `NewJourney` succeeds: the car `c` that `findCar`
selects loses exactly `j.Passengers` available seats, no other car object and
no entry of the car map changes, the journey store files under `j.Id` a new
journey object equal to `j` with `c` as assigned car, and the pending queue
and the journeys in it are unchanged, the new journey not being among them. -/
theorem NewJourney_assigns_best_fit (s : Store) (j : Journey)
    (hv : s.PtrValid) (hk : s.CarsKeyed)
    (hq : ∃ p ∈ CarStorage.GetAllCars s,
      j.Passengers ≤ (s.carAt p).AvailableSeats ∧ (s.carAt p).AvailableSeats < maxUint) :
    ∃ c, findCar s.carAt (CarStorage.GetAllCars s) j.Passengers = some c ∧
      (NewJourney s j).2 = none ∧
      j.Passengers ≤ (s.carAt c).AvailableSeats ∧
      (NewJourney s j).1.carAt c =
        { s.carAt c with AvailableSeats := (s.carAt c).AvailableSeats - j.Passengers } ∧
      (∀ a, a ≠ c → (NewJourney s j).1.carAt a = s.carAt a) ∧
      (NewJourney s j).1.cars = s.cars ∧
      (∃ jp, mapGet (NewJourney s j).1.journeys j.Id = some jp ∧
        (NewJourney s j).1.journeyAt jp = { j with AssignedTo := some c } ∧
        jp ∉ (NewJourney s j).1.pending) ∧
      (NewJourney s j).1.pending = s.pending ∧
      (∀ p ∈ s.pending, (NewJourney s j).1.journeyAt p = s.journeyAt p) := by
  have hsome := findCarLoop_isSome s.carAt j.Passengers (CarStorage.GetAllCars s) none maxUint
    (Or.inr hq)
  obtain ⟨c, hc⟩ := Option.isSome_iff_exists.mp hsome
  have hfind : findCar s.carAt (CarStorage.GetAllCars s) j.Passengers = some c := hc
  obtain ⟨hmem, hfit, hlt⟩ := findCar_lt_maxUint _ _ _ _ hfind
  obtain ⟨kv, hkv, hkvc⟩ := List.mem_map.mp hmem
  have hcl : c < s.carObjs.length := hkvc ▸ hv.1 kv hkv
  have hkey : mapGet s.cars (s.carAt c).ID = some c := hkvc ▸ hk kv hkv
  have hlt2 : (s.carAt c).AvailableSeats < uintSize := by
    have : maxUint < uintSize := by decide
    omega
  refine ⟨c, hfind, ?_⟩
  rw [NewJourney_assigned_eq s j c hcl hkey hfind]
  have hjl : ∀ p ∈ s.pending, p < s.journeyObjs.length := hv.2.2.1
  refine ⟨rfl, hfit, ?_, ?_, rfl, ⟨s.journeyObjs.length, mapGet_mapSet_self _ _ _, ?_, ?_⟩, rfl, ?_⟩
  · have hsub := uintSub_of_le _ _ hfit hlt2
    have hget : (s.carObjs.set c ((s.carAt c).TakeSeats j.Passengers)).getD c default =
        (s.carAt c).TakeSeats j.Passengers := by
      simp [List.getD_eq_getElem?_getD, hcl]
    show (s.carObjs.set c ((s.carAt c).TakeSeats j.Passengers)).getD c default = _
    rw [hget, Car.TakeSeats, hsub]
  · intro a ha
    simp [Store.carAt, List.getD_eq_getElem?_getD, List.getElem?_set, Ne.symm ha]
  · simp [Store.journeyAt, List.getD_eq_getElem?_getD, Journey.AssignCar]
  · intro hin
    exact absurd (hjl _ hin) (lt_irrefl _)
  · intro p hp
    have := hjl p hp
    simp [Store.journeyAt, List.getD_eq_getElem?_getD, List.getElem?_append_left, this]

/-- Witness of C3: with the cars of ID 1 (6 available) and ID 2 (4 available),
a journey of 4 passengers is assigned to the car with ID 2. -/
theorem NewJourney_assigns_best_fit_witness :
    twoCars.PtrValid ∧ twoCars.CarsKeyed ∧
      ∃ c, findCar twoCars.carAt (CarStorage.GetAllCars twoCars) 4 = some c ∧
        (NewJourney twoCars ⟨10, 4, none⟩).2 = none ∧
        4 ≤ (twoCars.carAt c).AvailableSeats ∧
        (NewJourney twoCars ⟨10, 4, none⟩).1.carAt c =
          { twoCars.carAt c with AvailableSeats := (twoCars.carAt c).AvailableSeats - 4 } ∧
        (∀ a, a ≠ c → (NewJourney twoCars ⟨10, 4, none⟩).1.carAt a = twoCars.carAt a) ∧
        (NewJourney twoCars ⟨10, 4, none⟩).1.cars = twoCars.cars ∧
        (∃ jp, mapGet (NewJourney twoCars ⟨10, 4, none⟩).1.journeys 10 = some jp ∧
          (NewJourney twoCars ⟨10, 4, none⟩).1.journeyAt jp =
            { (⟨10, 4, none⟩ : Journey) with AssignedTo := some c } ∧
          jp ∉ (NewJourney twoCars ⟨10, 4, none⟩).1.pending) ∧
        (NewJourney twoCars ⟨10, 4, none⟩).1.pending = twoCars.pending ∧
        (∀ p ∈ twoCars.pending,
          (NewJourney twoCars ⟨10, 4, none⟩).1.journeyAt p = twoCars.journeyAt p) :=
  ⟨by decide, by decide,
    NewJourney_assigns_best_fit twoCars ⟨10, 4, none⟩ (by decide) (by decide)
      ⟨1, by decide, by decide, by decide⟩⟩


/-- C2, evaluated where the code departs from it. With 6 seats available and
the pending queue 30 (2 passengers), 31 (2 passengers), 32 (5 passengers), a
state reached through the service itself, `Reassign` succeeds after assigning
journey 30 only: journey 31 is never visited, stays pending without a car,
and 4 seats stay available, whereas the single pass of the specification
assigns 30 and 31 and leaves 32 pending with 2 seats. -/
theorem Reassign_skips_journey_after_assigned :
    Dropoff (NewJourney (NewJourney (NewJourney (NewJourney
        (ResetCars Store.empty [⟨1, 6, 6⟩]).1 ⟨10, 6, none⟩).1 ⟨30, 2, none⟩).1
        ⟨31, 2, none⟩).1 ⟨32, 5, none⟩).1 10 = (threePending, some 0, none) ∧
      (Reassign threePending 0).2 = none ∧
      (Reassign threePending 0).1.pending = [2, 3] ∧
      ((Reassign threePending 0).1.journeyAt 2) = ⟨31, 2, none⟩ ∧
      ((Reassign threePending 0).1.carAt 0).AvailableSeats = 4 ∧
      specReassignPass (fun p => (threePending.journeyAt p).Passengers) threePending.pending
        (threePending.carAt 0).AvailableSeats = ([1, 2], [3], 2) := by
  decide

/-- On the example of the specification, a queue of 2 and then 5 passengers
and 6 seats available, `Reassign` and the single pass agree: the first journey
is assigned, the second stays pending, 4 seats stay available. -/
theorem Reassign_on_spec_example :
    (Reassign (Dropoff (NewJourney (NewJourney (NewJourney
        (ResetCars Store.empty [⟨1, 6, 6⟩]).1 ⟨10, 6, none⟩).1 ⟨30, 2, none⟩).1
        ⟨31, 5, none⟩).1 10).1 0).2 = none ∧
      (Reassign (Dropoff (NewJourney (NewJourney (NewJourney
        (ResetCars Store.empty [⟨1, 6, 6⟩]).1 ⟨10, 6, none⟩).1 ⟨30, 2, none⟩).1
        ⟨31, 5, none⟩).1 10).1 0).1.pendingValue = [⟨31, 5, none⟩] ∧
      (Reassign (Dropoff (NewJourney (NewJourney (NewJourney
        (ResetCars Store.empty [⟨1, 6, 6⟩]).1 ⟨10, 6, none⟩).1 ⟨30, 2, none⟩).1
        ⟨31, 5, none⟩).1 10).1 0).1.carsValue = [(1, ⟨1, 6, 4⟩)] := by
  decide

/-- Counterexample to C3 as stated. After `ResetCars` of one car with
`maxUint` seats available, that car has enough seats for a journey of one
passenger, yet `findCar` selects no car and `NewJourney` queues the journey
as pending with no assigned car. -/
theorem NewJourney_passes_over_maxUint_car :
    ResetCars Store.empty [⟨1, 4, maxUint⟩] = (maxCar, none) ∧
      (∃ p ∈ CarStorage.GetAllCars maxCar, 1 ≤ (maxCar.carAt p).AvailableSeats) ∧
      findCar maxCar.carAt (CarStorage.GetAllCars maxCar) 1 = none ∧
      (NewJourney maxCar ⟨7, 1, none⟩).2 = none ∧
      mapGet (NewJourney maxCar ⟨7, 1, none⟩).1.journeys 7 = some 0 ∧
      (NewJourney maxCar ⟨7, 1, none⟩).1.journeyAt 0 = ⟨7, 1, none⟩ ∧
      (NewJourney maxCar ⟨7, 1, none⟩).1.pending = [0] ∧
      (NewJourney maxCar ⟨7, 1, none⟩).1.pending ≠ maxCar.pending ∧
      (NewJourney maxCar ⟨7, 1, none⟩).1.carObjs = maxCar.carObjs := by
  decide

theorem Dropoff_assigned_eq (s : Store) (id jp c : Nat)
    (hj : mapGet s.journeys id = some jp)
    (hc : (s.journeyAt jp).AssignedTo = some c)
    (hcl : c < s.carObjs.length)
    (hkey : mapGet s.cars (s.carAt c).ID = some c) :
    Dropoff s id =
      ({ s with
          carObjs := s.carObjs.set c ((s.carAt c).FreeUpSeats (s.journeyAt jp).Passengers)
          journeys := mapDel s.journeys (s.journeyAt jp).Id }, some c, none) := by
  unfold Dropoff
  simp only [JourneysStorage.FindById, hj, JourneysStorage.DeleteById]
  have h1 : ({ s with journeys := mapDel s.journeys (s.journeyAt jp).Id } : Store).journeyAt jp
      = s.journeyAt jp := rfl
  simp only [h1, hc]
  have h2 : ({ s with journeys := mapDel s.journeys (s.journeyAt jp).Id } : Store).carAt c
      = s.carAt c := rfl
  have h3 : (Store.setCar { s with journeys := mapDel s.journeys (s.journeyAt jp).Id } c
      ((s.carAt c).FreeUpSeats (s.journeyAt jp).Passengers)).carAt c
      = (s.carAt c).FreeUpSeats (s.journeyAt jp).Passengers :=
    carAt_setCar_self { s with journeys := mapDel s.journeys (s.journeyAt jp).Id } c _ hcl
  simp only [h2, CarStorage.UpdateCar, h3]
  have h4 : ((s.carAt c).FreeUpSeats (s.journeyAt jp).Passengers).ID = (s.carAt c).ID := rfl
  simp only [h4, Store.setCar, hkey]
  simp [handleTxn, Transaction.Commit, Transaction.HasCommited]

theorem Dropoff_pending_eq (s : Store) (id jp : Nat)
    (hj : mapGet s.journeys id = some jp)
    (hc : (s.journeyAt jp).AssignedTo = none) :
    Dropoff s id =
      ({ s with
          journeys := mapDel s.journeys (s.journeyAt jp).Id
          pending := removePending s.journeyAt (s.journeyAt jp).Id s.pending }, none, none) := by
  unfold Dropoff
  simp only [JourneysStorage.FindById, hj, JourneysStorage.DeleteById]
  have h1 : ({ s with journeys := mapDel s.journeys (s.journeyAt jp).Id } : Store).journeyAt jp
      = s.journeyAt jp := rfl
  simp only [h1, hc]
  simp [handleTxn, Transaction.Commit, Transaction.HasCommited, PendingStorage.DeleteById]
  rfl

/-- The store `wrapStore` is what seven calls of the service leave. -/
theorem wrapStore_reached :
    (Dropoff (Dropoff (NewJourney (ResetCars (NewJourney (NewJourney
        (ResetCars Store.empty [⟨1, 4, 2 ^ 64 - 2⟩]).1 ⟨1, 2 ^ 64 - 5, none⟩).1
        ⟨2, 1, none⟩).1 [⟨9, 0, 0⟩]).1 ⟨3, 2, none⟩).1 2).1 1).1 = wrapStore := by
  decide

/-- Counterexample to C5 as stated. In `wrapStore` the journey 3, of 2
passengers, is assigned to the car filed under ID 1, which has `2 ^ 64 - 2`
seats available; `Dropoff 3` succeeds and returns that car, whose available
seats are then 0: the `uint` addition wrapped around. -/
theorem Dropoff_wraps_available_seats :
    mapGet wrapStore.journeys 3 = some 4 ∧
      wrapStore.journeyAt 4 = ⟨3, 2, some 2⟩ ∧
      wrapStore.carAt 2 = ⟨1, 4, 2 ^ 64 - 2⟩ ∧
      mapGet wrapStore.cars 1 = some 2 ∧
      (Dropoff wrapStore 3).2 = (some 2, none) ∧
      ((Dropoff wrapStore 3).1.carAt 2).AvailableSeats = 0 ∧
      ((Dropoff wrapStore 3).1.carAt 2).AvailableSeats ≠
        (wrapStore.carAt 2).AvailableSeats + (wrapStore.journeyAt 4).Passengers := by
  decide

/-- C5, as amended. If the journey filed under `id` is assigned to a car object
`c` that the car store files under its ID, `Dropoff id` succeeds and returns
`c`; the journey is no longer in the journey store; the available seats of
`c` become their former value plus the passengers of the journey modulo
`2 ^ 64`, which is an increase by exactly the passengers when the sum is below
`2 ^ 64`; no other car object changes, and the car map, the pending queue and
the journey objects are unchanged. -/
theorem Dropoff_assigned_frees_seats (s : Store) (id jp c : Nat)
    (hj : mapGet s.journeys id = some jp)
    (hid : (s.journeyAt jp).Id = id)
    (hc : (s.journeyAt jp).AssignedTo = some c)
    (hcl : c < s.carObjs.length)
    (hkey : mapGet s.cars (s.carAt c).ID = some c) :
    (Dropoff s id).2 = (some c, none) ∧
      mapGet (Dropoff s id).1.journeys id = none ∧
      (Dropoff s id).1.journeys = mapDel s.journeys id ∧
      (Dropoff s id).1.carAt c =
        { s.carAt c with
          AvailableSeats :=
            ((s.carAt c).AvailableSeats + (s.journeyAt jp).Passengers) % uintSize } ∧
      ((s.carAt c).AvailableSeats + (s.journeyAt jp).Passengers < uintSize →
        ((Dropoff s id).1.carAt c).AvailableSeats =
          (s.carAt c).AvailableSeats + (s.journeyAt jp).Passengers) ∧
      (∀ a, a ≠ c → (Dropoff s id).1.carAt a = s.carAt a) ∧
      (Dropoff s id).1.cars = s.cars ∧
      (Dropoff s id).1.pending = s.pending ∧
      (Dropoff s id).1.journeyObjs = s.journeyObjs := by
  rw [Dropoff_assigned_eq s id jp c hj hc hcl hkey, hid]
  have hget : (s.carObjs.set c ((s.carAt c).FreeUpSeats (s.journeyAt jp).Passengers)).getD c
      default = (s.carAt c).FreeUpSeats (s.journeyAt jp).Passengers := by
    simp [List.getD_eq_getElem?_getD, hcl]
  refine ⟨rfl, mapGet_mapDel_self _ _, rfl, ?_, ?_, ?_, rfl, rfl, rfl⟩
  · show (s.carObjs.set c ((s.carAt c).FreeUpSeats (s.journeyAt jp).Passengers)).getD c default
      = _
    rw [hget]
    rfl
  · intro hlt
    show ((s.carObjs.set c ((s.carAt c).FreeUpSeats (s.journeyAt jp).Passengers)).getD c
      default).AvailableSeats = _
    rw [hget]
    exact Nat.mod_eq_of_lt hlt
  · intro a ha
    simp [Store.carAt, List.getD_eq_getElem?_getD, List.getElem?_set, Ne.symm ha]

/-- Witness of C5: the journey 20 of 2 passengers leaves the car with ID 1,
whose available seats go from 4 to 6. -/
theorem Dropoff_assigned_frees_seats_witness :
    ((oneAssigned.carAt 0).AvailableSeats + (oneAssigned.journeyAt 0).Passengers < uintSize) ∧
      ((Dropoff oneAssigned 20).1.carAt 0).AvailableSeats = 6 ∧
      ((Dropoff oneAssigned 20).2 = (some 0, none) ∧
      mapGet (Dropoff oneAssigned 20).1.journeys 20 = none ∧
      (Dropoff oneAssigned 20).1.journeys = mapDel oneAssigned.journeys 20 ∧
      (Dropoff oneAssigned 20).1.carAt 0 =
        { oneAssigned.carAt 0 with
          AvailableSeats :=
            ((oneAssigned.carAt 0).AvailableSeats + (oneAssigned.journeyAt 0).Passengers) %
              uintSize } ∧
      ((oneAssigned.carAt 0).AvailableSeats + (oneAssigned.journeyAt 0).Passengers < uintSize →
        ((Dropoff oneAssigned 20).1.carAt 0).AvailableSeats =
          (oneAssigned.carAt 0).AvailableSeats + (oneAssigned.journeyAt 0).Passengers) ∧
      (∀ a, a ≠ 0 → (Dropoff oneAssigned 20).1.carAt a = oneAssigned.carAt a) ∧
      (Dropoff oneAssigned 20).1.cars = oneAssigned.cars ∧
      (Dropoff oneAssigned 20).1.pending = oneAssigned.pending ∧
      (Dropoff oneAssigned 20).1.journeyObjs = oneAssigned.journeyObjs) :=
  ⟨by decide, by decide,
    Dropoff_assigned_frees_seats oneAssigned 20 0 0 (by decide) (by decide) (by decide)
      (by decide) (by decide)⟩

theorem fresh_zip_values {α β : Type} (d : α) (F : α → β) :
    ∀ (vals : List (Nat × α)) (pre post : List α),
      ((vals.map Prod.fst).zip (List.range' pre.length vals.length)).map
          (fun kv => (kv.1, F ((pre ++ vals.map Prod.snd ++ post).getD kv.2 d))) =
        vals.map (fun kv => (kv.1, F kv.2)) := by
  intro vals
  induction vals with
  | nil => intro pre post; simp
  | cons v vs ih =>
    intro pre post
    have h := ih (pre ++ [v.2]) post
    simp only [List.length_append, List.length_singleton, List.append_assoc,
      List.singleton_append, List.cons_append, List.nil_append] at h
    simp only [List.map_cons, List.length_cons, List.range'_succ, List.zip_cons_cons,
      List.cons_append, List.append_assoc]
    rw [h, List.getD_append_right _ _ _ _ (le_refl _)]
    simp

theorem fresh_values {α β : Type} (d : α) (F : α → β) :
    ∀ (vals pre : List α),
      (List.range' pre.length vals.length).map (fun p => F ((pre ++ vals).getD p d)) =
        vals.map F := by
  intro vals
  induction vals with
  | nil => intro pre; simp
  | cons v vs ih =>
    intro pre
    have h := ih (pre ++ [v])
    simp only [List.length_append, List.length_singleton, List.append_assoc,
      List.singleton_append] at h
    simp only [List.map_cons, List.length_cons, List.range'_succ]
    rw [h, List.getD_append_right _ _ _ _ (le_refl _)]
    simp

theorem Rollback_carsValue (u : Transaction) (s : Store) :
    (u.Rollback s).carsValue = u.carBackup := by
  have h := fresh_zip_values (default : Car) id u.carBackup s.carObjs []
  simp only [List.append_nil, id] at h
  simpa [Store.carsValue, Transaction.Rollback, Store.carAt, freshPtrs] using h

theorem Rollback_journeysValue (u : Transaction) (s : Store) :
    (u.Rollback s).journeysValue =
      u.journeyBackup.map (fun kv => (kv.1, (u.Rollback s).journeyValue kv.2)) := by
  have h := fresh_zip_values (default : Journey) (u.Rollback s).journeyValue u.journeyBackup
    s.journeyObjs u.pendingBackup
  simpa [Store.journeysValue, Transaction.Rollback, Store.journeyAt, freshPtrs] using h

theorem Rollback_pendingValue (u : Transaction) (s : Store) :
    (u.Rollback s).pendingValue = u.pendingBackup.map (u.Rollback s).journeyValue := by
  have h := fresh_values (default : Journey) (u.Rollback s).journeyValue u.pendingBackup
    (s.journeyObjs ++ u.journeyBackup.map Prod.snd)
  simpa [Store.pendingValue, Transaction.Rollback, Store.journeyAt, freshPtrs] using h

theorem assigned_valid (s : Store) (hv : s.PtrValid) (p : Nat) :
    ∀ c ∈ (s.journeyAt p).AssignedTo, c < s.carObjs.length := by
  intro c hc
  by_cases hp : p < s.journeyObjs.length
  · have hmem : s.journeyAt p ∈ s.journeyObjs := by
      simp only [Store.journeyAt, List.getD_eq_getElem?_getD, List.getElem?_eq_getElem hp,
        Option.getD_some]
      exact List.getElem_mem _
    exact hv.2.2.2 _ hmem c hc
  · have hd : s.journeyAt p = default := by
      simp [Store.journeyAt, List.getD_eq_getElem?_getD, List.getElem?_eq_none (not_lt.mp hp)]
    rw [hd] at hc
    cases hc

theorem journeyValue_agree (s r : Store) (j : Journey)
    (h : ∀ c ∈ j.AssignedTo, r.carAt c = s.carAt c) :
    r.journeyValue j = s.journeyValue j := by
  unfold Store.journeyValue
  cases hj : j.AssignedTo with
  | none => simp
  | some c => simp [h c (by simp [hj])]

theorem Rollback_carAt_old (u : Transaction) (s : Store) (a : Nat) (ha : a < s.carObjs.length) :
    (u.Rollback s).carAt a = s.carAt a := by
  simp [Transaction.Rollback, Store.carAt, List.getD_eq_getElem?_getD,
    List.getElem?_append_left ha]

/-- Rolling back to the snapshot taken in `s` restores the contents of `s` by
value, whatever the live collections have become, as long as the car objects
of `s` still hold the values they held. -/
theorem values_after_Rollback (s r : Store) (hv : s.PtrValid)
    (hlen : s.carObjs.length ≤ r.carObjs.length)
    (hsame : ∀ a, a < s.carObjs.length → r.carAt a = s.carAt a) :
    ((Begin s).Rollback r).carsValue = s.carsValue ∧
      ((Begin s).Rollback r).journeysValue = s.journeysValue ∧
      ((Begin s).Rollback r).pendingValue = s.pendingValue := by
  have hagree : ∀ p, ((Begin s).Rollback r).journeyValue (s.journeyAt p) =
      s.journeyValue (s.journeyAt p) := by
    intro p
    apply journeyValue_agree
    intro c hc
    have hcl := assigned_valid s hv p c hc
    rw [Rollback_carAt_old _ _ _ (lt_of_lt_of_le hcl hlen)]
    exact hsame c hcl
  refine ⟨?_, ?_, ?_⟩
  · rw [Rollback_carsValue]
    rfl
  · have hjb : (Begin s).journeyBackup = s.journeys.map (fun kv => (kv.1, s.journeyAt kv.2)) :=
      rfl
    rw [Rollback_journeysValue, hjb, List.map_map]
    apply List.map_congr_left
    intro kv _
    exact congrArg (Prod.mk kv.1) (hagree kv.2)
  · have hpb : (Begin s).pendingBackup = s.pending.map s.journeyAt := rfl
    rw [Rollback_pendingValue, hpb, List.map_map]
    apply List.map_congr_left
    intro p _
    exact hagree p

/-- C7. `Dropoff` of an ID that the journey store does not hold fails with
`ErrNotFound`, whose HTTP status is 404, returns no car, and leaves the car
store, the journey store and the pending queue equal by value to what they
were. -/
theorem Dropoff_unknown_not_found (s : Store) (id : Nat) (hv : s.PtrValid)
    (hn : mapGet s.journeys id = none) :
    (Dropoff s id).2 = (none, some ErrNotFound) ∧
      ErrNotFound.HTTPStatus = 404 ∧
      (Dropoff s id).1.carsValue = s.carsValue ∧
      (Dropoff s id).1.journeysValue = s.journeysValue ∧
      (Dropoff s id).1.pendingValue = s.pendingValue := by
  have h : Dropoff s id = ((Begin s).Rollback s, none, some ErrNotFound) := by
    simp [Dropoff, JourneysStorage.FindById, hn, handleTxn, Transaction.HasCommited, Begin]
  rw [h]
  exact ⟨rfl, rfl, values_after_Rollback s s hv (le_refl _) (fun _ _ => rfl)⟩

/-- Witness of C7: the journey 99 is unknown to `busyStore`. -/
theorem Dropoff_unknown_not_found_witness :
    busyStore.PtrValid ∧ mapGet busyStore.journeys 99 = none ∧
      ((Dropoff busyStore 99).2 = (none, some ErrNotFound) ∧
      ErrNotFound.HTTPStatus = 404 ∧
      (Dropoff busyStore 99).1.carsValue = busyStore.carsValue ∧
      (Dropoff busyStore 99).1.journeysValue = busyStore.journeysValue ∧
      (Dropoff busyStore 99).1.pendingValue = busyStore.pendingValue) :=
  ⟨by decide, by decide, Dropoff_unknown_not_found busyStore 99 (by decide) (by decide)⟩

/-- C8. `Locate` fails with `ErrNotFound` exactly when the ID is not in the
journey store; when the ID is filed it returns without error the `AssignedTo`
pointer recorded in the journey, which is `none` when the journey has no
assigned car; in every case the store is left as it was. -/
theorem Locate_returns_assigned_car (s : Store) (id : Nat) :
    (Locate s id).1 = s ∧
      ((Locate s id).2.2 = some ErrNotFound ↔ mapGet s.journeys id = none) ∧
      (mapGet s.journeys id = none → (Locate s id).2 = (none, some ErrNotFound)) ∧
      (∀ jp, mapGet s.journeys id = some jp →
        (Locate s id).2 = ((s.journeyAt jp).AssignedTo, none)) := by
  unfold Locate JourneysStorage.FindById
  cases h : mapGet s.journeys id with
  | none => simp
  | some jp => simp

/-- C9, evaluated where the code departs from it. In the store `carTaken`,
reached through the service, a transaction is begun, `UpdateCar(1, ·)` sets
the car to 4 available seats, and the transaction is rolled back. The car
store is restored by value, but the journey 5 of the restored journey store
still points to the car object that `UpdateCar` overwrote: its assigned car
reads 4 available seats where it read 0 before `Begin`, and `Locate 5`
returns that object. -/
theorem Rollback_keeps_overwritten_car :
    (NewJourney (ResetCars Store.empty [⟨1, 4, 4⟩]).1 ⟨5, 4, none⟩).1 = carTaken ∧
      CarStorage.UpdateCar { carTaken with carObjs := carTaken.carObjs ++ [⟨1, 4, 4⟩] } 1 1 =
        Except.ok carTakenUpdated ∧
      ((Begin carTaken).Rollback carTakenUpdated).carsValue = carTaken.carsValue ∧
      ((Begin carTaken).Rollback carTakenUpdated).pendingValue = carTaken.pendingValue ∧
      carTaken.journeysValue = [(5, ⟨5, 4, some ⟨1, 4, 0⟩⟩)] ∧
      ((Begin carTaken).Rollback carTakenUpdated).journeysValue =
        [(5, ⟨5, 4, some ⟨1, 4, 4⟩⟩)] ∧
      ((Begin carTaken).Rollback carTakenUpdated).journeysValue ≠ carTaken.journeysValue ∧
      (Locate ((Begin carTaken).Rollback carTakenUpdated) 5).2 = (some 0, none) ∧
      ((Begin carTaken).Rollback carTakenUpdated).carAt 0 = ⟨1, 4, 4⟩ := by
  exact ⟨by decide, rfl, by decide, by decide, by decide, by decide, by decide, by decide,
    by decide⟩

theorem carAt_NewCar (s : Store) (car : Nat) : (CarStorage.NewCar s car).carAt = s.carAt := rfl

theorem resetCarsLoop_duplicate (txn : Transaction) :
    ∀ (ptrs seenIDs : List Nat) (s : Store),
      (∀ p ∈ ptrs, (s.carAt p).HasValidSeats = true) →
      (¬ (ptrs.map (fun p => (s.carAt p).ID)).Nodup ∨
        ∃ p ∈ ptrs, (s.carAt p).ID ∈ seenIDs) →
      ∃ r, resetCarsLoop txn ptrs seenIDs s = (handleTxn txn r, some ErrDuplicatedID) ∧
        r.carObjs = s.carObjs ∧ r.journeyObjs = s.journeyObjs := by
  intro ptrs
  induction ptrs with
  | nil =>
    intro seenIDs s _ h
    rcases h with h | ⟨p, hp, _⟩
    · simp at h
    · cases hp
  | cons x xs ih =>
    intro seenIDs s hvalid h
    have hx := hvalid x (List.mem_cons_self _ _)
    unfold resetCarsLoop
    simp only [hx, Bool.not_true, Bool.false_eq_true, if_false]
    by_cases hseen : (s.carAt x).ID ∈ seenIDs
    · exact ⟨s, by simp [hseen], rfl, rfl⟩
    · simp only [hseen, if_false]
      have hrest : ∃ r, resetCarsLoop txn xs ((s.carAt x).ID :: seenIDs)
          (CarStorage.NewCar s x) = (handleTxn txn r, some ErrDuplicatedID) ∧
          r.carObjs = s.carObjs ∧ r.journeyObjs = s.journeyObjs := by
        apply ih
        · intro p hp
          rw [carAt_NewCar]
          exact hvalid p (List.mem_cons_of_mem _ hp)
        · rw [carAt_NewCar]
          rcases h with h | ⟨p, hp, hps⟩
          · rw [List.map_cons, List.nodup_cons, not_and_or, not_not] at h
            rcases h with h | h
            · obtain ⟨p, hp, hpe⟩ := List.mem_map.mp h
              exact Or.inr ⟨p, hp, by rw [hpe]; exact List.mem_cons_self _ _⟩
            · exact Or.inl h
          · rcases List.mem_cons.mp hp with rfl | hp
            · exact absurd hps hseen
            · exact Or.inr ⟨p, hp, List.mem_cons_of_mem _ hps⟩
      unfold CarStorage.FindById
      cases mapGet s.cars (s.carAt x).ID with
      | none => simpa using hrest
      | some c => simpa using hrest


theorem carAt_append_old (s : Store) (cars : List Car) (a : Nat) (ha : a < s.carObjs.length) :
    ({ s with carObjs := s.carObjs ++ cars } : Store).carAt a = s.carAt a := by
  simp [Store.carAt, List.getD_eq_getElem?_getD, List.getElem?_append_left ha]

theorem PtrValid_append_cars (s : Store) (cars : List Car) (hv : s.PtrValid) :
    ({ s with carObjs := s.carObjs ++ cars } : Store).PtrValid := by
  obtain ⟨h1, h2, h3, h4⟩ := hv
  refine ⟨?_, h2, h3, ?_⟩
  · intro kv hkv
    have := h1 kv hkv
    simp only [List.length_append]
    omega
  · intro j hj c hc
    have := h4 j hj c hc
    simp only [List.length_append]
    omega

theorem values_append_cars (s : Store) (cars : List Car) (hv : s.PtrValid) :
    ({ s with carObjs := s.carObjs ++ cars } : Store).carsValue = s.carsValue ∧
      ({ s with carObjs := s.carObjs ++ cars } : Store).journeysValue = s.journeysValue ∧
      ({ s with carObjs := s.carObjs ++ cars } : Store).pendingValue = s.pendingValue := by
  have hagree : ∀ p, ({ s with carObjs := s.carObjs ++ cars } : Store).journeyValue
      (s.journeyAt p) = s.journeyValue (s.journeyAt p) := by
    intro p
    apply journeyValue_agree
    intro c hc
    exact carAt_append_old s cars c (assigned_valid s hv p c hc)
  refine ⟨?_, ?_, ?_⟩
  · apply List.map_congr_left
    intro kv hkv
    exact congrArg (Prod.mk kv.1) (carAt_append_old s cars kv.2 (hv.1 kv hkv))
  · apply List.map_congr_left
    intro kv _
    exact congrArg (Prod.mk kv.1) (hagree kv.2)
  · apply List.map_congr_left
    intro p _
    exact hagree p

theorem carAt_fresh (s : Store) (cars : List Car) :
    (freshPtrs s.carObjs.length cars).map
      ({ s with carObjs := s.carObjs ++ cars } : Store).carAt = cars := by
  have h := fresh_values (default : Car) id cars s.carObjs
  simp only [id, List.map_id] at h
  exact h

theorem ResetCars_duplicate_eq (s : Store) (cars : List Car)
    (hseats : ∀ c ∈ cars, MIN_SEATS ≤ c.Seats ∧ c.Seats ≤ MAX_SEATS)
    (hdup : ¬ (cars.map Car.ID).Nodup) :
    ∃ r, ResetCars s cars =
        ((Begin { s with carObjs := s.carObjs ++ cars }).Rollback r, some ErrDuplicatedID) ∧
      r.carObjs = s.carObjs ++ cars := by
  have hfresh := carAt_fresh s cars
  generalize hs0 : ({ s with carObjs := s.carObjs ++ cars } : Store) = s0 at hfresh
  have hvalid : ∀ p ∈ freshPtrs s.carObjs.length cars, (s0.carAt p).HasValidSeats = true := by
    intro p hp
    have hc : s0.carAt p ∈ (freshPtrs s.carObjs.length cars).map s0.carAt :=
      List.mem_map_of_mem _ hp
    rw [hfresh] at hc
    have := hseats _ hc
    simp [Car.HasValidSeats, this.1, this.2]
  have hids : (freshPtrs s.carObjs.length cars).map (fun p => (s0.carAt p).ID) =
      cars.map Car.ID := by
    have : (freshPtrs s.carObjs.length cars).map (fun p => (s0.carAt p).ID) =
        ((freshPtrs s.carObjs.length cars).map s0.carAt).map Car.ID := by
      rw [List.map_map]
      rfl
    rw [this, hfresh]
  have hloop := resetCarsLoop_duplicate (Begin s0) (freshPtrs s.carObjs.length cars) []
    (PendingStorage.ResetMemory (JourneysStorage.ResetMemory (CarStorage.ResetMemory s0)))
    hvalid (Or.inl (by
      show ¬ ((freshPtrs s.carObjs.length cars).map (fun p => (s0.carAt p).ID)).Nodup
      rw [hids]
      exact hdup))
  obtain ⟨r, hr, hcar, _⟩ := hloop
  refine ⟨r, ?_, ?_⟩
  · unfold ResetCars
    simp only []
    rw [hs0, hr]
    simp [handleTxn, Transaction.HasCommited, Begin]
  · rw [hcar, ← hs0]
    rfl

/-- C10. A fleet reset whose batch has every seat count within 4 and 6 and
some car ID more than once fails with `ErrDuplicatedID`, and afterwards the
car store, the journey store and the pending queue are equal by value to what
they were before the call. -/
theorem ResetCars_duplicate_rolls_back (s : Store) (cars : List Car) (hv : s.PtrValid)
    (hseats : ∀ c ∈ cars, MIN_SEATS ≤ c.Seats ∧ c.Seats ≤ MAX_SEATS)
    (hdup : ¬ (cars.map Car.ID).Nodup) :
    (ResetCars s cars).2 = some ErrDuplicatedID ∧
      (ResetCars s cars).1.carsValue = s.carsValue ∧
      (ResetCars s cars).1.journeysValue = s.journeysValue ∧
      (ResetCars s cars).1.pendingValue = s.pendingValue := by
  obtain ⟨r, hres, hcar⟩ := ResetCars_duplicate_eq s cars hseats hdup
  rw [hres]
  have hback := values_after_Rollback { s with carObjs := s.carObjs ++ cars } r
    (PtrValid_append_cars s cars hv) (by rw [hcar])
    (by intro a _; simp [Store.carAt, hcar])
  obtain ⟨v1, v2, v3⟩ := values_append_cars s cars hv
  exact ⟨rfl, hback.1.trans v1, hback.2.1.trans v2, hback.2.2.trans v3⟩

/-- Witness of C10: on `busyStore`, a batch that names the car 7 twice. -/
theorem ResetCars_duplicate_rolls_back_witness :
    busyStore.PtrValid ∧
      (∀ c ∈ [(⟨7, 4, 4⟩ : Car), ⟨8, 5, 5⟩, ⟨7, 6, 6⟩], MIN_SEATS ≤ c.Seats ∧ c.Seats ≤ MAX_SEATS) ∧
      ¬ (([(⟨7, 4, 4⟩ : Car), ⟨8, 5, 5⟩, ⟨7, 6, 6⟩]).map Car.ID).Nodup ∧
      ((ResetCars busyStore [⟨7, 4, 4⟩, ⟨8, 5, 5⟩, ⟨7, 6, 6⟩]).2 = some ErrDuplicatedID ∧
      (ResetCars busyStore [⟨7, 4, 4⟩, ⟨8, 5, 5⟩, ⟨7, 6, 6⟩]).1.carsValue = busyStore.carsValue ∧
      (ResetCars busyStore [⟨7, 4, 4⟩, ⟨8, 5, 5⟩, ⟨7, 6, 6⟩]).1.journeysValue =
        busyStore.journeysValue ∧
      (ResetCars busyStore [⟨7, 4, 4⟩, ⟨8, 5, 5⟩, ⟨7, 6, 6⟩]).1.pendingValue =
        busyStore.pendingValue) :=
  ⟨by decide, by decide, by decide,
    ResetCars_duplicate_rolls_back busyStore [⟨7, 4, 4⟩, ⟨8, 5, 5⟩, ⟨7, 6, 6⟩] (by decide)
      (by decide) (by decide)⟩

theorem mapGet_mem (m : List (Nat × Nat)) (k a : Nat) (h : mapGet m k = some a) : (k, a) ∈ m := by
  induction m with
  | nil => simp [mapGet] at h
  | cons x xs ih =>
    obtain ⟨k', v⟩ := x
    by_cases hk : k' = k
    · simp only [mapGet, hk, if_true, Option.some.injEq] at h
      simp [hk, h]
    · simp only [mapGet, hk, if_false] at h
      exact List.mem_cons_of_mem _ (ih h)

theorem mapGet_of_mem (m : List (Nat × Nat)) (hn : (m.map Prod.fst).Nodup) (kv : Nat × Nat)
    (h : kv ∈ m) : mapGet m kv.1 = some kv.2 := by
  induction m with
  | nil => cases h
  | cons x xs ih =>
    obtain ⟨k', v⟩ := x
    rw [List.map_cons, List.nodup_cons] at hn
    rcases List.mem_cons.mp h with rfl | h
    · simp [mapGet]
    · have hne : k' ≠ kv.1 := by
        intro he
        apply hn.1
        rw [he]
        exact List.mem_map.mpr ⟨kv, h, rfl⟩
      simp only [mapGet, hne, if_false]
      exact ih hn.2 h

theorem mem_mapSet (m : List (Nat × Nat)) (k v : Nat) (kv : Nat × Nat)
    (h : kv ∈ mapSet m k v) : kv ∈ m ∨ kv = (k, v) := by
  induction m with
  | nil => simpa [mapSet] using h
  | cons x xs ih =>
    obtain ⟨k', v'⟩ := x
    by_cases hk : k' = k
    · simp only [mapSet, hk, if_true, List.mem_cons] at h
      rcases h with h | h
      · exact Or.inr h
      · exact Or.inl (List.mem_cons_of_mem _ h)
    · simp only [mapSet, hk, if_false, List.mem_cons] at h
      rcases h with h | h
      · exact Or.inl (h ▸ List.mem_cons_self _ _)
      · rcases ih h with h | h
        · exact Or.inl (List.mem_cons_of_mem _ h)
        · exact Or.inr h

theorem keys_mapSet (m : List (Nat × Nat)) (k v : Nat) :
    (mapSet m k v).map Prod.fst =
      if k ∈ m.map Prod.fst then m.map Prod.fst else m.map Prod.fst ++ [k] := by
  induction m with
  | nil => simp [mapSet]
  | cons x xs ih =>
    obtain ⟨k', v'⟩ := x
    by_cases hk : k' = k
    · simp [mapSet, hk]
    · have hk2 : ¬ k = k' := fun h => hk h.symm
      simp only [mapSet, hk, if_false, List.map_cons, ih, List.mem_cons, hk2, false_or]
      split <;> simp

theorem nodup_keys_mapSet (m : List (Nat × Nat)) (k v : Nat) (h : (m.map Prod.fst).Nodup) :
    ((mapSet m k v).map Prod.fst).Nodup := by
  rw [keys_mapSet]
  split
  · exact h
  · rename_i hk
    rw [List.nodup_append]
    refine ⟨h, by simp, ?_⟩
    intro a ha hb
    simp only [List.mem_singleton] at hb
    exact hk (hb ▸ ha)

theorem nodup_keys_mapDel (m : List (Nat × Nat)) (k : Nat) (h : (m.map Prod.fst).Nodup) :
    ((mapDel m k).map Prod.fst).Nodup :=
  h.sublist ((List.filter_sublist m).map Prod.fst)

theorem mem_mapDel (m : List (Nat × Nat)) (k : Nat) (kv : Nat × Nat) (h : kv ∈ mapDel m k) :
    kv ∈ m :=
  (List.mem_filter.mp h).1

theorem mem_removePending (mem : Nat → Journey) (id : Nat) :
    ∀ (l : List Nat) (p : Nat), p ∈ removePending mem id l → p ∈ l := by
  intro l
  induction l with
  | nil => intro p h; simp [removePending] at h
  | cons x xs ih =>
    intro p h
    unfold removePending at h
    split at h
    · exact List.mem_cons_of_mem _ h
    · rcases List.mem_cons.mp h with h | h
      · exact h ▸ List.mem_cons_self _ _
      · exact List.mem_cons_of_mem _ (ih p h)

theorem CarsFiled.keyed (s : Store) (h : s.CarsFiled) : s.CarsKeyed := by
  intro kv hkv
  have := mapGet_of_mem s.cars h.1 kv hkv
  rw [h.2 kv hkv]
  exact this

/-! ## Well-formedness is kept by the storages -/

theorem PtrValid_setJourney (s : Store) (p : Nat) (j : Journey) (hv : s.PtrValid)
    (hj : ∀ c ∈ j.AssignedTo, c < s.carObjs.length) : (s.setJourney p j).PtrValid := by
  obtain ⟨h1, h2, h3, h4⟩ := hv
  refine ⟨h1, ?_, ?_, ?_⟩
  · intro kv hkv
    simpa [Store.setJourney] using h2 kv hkv
  · intro q hq
    simpa [Store.setJourney] using h3 q hq
  · intro j' hj' c hc
    rcases List.mem_or_eq_of_mem_set hj' with h | h
    · exact h4 j' h c hc
    · exact hj c (h ▸ hc)

theorem PtrValid_setCar (s : Store) (p : Nat) (c : Car) (hv : s.PtrValid) :
    (s.setCar p c).PtrValid := by
  obtain ⟨h1, h2, h3, h4⟩ := hv
  refine ⟨?_, h2, h3, ?_⟩
  · intro kv hkv
    simpa [Store.setCar] using h1 kv hkv
  · intro j hj c' hc
    simpa [Store.setCar] using h4 j hj c' hc

theorem PtrValid_of_sub (s r : Store) (hv : s.PtrValid)
    (hco : r.carObjs = s.carObjs) (hjo : r.journeyObjs = s.journeyObjs)
    (hc : ∀ kv ∈ r.cars, kv ∈ s.cars ∨ kv.2 < s.carObjs.length)
    (hj : ∀ kv ∈ r.journeys, kv ∈ s.journeys ∨ kv.2 < s.journeyObjs.length)
    (hp : ∀ p ∈ r.pending, p ∈ s.pending ∨ p < s.journeyObjs.length) : r.PtrValid := by
  obtain ⟨h1, h2, h3, h4⟩ := hv
  refine ⟨?_, ?_, ?_, ?_⟩
  · intro kv hkv
    rw [hco]
    rcases hc kv hkv with h | h
    · exact h1 kv h
    · exact h
  · intro kv hkv
    rw [hjo]
    rcases hj kv hkv with h | h
    · exact h2 kv h
    · exact h
  · intro p hpp
    rw [hjo]
    rcases hp p hpp with h | h
    · exact h3 p h
    · exact h
  · rw [hco, hjo]
    exact h4

theorem PtrValid_append_journey (s : Store) (j : Journey) (hv : s.PtrValid)
    (hj : ∀ c ∈ j.AssignedTo, c < s.carObjs.length) :
    ({ s with journeyObjs := s.journeyObjs ++ [j] } : Store).PtrValid := by
  obtain ⟨h1, h2, h3, h4⟩ := hv
  refine ⟨h1, ?_, ?_, ?_⟩
  · intro kv hkv
    have := h2 kv hkv
    simp only [List.length_append, List.length_singleton]
    omega
  · intro p hp
    have := h3 p hp
    simp only [List.length_append, List.length_singleton]
    omega
  · intro j' hj' c hc
    rcases List.mem_append.mp hj' with h | h
    · exact h4 j' h c hc
    · simp only [List.mem_singleton] at h
      exact hj c (h ▸ hc)

theorem CarsFiled_of_eq (s r : Store) (h : s.CarsFiled) (hco : r.carObjs = s.carObjs)
    (hc : r.cars = s.cars) : r.CarsFiled := by
  unfold Store.CarsFiled Store.carAt at *
  rw [hco, hc]
  exact h

theorem CarsFiled_setCar (s : Store) (p : Nat) (c : Car) (h : s.CarsFiled)
    (hid : c.ID = (s.carAt p).ID) : (s.setCar p c).CarsFiled := by
  refine ⟨h.1, ?_⟩
  intro kv hkv
  have hk := h.2 kv hkv
  by_cases hp : kv.2 = p
  · by_cases hl : p < s.carObjs.length
    · rw [hp, carAt_setCar_self s p c hl, hid, ← hp]
      exact hk
    · have : (s.setCar p c).carAt kv.2 = s.carAt kv.2 := by
        simp [Store.setCar, Store.carAt, List.set_eq_of_length_le (not_lt.mp hl)]
      rw [this]
      exact hk
  · rw [carAt_setCar_ne s p kv.2 c hp]
    exact hk

theorem CarsFiled_NewCar (s : Store) (car : Nat) (h : s.CarsFiled) :
    (CarStorage.NewCar s car).CarsFiled := by
  refine ⟨nodup_keys_mapSet _ _ _ h.1, ?_⟩
  intro kv hkv
  rcases mem_mapSet _ _ _ _ hkv with hm | he
  · exact h.2 kv hm
  · rw [he]
    rfl

theorem CarsFiled_append_cars (s : Store) (cars : List Car) (h : s.CarsFiled)
    (hv : ∀ kv ∈ s.cars, kv.2 < s.carObjs.length) :
    ({ s with carObjs := s.carObjs ++ cars } : Store).CarsFiled := by
  refine ⟨h.1, ?_⟩
  intro kv hkv
  rw [carAt_append_old s cars kv.2 (hv kv hkv)]
  exact h.2 kv hkv

theorem PtrValid_UpdateCar (s r : Store) (k newCar : Nat) (hv : s.PtrValid)
    (h : CarStorage.UpdateCar s k newCar = .ok r) : r.PtrValid := by
  unfold CarStorage.UpdateCar at h
  cases hg : mapGet s.cars k with
  | none => simp [hg] at h
  | some a =>
    simp only [hg, Except.ok.injEq] at h
    rw [← h]
    exact PtrValid_setCar s a _ hv

theorem CarsFiled_UpdateCar (s r : Store) (newCar : Nat) (hf : s.CarsFiled)
    (h : CarStorage.UpdateCar s (s.carAt newCar).ID newCar = .ok r) : r.CarsFiled := by
  unfold CarStorage.UpdateCar at h
  cases hg : mapGet s.cars (s.carAt newCar).ID with
  | none => simp [hg] at h
  | some a =>
    simp only [hg, Except.ok.injEq] at h
    rw [← h]
    apply CarsFiled_setCar s a _ hf
    exact (hf.2 _ (mapGet_mem _ _ _ hg)).symm

theorem carObjs_length_UpdateCar (s r : Store) (k newCar : Nat)
    (h : CarStorage.UpdateCar s k newCar = .ok r) :
    r.carObjs.length = s.carObjs.length ∧ r.journeyObjs = s.journeyObjs ∧
      r.cars = s.cars ∧ r.journeys = s.journeys ∧ r.pending = s.pending := by
  unfold CarStorage.UpdateCar at h
  cases hg : mapGet s.cars k with
  | none => simp [hg] at h
  | some a =>
    simp only [hg, Except.ok.injEq] at h
    rw [← h]
    simp [Store.setCar]

theorem PtrValid_Rollback (s r : Store) (hv : s.PtrValid)
    (hlen : s.carObjs.length ≤ r.carObjs.length)
    (hr : ∀ j ∈ r.journeyObjs, ∀ c ∈ j.AssignedTo, c < r.carObjs.length) :
    ((Begin s).Rollback r).PtrValid := by
  have hback : ∀ p, ∀ c ∈ (s.journeyAt p).AssignedTo,
      c < r.carObjs.length + (s.cars.map fun kv => (kv.1, s.carAt kv.2)).length := by
    intro p c hc
    have := assigned_valid s hv p c hc
    omega
  refine ⟨?_, ?_, ?_, ?_⟩
  · intro kv hkv
    have h2 := (List.of_mem_zip hkv).2
    simp only [freshPtrs, List.mem_range'_1] at h2
    simp only [Transaction.Rollback, List.length_append, List.length_map]
    omega
  · intro kv hkv
    have h2 := (List.of_mem_zip hkv).2
    simp only [freshPtrs, List.mem_range'_1] at h2
    simp only [Transaction.Rollback, List.length_append, List.length_map]
    omega
  · intro p hp
    simp only [Transaction.Rollback, freshPtrs, List.mem_range'_1] at hp
    simp only [Transaction.Rollback, List.length_append, List.length_map]
    omega
  · intro j hj c hc
    simp only [Transaction.Rollback, Begin, cloneCars, cloneJourneys, clonePending,
      List.mem_append, List.mem_map, List.length_append, List.length_map] at hj ⊢
    rcases hj with (hj | ⟨kv, ⟨kv0, _, hkv0⟩, hkv⟩) | ⟨p, _, hp⟩
    · have := hr j hj c hc
      omega
    · have h := hback kv0.2 c (by rw [← hkv, ← hkv0] at hc; exact hc)
      simp only [List.length_map] at h
      exact h
    · have h := hback p c (by rw [← hp] at hc; exact hc)
      simp only [List.length_map] at h
      exact h

theorem CarsFiled_Rollback (s r : Store) (hf : s.CarsFiled) :
    ((Begin s).Rollback r).CarsFiled := by
  refine ⟨?_, ?_⟩
  · have hk : (((Begin s).Rollback r).cars).map Prod.fst = s.cars.map Prod.fst := by
      simp only [Transaction.Rollback, Begin, cloneCars, freshPtrs, List.map_map]
      rw [List.map_fst_zip]
      · rfl
      · simp
    rw [hk]
    exact hf.1
  · intro kv hkv
    have hm : (kv.1, ((Begin s).Rollback r).carAt kv.2) ∈ ((Begin s).Rollback r).carsValue :=
      List.mem_map.mpr ⟨kv, hkv, rfl⟩
    rw [Rollback_carsValue] at hm
    obtain ⟨kv0, hkv0, he⟩ := List.mem_map.mp hm
    have h1 : kv0.1 = kv.1 := (Prod.mk.inj he).1
    have h2 : s.carAt kv0.2 = ((Begin s).Rollback r).carAt kv.2 := (Prod.mk.inj he).2
    rw [← h2, ← h1]
    exact hf.2 kv0 hkv0

/-! ## Well-formedness is kept by the service -/

theorem handleTxn_Begin (s r : Store) : handleTxn (Begin s) r = (Begin s).Rollback r := by
  simp [handleTxn, Transaction.HasCommited, Begin]

theorem handleTxn_Commit (u : Transaction) (r : Store) : handleTxn u.Commit r = r := by
  simp [handleTxn, Transaction.HasCommited, Transaction.Commit]

theorem wf_Rollback (s r : Store) (hv : s.PtrValid) (hf : s.CarsFiled) (hr : r.PtrValid)
    (hlen : s.carObjs.length ≤ r.carObjs.length) :
    ((Begin s).Rollback r).PtrValid ∧ ((Begin s).Rollback r).CarsFiled :=
  ⟨PtrValid_Rollback s r hv hlen hr.2.2.2, CarsFiled_Rollback s r hf⟩

theorem wf_empty : Store.empty.PtrValid ∧ Store.empty.CarsFiled := by
  decide

theorem wf_NewJourney (s : Store) (j : Journey) (hv : s.PtrValid) (hf : s.CarsFiled)
    (hj : ∀ c ∈ j.AssignedTo, c < s.carObjs.length) :
    (NewJourney s j).1.PtrValid ∧ (NewJourney s j).1.CarsFiled := by
  cases hfind : findCar s.carAt (CarStorage.GetAllCars s) j.Passengers with
  | none =>
    rw [NewJourney_pending_eq s j hfind]
    dsimp only
    constructor
    · refine PtrValid_of_sub _ _ (PtrValid_append_journey s j hv hj) ?_ ?_ ?_ ?_ ?_
      · rfl
      · rfl
      · intro kv hkv; exact Or.inl hkv
      · intro kv hkv
        rcases mem_mapSet _ _ _ _ hkv with h | h
        · exact Or.inl h
        · right; rw [h]; simp
      · intro p hp
        rcases List.mem_append.mp hp with h | h
        · exact Or.inl h
        · right
          simp only [List.mem_singleton] at h
          rw [h]; simp
    · refine CarsFiled_of_eq s _ hf ?_ ?_
      · rfl
      · rfl
  | some c =>
    obtain ⟨hmem, _, _⟩ := findCar_lt_maxUint _ _ _ _ hfind
    obtain ⟨kv, hkv, hkvc⟩ := List.mem_map.mp hmem
    have hcl : c < s.carObjs.length := hkvc ▸ hv.1 kv hkv
    have hkey : mapGet s.cars (s.carAt c).ID = some c := hkvc ▸ CarsFiled.keyed s hf kv hkv
    rw [NewJourney_assigned_eq s j c hcl hkey hfind]
    dsimp only
    constructor
    · have h1 := PtrValid_append_journey s (j.AssignCar c) hv (by
        intro c' hc'
        simp only [Journey.AssignCar, Option.mem_def, Option.some.injEq] at hc'
        exact hc' ▸ hcl)
      have h2 := PtrValid_setCar _ c ((s.carAt c).TakeSeats j.Passengers) h1
      refine PtrValid_of_sub _ _ h2 ?_ ?_ ?_ ?_ ?_
      · rfl
      · rfl
      · intro kv hkv; exact Or.inl hkv
      · intro kv hkv
        rcases mem_mapSet _ _ _ _ hkv with h | h
        · exact Or.inl h
        · right; rw [h]; simp [Store.setCar]
      · intro p hp; exact Or.inl hp
    · refine CarsFiled_of_eq _ _
        (CarsFiled_setCar s c ((s.carAt c).TakeSeats j.Passengers) hf rfl) ?_ ?_
      · rfl
      · rfl

theorem Dropoff_assigned_cases (s : Store) (id jp c : Nat)
    (hj : mapGet s.journeys id = some jp)
    (hc : (s.journeyAt jp).AssignedTo = some c) :
    (∃ e, (Dropoff s id) =
        ((Begin s).Rollback
          (Store.setCar { s with journeys := mapDel s.journeys (s.journeyAt jp).Id } c
            ((s.carAt c).FreeUpSeats (s.journeyAt jp).Passengers)), none, some e)) ∨
    (∃ r, CarStorage.UpdateCar
          (Store.setCar { s with journeys := mapDel s.journeys (s.journeyAt jp).Id } c
            ((s.carAt c).FreeUpSeats (s.journeyAt jp).Passengers))
          ((Store.setCar { s with journeys := mapDel s.journeys (s.journeyAt jp).Id } c
            ((s.carAt c).FreeUpSeats (s.journeyAt jp).Passengers)).carAt c).ID c = .ok r ∧
        Dropoff s id = (r, some c, none)) := by
  unfold Dropoff
  simp only [JourneysStorage.FindById, hj, JourneysStorage.DeleteById]
  have h1 : ({ s with journeys := mapDel s.journeys (s.journeyAt jp).Id } : Store).journeyAt jp
      = s.journeyAt jp := rfl
  have h2 : ({ s with journeys := mapDel s.journeys (s.journeyAt jp).Id } : Store).carAt c
      = s.carAt c := rfl
  simp only [h1, hc, h2]
  cases hU : CarStorage.UpdateCar
      (Store.setCar { s with journeys := mapDel s.journeys (s.journeyAt jp).Id } c
        ((s.carAt c).FreeUpSeats (s.journeyAt jp).Passengers))
      ((Store.setCar { s with journeys := mapDel s.journeys (s.journeyAt jp).Id } c
        ((s.carAt c).FreeUpSeats (s.journeyAt jp).Passengers)).carAt c).ID c with
  | error e =>
    left
    exact ⟨NewAPIError 500 "Failed to update car" e.Message, by simp only [handleTxn_Begin]⟩
  | ok r =>
    right
    exact ⟨r, rfl, by simp only [handleTxn_Commit]⟩

theorem wf_Dropoff (s : Store) (id : Nat) (hv : s.PtrValid) (hf : s.CarsFiled) :
    (Dropoff s id).1.PtrValid ∧ (Dropoff s id).1.CarsFiled ∧
      ∀ c ∈ (Dropoff s id).2.1, c < (Dropoff s id).1.carObjs.length := by
  cases hj : mapGet s.journeys id with
  | none =>
    have h : Dropoff s id = ((Begin s).Rollback s, none, some ErrNotFound) := by
      simp [Dropoff, JourneysStorage.FindById, hj, handleTxn_Begin]
    rw [h]
    obtain ⟨a, b⟩ := wf_Rollback s s hv hf hv (le_refl _)
    exact ⟨a, b, by simp⟩
  | some jp =>
    have hdel : ({ s with journeys := mapDel s.journeys (s.journeyAt jp).Id } : Store).PtrValid :=
      PtrValid_of_sub s { s with journeys := mapDel s.journeys (s.journeyAt jp).Id } hv rfl rfl
        (fun _ h => Or.inl h) (fun kv h => Or.inl (mem_mapDel _ _ kv h)) (fun _ h => Or.inl h)
    have hdelf : ({ s with journeys := mapDel s.journeys (s.journeyAt jp).Id } : Store).CarsFiled :=
      CarsFiled_of_eq s { s with journeys := mapDel s.journeys (s.journeyAt jp).Id } hf rfl rfl
    cases hc : (s.journeyAt jp).AssignedTo with
    | none =>
      rw [Dropoff_pending_eq s id jp hj hc]
      dsimp only
      refine ⟨?_, ?_, by simp⟩
      · refine PtrValid_of_sub s _ hv ?_ ?_ ?_ ?_ ?_
        · rfl
        · rfl
        · exact fun _ h => Or.inl h
        · exact fun kv h => Or.inl (mem_mapDel _ _ kv h)
        · exact fun p h => Or.inl (mem_removePending _ _ _ p h)
      · refine CarsFiled_of_eq s _ hf ?_ ?_
        · rfl
        · rfl
    | some c =>
      have hcl : c < s.carObjs.length := assigned_valid s hv jp c (by simp [hc])
      have hset := PtrValid_setCar _ c ((s.carAt c).FreeUpSeats (s.journeyAt jp).Passengers) hdel
      have hsetf := CarsFiled_setCar _ c ((s.carAt c).FreeUpSeats (s.journeyAt jp).Passengers)
        hdelf rfl
      rcases Dropoff_assigned_cases s id jp c hj hc with ⟨e, he⟩ | ⟨r, hU, hr⟩
      · rw [he]
        obtain ⟨a, b⟩ := wf_Rollback s _ hv hf hset (by simp [Store.setCar])
        exact ⟨a, b, by simp⟩
      · rw [hr]
        refine ⟨PtrValid_UpdateCar _ _ _ _ hset hU, CarsFiled_UpdateCar _ _ _ hsetf hU, ?_⟩
        intro c' hc'
        simp only [Option.mem_def, Option.some.injEq] at hc'
        rw [← hc', (carObjs_length_UpdateCar _ _ _ _ hU).1]
        simpa [Store.setCar] using hcl

theorem PtrValid_NewCar (s : Store) (car : Nat) (hv : s.PtrValid) (hc : car < s.carObjs.length) :
    (CarStorage.NewCar s car).PtrValid := by
  refine PtrValid_of_sub s _ hv ?_ ?_ ?_ ?_ ?_
  · rfl
  · rfl
  · intro kv hkv
    rcases mem_mapSet _ _ _ _ hkv with h | h
    · exact Or.inl h
    · right; rw [h]; exact hc
  · exact fun _ h => Or.inl h
  · exact fun _ h => Or.inl h

theorem wf_resetCarsLoop (s0 : Store) (hv0 : s0.PtrValid) (hf0 : s0.CarsFiled) :
    ∀ (ptrs seenIDs : List Nat) (s : Store), s.PtrValid → s.CarsFiled →
      s0.carObjs.length ≤ s.carObjs.length →
      (∀ p ∈ ptrs, p < s.carObjs.length) →
      (resetCarsLoop (Begin s0) ptrs seenIDs s).1.PtrValid ∧
        (resetCarsLoop (Begin s0) ptrs seenIDs s).1.CarsFiled := by
  intro ptrs
  induction ptrs with
  | nil =>
    intro seenIDs s hv hf _ _
    unfold resetCarsLoop
    rw [handleTxn_Commit]
    exact ⟨hv, hf⟩
  | cons x xs ih =>
    intro seenIDs s hv hf hlen hp
    have hroll := wf_Rollback s0 s hv0 hf0 hv hlen
    have hnext : ∀ seen, (resetCarsLoop (Begin s0) xs seen (CarStorage.NewCar s x)).1.PtrValid ∧
        (resetCarsLoop (Begin s0) xs seen (CarStorage.NewCar s x)).1.CarsFiled := by
      intro seen
      apply ih seen _ (PtrValid_NewCar s x hv (hp x (List.mem_cons_self _ _)))
        (CarsFiled_NewCar s x hf) hlen
      intro p hpp
      exact hp p (List.mem_cons_of_mem _ hpp)
    unfold resetCarsLoop
    split
    · rw [handleTxn_Begin]; exact hroll
    · split
      · rw [handleTxn_Begin]; exact hroll
      · split
        · split
          · rw [handleTxn_Begin]; exact hroll
          · exact hnext _
        · exact hnext _

theorem wf_ResetCars (s : Store) (cars : List Car) (hv : s.PtrValid) (hf : s.CarsFiled) :
    (ResetCars s cars).1.PtrValid ∧ (ResetCars s cars).1.CarsFiled := by
  have hv0 := PtrValid_append_cars s cars hv
  have hf0 := CarsFiled_append_cars s cars hf hv.1
  unfold ResetCars
  apply wf_resetCarsLoop _ hv0 hf0
  · refine PtrValid_of_sub _ _ hv0 ?_ ?_ ?_ ?_ ?_
    · rfl
    · rfl
    · intro kv hkv; cases hkv
    · intro kv hkv; cases hkv
    · intro p hp; cases hp
  · exact ⟨List.nodup_nil, fun kv hkv => by cases hkv⟩
  · exact le_refl _
  · intro p hp
    simp only [freshPtrs, List.mem_range'_1] at hp
    show p < (s.carObjs ++ cars).length
    rw [List.length_append]
    omega

theorem wf_setJourney (s : Store) (n p : Nat) (j : Journey)
    (h : s.PtrValid ∧ s.CarsFiled ∧ s.carObjs.length = n)
    (hj : ∀ c ∈ j.AssignedTo, c < n) :
    (s.setJourney p j).PtrValid ∧ (s.setJourney p j).CarsFiled ∧
      (s.setJourney p j).carObjs.length = n :=
  ⟨PtrValid_setJourney s p j h.1 (h.2.2 ▸ hj), CarsFiled_of_eq s _ h.2.1 rfl rfl, h.2.2⟩

theorem wf_setCar (s : Store) (n p : Nat) (c : Car)
    (h : s.PtrValid ∧ s.CarsFiled ∧ s.carObjs.length = n)
    (hid : c.ID = (s.carAt p).ID) :
    (s.setCar p c).PtrValid ∧ (s.setCar p c).CarsFiled ∧ (s.setCar p c).carObjs.length = n :=
  ⟨PtrValid_setCar s p c h.1, CarsFiled_setCar s p c h.2.1 hid, by
    simpa [Store.setCar] using h.2.2⟩

theorem wf_UpdateCar (s r : Store) (n newCar : Nat)
    (h : s.PtrValid ∧ s.CarsFiled ∧ s.carObjs.length = n)
    (hU : CarStorage.UpdateCar s (s.carAt newCar).ID newCar = .ok r) :
    r.PtrValid ∧ r.CarsFiled ∧ r.carObjs.length = n :=
  ⟨PtrValid_UpdateCar s r _ _ h.1 hU, CarsFiled_UpdateCar s r _ h.2.1 hU,
    (carObjs_length_UpdateCar s r _ _ hU).1.trans h.2.2⟩

theorem wf_UpdatePending (s r : Store) (n k p : Nat)
    (h : s.PtrValid ∧ s.CarsFiled ∧ s.carObjs.length = n)
    (hU : PendingStorage.UpdatePending s k p = .ok r) :
    r.PtrValid ∧ r.CarsFiled ∧ r.carObjs.length = n := by
  unfold PendingStorage.UpdatePending at hU
  cases hg : findPending s.journeyAt k s.pending with
  | none => simp [hg] at hU
  | some q =>
    simp only [hg, Except.ok.injEq] at hU
    rw [← hU]
    apply wf_setJourney s n q _ h
    intro c hc
    rw [← h.2.2]
    exact assigned_valid s h.1 p c hc

theorem wf_PendingDeleteById (s : Store) (n k : Nat)
    (h : s.PtrValid ∧ s.CarsFiled ∧ s.carObjs.length = n) :
    (PendingStorage.DeleteById s k).PtrValid ∧ (PendingStorage.DeleteById s k).CarsFiled ∧
      (PendingStorage.DeleteById s k).carObjs.length = n := by
  refine ⟨?_, CarsFiled_of_eq s _ h.2.1 rfl rfl, h.2.2⟩
  refine PtrValid_of_sub s _ h.1 ?_ ?_ ?_ ?_ ?_
  · rfl
  · rfl
  · exact fun _ h => Or.inl h
  · exact fun _ h => Or.inl h
  · exact fun p h => Or.inl (mem_removePending _ _ _ p h)

theorem wf_reassignBody (car p n : Nat) (s : Store)
    (h : s.PtrValid ∧ s.CarsFiled ∧ s.carObjs.length = n) (hc : car < n) :
    (reassignBody car p s).1.PtrValid ∧ (reassignBody car p s).1.CarsFiled ∧
      (reassignBody car p s).1.carObjs.length = n := by
  unfold reassignBody
  split
  · have h1 := wf_setJourney s n p { s.journeyAt p with AssignedTo := some car } h (by
      intro c' hc'
      simp only [Option.mem_def, Option.some.injEq] at hc'
      exact hc' ▸ hc)
    dsimp only
    split
    · exact h1
    · rename_i s2 hU
      have h2 := wf_UpdatePending _ _ n _ _ h1 hU
      have h3 := wf_setCar s2 n car ((s2.carAt car).TakeSeats (s2.journeyAt p).Passengers) h2 rfl
      split
      · exact h3
      · rename_i s4 hU2
        exact wf_PendingDeleteById s4 n _ (wf_UpdateCar _ s4 n car h3 hU2)
  · exact h

theorem wf_reassignLoop (car n : Nat) (hc : car < n) :
    ∀ (idxs arr : List Nat) (s : Store), (s.PtrValid ∧ s.CarsFiled ∧ s.carObjs.length = n) →
      (reassignLoop car idxs arr s).1.PtrValid ∧ (reassignLoop car idxs arr s).1.CarsFiled ∧
        (reassignLoop car idxs arr s).1.carObjs.length = n := by
  intro idxs
  induction idxs with
  | nil => intro arr s h; exact h
  | cons i is ih =>
    intro arr s h
    have hb := wf_reassignBody car (arr.getD i 0) n s h hc
    unfold reassignLoop
    split
    · rename_i s1 err heq
      rw [heq] at hb
      exact hb
    · rename_i s1 heq
      rw [heq] at hb
      exact ih _ s1 hb

theorem wf_Reassign (s : Store) (car : Nat) (hv : s.PtrValid) (hf : s.CarsFiled)
    (hc : car < s.carObjs.length) :
    (Reassign s car).1.PtrValid ∧ (Reassign s car).1.CarsFiled := by
  have hl := wf_reassignLoop car s.carObjs.length hc
    (List.range (PendingStorage.GetAllPendings s).length) (PendingStorage.GetAllPendings s) s
    ⟨hv, hf, rfl⟩
  unfold Reassign
  dsimp only
  split
  · rename_i s1 err heq
    rw [heq] at hl
    rw [handleTxn_Begin]
    exact wf_Rollback s s1 hv hf hl.1 (le_of_eq hl.2.2.symm)
  · rename_i s1 heq
    rw [heq] at hl
    rw [handleTxn_Commit]
    exact ⟨hl.1, hl.2.1⟩

/-! ## Fleet reset -/

theorem mapSet_of_not_mem (m : List (Nat × Nat)) (k v : Nat) (h : k ∉ m.map Prod.fst) :
    mapSet m k v = m ++ [(k, v)] := by
  induction m with
  | nil => rfl
  | cons x xs ih =>
    obtain ⟨k', v'⟩ := x
    simp only [List.map_cons, List.mem_cons, not_or] at h
    have hne : ¬ k' = k := fun he => h.1 he.symm
    simp only [mapSet, hne, if_false, List.cons_append, ih h.2]

theorem resetCarsLoop_success (txn : Transaction) :
    ∀ (ptrs seenIDs : List Nat) (s : Store),
      (∀ p ∈ ptrs, (s.carAt p).HasValidSeats = true) →
      (ptrs.map (fun p => (s.carAt p).ID)).Nodup →
      (∀ p ∈ ptrs, (s.carAt p).ID ∉ seenIDs) →
      (∀ p ∈ ptrs, (s.carAt p).ID ∉ s.cars.map Prod.fst) →
      resetCarsLoop txn ptrs seenIDs s =
        (handleTxn txn.Commit
          { s with cars := s.cars ++ ptrs.map (fun p => ((s.carAt p).ID, p)) }, none) := by
  intro ptrs
  induction ptrs with
  | nil =>
    intro seenIDs s _ _ _ _
    simp [resetCarsLoop]
  | cons x xs ih =>
    intro seenIDs s hvalid hnd hseen hkeys
    have hx := hvalid x (List.mem_cons_self _ _)
    have hxs := hseen x (List.mem_cons_self _ _)
    have hxk := hkeys x (List.mem_cons_self _ _)
    rw [List.map_cons, List.nodup_cons] at hnd
    have hnew : CarStorage.NewCar s x = { s with cars := s.cars ++ [((s.carAt x).ID, x)] } := by
      simp only [CarStorage.NewCar, mapSet_of_not_mem _ _ _ hxk]
    have hrec := ih ((s.carAt x).ID :: seenIDs) (CarStorage.NewCar s x)
      (by
        intro p hp
        rw [carAt_NewCar]
        exact hvalid p (List.mem_cons_of_mem _ hp))
      (by rw [carAt_NewCar]; exact hnd.2)
      (by
        intro p hp hmem
        rw [carAt_NewCar] at hmem
        rcases List.mem_cons.mp hmem with he | hm
        · exact hnd.1 (List.mem_map.mpr ⟨p, hp, he⟩)
        · exact hseen p (List.mem_cons_of_mem _ hp) hm)
      (by
        intro p hp hmem
        rw [carAt_NewCar, hnew] at hmem
        simp only [List.map_append, List.map_cons, List.map_nil, List.mem_append,
          List.mem_singleton] at hmem
        rcases hmem with hm | he
        · exact hkeys p (List.mem_cons_of_mem _ hp) hm
        · exact hnd.1 (List.mem_map.mpr ⟨p, hp, he⟩))
    have hfinal : ({ CarStorage.NewCar s x with
        cars := (CarStorage.NewCar s x).cars ++
          xs.map (fun p => (((CarStorage.NewCar s x).carAt p).ID, p)) } : Store) =
        { s with cars := s.cars ++ (x :: xs).map (fun p => ((s.carAt p).ID, p)) } := by
      rw [carAt_NewCar, hnew]
      simp
    rw [hfinal] at hrec
    unfold resetCarsLoop
    simp only [hx, Bool.not_true, Bool.false_eq_true, if_false, hxs]
    unfold CarStorage.FindById
    cases mapGet s.cars (s.carAt x).ID with
    | none => simpa using hrec
    | some c => simpa using hrec

theorem resetCarsLoop_invalid (txn : Transaction) :
    ∀ (ptrs seenIDs : List Nat) (s : Store),
      (ptrs.map (fun p => (s.carAt p).ID)).Nodup →
      (∀ p ∈ ptrs, (s.carAt p).ID ∉ seenIDs) →
      (∃ p ∈ ptrs, (s.carAt p).HasValidSeats = false) →
      ∃ r, resetCarsLoop txn ptrs seenIDs s = (handleTxn txn r, some ErrInvalidSeats) ∧
        r.carObjs = s.carObjs ∧ r.journeyObjs = s.journeyObjs := by
  intro ptrs
  induction ptrs with
  | nil =>
    intro seenIDs s _ _ h
    obtain ⟨p, hp, _⟩ := h
    cases hp
  | cons x xs ih =>
    intro seenIDs s hnd hseen hbad
    rw [List.map_cons, List.nodup_cons] at hnd
    unfold resetCarsLoop
    by_cases hx : (s.carAt x).HasValidSeats = true
    · have hxs := hseen x (List.mem_cons_self _ _)
      simp only [hx, Bool.not_true, Bool.false_eq_true, if_false, hxs]
      have hrec : ∃ r, resetCarsLoop txn xs ((s.carAt x).ID :: seenIDs)
          (CarStorage.NewCar s x) = (handleTxn txn r, some ErrInvalidSeats) ∧
          r.carObjs = s.carObjs ∧ r.journeyObjs = s.journeyObjs := by
        apply ih
        · rw [carAt_NewCar]; exact hnd.2
        · intro p hp hmem
          rw [carAt_NewCar] at hmem
          rcases List.mem_cons.mp hmem with he | hm
          · exact hnd.1 (List.mem_map.mpr ⟨p, hp, he⟩)
          · exact hseen p (List.mem_cons_of_mem _ hp) hm
        · rw [carAt_NewCar]
          obtain ⟨p, hp, hpb⟩ := hbad
          rcases List.mem_cons.mp hp with rfl | hp
          · rw [hx] at hpb; cases hpb
          · exact ⟨p, hp, hpb⟩
      unfold CarStorage.FindById
      cases mapGet s.cars (s.carAt x).ID with
      | none => simpa using hrec
      | some c => simpa using hrec
    · have hx2 : (s.carAt x).HasValidSeats = false := by simpa using hx
      exact ⟨s, by simp [hx2], rfl, rfl⟩

theorem ResetCars_success_eq (s : Store) (cars : List Car)
    (hseats : ∀ c ∈ cars, MIN_SEATS ≤ c.Seats ∧ c.Seats ≤ MAX_SEATS)
    (hid : (cars.map Car.ID).Nodup) :
    (ResetCars s cars).2 = none ∧
      (ResetCars s cars).1.carsValue = cars.map (fun c => (c.ID, c)) ∧
      (ResetCars s cars).1.journeys = [] ∧
      (ResetCars s cars).1.pending = [] ∧
      (ResetCars s cars).1.carObjs = s.carObjs ++ cars ∧
      (ResetCars s cars).1.journeyObjs = s.journeyObjs := by
  have hfresh := carAt_fresh s cars
  generalize hs0 : ({ s with carObjs := s.carObjs ++ cars } : Store) = s0 at hfresh
  have hco : s0.carObjs = s.carObjs ++ cars := by rw [← hs0]
  have hjo : s0.journeyObjs = s.journeyObjs := by rw [← hs0]
  have hvalid : ∀ p ∈ freshPtrs s.carObjs.length cars, (s0.carAt p).HasValidSeats = true := by
    intro p hp
    have hc : s0.carAt p ∈ (freshPtrs s.carObjs.length cars).map s0.carAt :=
      List.mem_map_of_mem _ hp
    rw [hfresh] at hc
    have := hseats _ hc
    simp [Car.HasValidSeats, this.1, this.2]
  have hids : (freshPtrs s.carObjs.length cars).map (fun p => (s0.carAt p).ID) =
      cars.map Car.ID := by
    have : (freshPtrs s.carObjs.length cars).map (fun p => (s0.carAt p).ID) =
        ((freshPtrs s.carObjs.length cars).map s0.carAt).map Car.ID := by
      rw [List.map_map]
      rfl
    rw [this, hfresh]
  have hloop := resetCarsLoop_success (Begin s0) (freshPtrs s.carObjs.length cars) []
    (PendingStorage.ResetMemory (JourneysStorage.ResetMemory (CarStorage.ResetMemory s0)))
    hvalid
    (by
      show ((freshPtrs s.carObjs.length cars).map (fun p => (s0.carAt p).ID)).Nodup
      rw [hids]
      exact hid)
    (by intro p _ h; cases h)
    (by intro p _ h; cases h)
  have hres : ResetCars s cars =
      ({ s0 with
          cars := (freshPtrs s.carObjs.length cars).map (fun p => ((s0.carAt p).ID, p))
          journeys := []
          pending := [] }, none) := by
    unfold ResetCars
    simp only []
    rw [hs0, hloop, handleTxn_Commit]
    rfl
  rw [hres]
  refine ⟨rfl, ?_, rfl, rfl, hco, hjo⟩
  have hval : ((freshPtrs s.carObjs.length cars).map (fun p => ((s0.carAt p).ID, p))).map
      (fun kv => (kv.1, s0.carAt kv.2)) =
      ((freshPtrs s.carObjs.length cars).map s0.carAt).map (fun c => (c.ID, c)) := by
    rw [List.map_map, List.map_map]
    rfl
  rw [hfresh] at hval
  exact hval

/-- C11. For a batch with pairwise distinct IDs and every seat count within 4
and 6, resetting the fleet through `PutCars` succeeds with status 200, the
`ResetCars` it calls returns no error, the car store holds exactly the cars of
the batch, each filed under its ID with its available seats equal to its
seats, and the journey store and the pending queue are empty. -/
theorem PutCars_resets_fleet (s : Store) (cars : List Car)
    (hseats : ∀ c ∈ cars, MIN_SEATS ≤ c.Seats ∧ c.Seats ≤ MAX_SEATS)
    (hid : (cars.map Car.ID).Nodup) :
    (PutCars s cars).2 = 200 ∧
      (ResetCars s (cars.map (fun car => { car with AvailableSeats := car.Seats }))).2 = none ∧
      (PutCars s cars).1.carsValue =
        cars.map (fun c => (c.ID, { c with AvailableSeats := c.Seats })) ∧
      (PutCars s cars).1.journeys = [] ∧
      (PutCars s cars).1.journeysValue = [] ∧
      (PutCars s cars).1.pending = [] ∧
      (PutCars s cars).1.pendingValue = [] := by
  have hseats2 : ∀ c ∈ cars.map (fun car : Car => { car with AvailableSeats := car.Seats }),
      MIN_SEATS ≤ c.Seats ∧ c.Seats ≤ MAX_SEATS := by
    intro c hc
    obtain ⟨c0, hc0, he⟩ := List.mem_map.mp hc
    rw [← he]
    exact hseats c0 hc0
  have hid2 : ((cars.map (fun car : Car => { car with AvailableSeats := car.Seats })).map
      Car.ID).Nodup := by
    rw [List.map_map]
    exact hid
  obtain ⟨h1, h2, h3, h4, _, _⟩ := ResetCars_success_eq s _ hseats2 hid2
  have hput : PutCars s cars =
      ((ResetCars s (cars.map (fun car => { car with AvailableSeats := car.Seats }))).1, 200) := by
    unfold PutCars
    simp only []
    generalize ResetCars s (cars.map (fun car => { car with AvailableSeats := car.Seats })) = r
      at h1
    obtain ⟨r1, r2⟩ := r
    simp only at h1
    rw [h1]
  rw [hput]
  refine ⟨rfl, h1, ?_, h3, ?_, h4, ?_⟩
  · show (ResetCars s _).1.carsValue = _
    rw [h2, List.map_map]
    rfl
  · show (ResetCars s _).1.journeysValue = _
    unfold Store.journeysValue
    rw [h3]
    rfl
  · show (ResetCars s _).1.pendingValue = _
    unfold Store.pendingValue
    rw [h4]
    rfl

/-- Witness of C11: on a store in use, the batch of the API test (car 1 with 4
seats, car 2 with 6 seats). -/
theorem PutCars_resets_fleet_witness :
    (PutCars usedStore [⟨1, 4, 0⟩, ⟨2, 6, 0⟩]).1.carsValue =
        [(1, ⟨1, 4, 4⟩), (2, ⟨2, 6, 6⟩)] ∧
      ((PutCars usedStore [⟨1, 4, 0⟩, ⟨2, 6, 0⟩]).2 = 200 ∧
      (ResetCars usedStore (([⟨1, 4, 0⟩, ⟨2, 6, 0⟩] : List Car).map
        (fun car => { car with AvailableSeats := car.Seats }))).2 = none ∧
      (PutCars usedStore [⟨1, 4, 0⟩, ⟨2, 6, 0⟩]).1.carsValue =
        ([⟨1, 4, 0⟩, ⟨2, 6, 0⟩] : List Car).map
          (fun c => (c.ID, { c with AvailableSeats := c.Seats })) ∧
      (PutCars usedStore [⟨1, 4, 0⟩, ⟨2, 6, 0⟩]).1.journeys = [] ∧
      (PutCars usedStore [⟨1, 4, 0⟩, ⟨2, 6, 0⟩]).1.journeysValue = [] ∧
      (PutCars usedStore [⟨1, 4, 0⟩, ⟨2, 6, 0⟩]).1.pending = [] ∧
      (PutCars usedStore [⟨1, 4, 0⟩, ⟨2, 6, 0⟩]).1.pendingValue = []) :=
  ⟨by decide, PutCars_resets_fleet usedStore [⟨1, 4, 0⟩, ⟨2, 6, 0⟩] (by decide) (by decide)⟩

theorem ResetCars_invalid_eq (s : Store) (cars : List Car)
    (hid : (cars.map Car.ID).Nodup)
    (hbad : ∃ c ∈ cars, c.Seats < MIN_SEATS ∨ MAX_SEATS < c.Seats) :
    ∃ r, ResetCars s cars =
        ((Begin { s with carObjs := s.carObjs ++ cars }).Rollback r, some ErrInvalidSeats) ∧
      r.carObjs = s.carObjs ++ cars := by
  have hfresh := carAt_fresh s cars
  generalize hs0 : ({ s with carObjs := s.carObjs ++ cars } : Store) = s0 at hfresh
  have hids : (freshPtrs s.carObjs.length cars).map (fun p => (s0.carAt p).ID) =
      cars.map Car.ID := by
    have : (freshPtrs s.carObjs.length cars).map (fun p => (s0.carAt p).ID) =
        ((freshPtrs s.carObjs.length cars).map s0.carAt).map Car.ID := by
      rw [List.map_map]
      rfl
    rw [this, hfresh]
  have hbad2 : ∃ p ∈ freshPtrs s.carObjs.length cars, (s0.carAt p).HasValidSeats = false := by
    obtain ⟨c, hc, hcs⟩ := hbad
    rw [← hfresh] at hc
    obtain ⟨p, hp, hpe⟩ := List.mem_map.mp hc
    refine ⟨p, hp, ?_⟩
    rw [hpe]
    unfold MIN_SEATS MAX_SEATS at hcs
    simp only [Car.HasValidSeats, MIN_SEATS, MAX_SEATS, Bool.and_eq_false_iff,
      decide_eq_false_iff_not]
    omega
  have hloop := resetCarsLoop_invalid (Begin s0) (freshPtrs s.carObjs.length cars) []
    (PendingStorage.ResetMemory (JourneysStorage.ResetMemory (CarStorage.ResetMemory s0)))
    (by
      show ((freshPtrs s.carObjs.length cars).map (fun p => (s0.carAt p).ID)).Nodup
      rw [hids]
      exact hid)
    (by intro p _ h; cases h)
    hbad2
  obtain ⟨r, hr, hcar, _⟩ := hloop
  refine ⟨r, ?_, ?_⟩
  · unfold ResetCars
    simp only []
    rw [hs0, hr, handleTxn_Begin]
  · rw [hcar, ← hs0]
    rfl

/-- C12. A fleet reset whose batch has pairwise distinct IDs and some car with
fewer than 4 or more than 6 seats fails with `ErrInvalidSeats`, and afterwards
the car store, the journey store and the pending queue are equal by value to
what they were before the call; and `HasValidSeats` is true exactly when the
seats are within 4 and 6. -/
theorem ResetCars_invalid_seats_rolls_back (s : Store) (cars : List Car) (hv : s.PtrValid)
    (hid : (cars.map Car.ID).Nodup)
    (hbad : ∃ c ∈ cars, c.Seats < 4 ∨ 6 < c.Seats) :
    (ResetCars s cars).2 = some ErrInvalidSeats ∧
      (ResetCars s cars).1.carsValue = s.carsValue ∧
      (ResetCars s cars).1.journeysValue = s.journeysValue ∧
      (ResetCars s cars).1.pendingValue = s.pendingValue ∧
      ∀ c : Car, c.HasValidSeats = true ↔ 4 ≤ c.Seats ∧ c.Seats ≤ 6 := by
  obtain ⟨r, hres, hcar⟩ := ResetCars_invalid_eq s cars hid hbad
  rw [hres]
  have hback := values_after_Rollback { s with carObjs := s.carObjs ++ cars } r
    (PtrValid_append_cars s cars hv) (by rw [hcar])
    (by intro a _; simp [Store.carAt, hcar])
  obtain ⟨v1, v2, v3⟩ := values_append_cars s cars hv
  refine ⟨rfl, hback.1.trans v1, hback.2.1.trans v2, hback.2.2.trans v3, ?_⟩
  intro c
  simp [Car.HasValidSeats, MIN_SEATS, MAX_SEATS]

/-- Witness of C12: on a store in use, a batch whose second car has 7 seats. -/
theorem ResetCars_invalid_seats_rolls_back_witness :
    usedStore.PtrValid ∧ (([⟨5, 4, 4⟩, ⟨6, 7, 7⟩] : List Car).map Car.ID).Nodup ∧
      (∃ c ∈ ([⟨5, 4, 4⟩, ⟨6, 7, 7⟩] : List Car), c.Seats < 4 ∨ 6 < c.Seats) ∧
      ((ResetCars usedStore [⟨5, 4, 4⟩, ⟨6, 7, 7⟩]).2 = some ErrInvalidSeats ∧
      (ResetCars usedStore [⟨5, 4, 4⟩, ⟨6, 7, 7⟩]).1.carsValue = usedStore.carsValue ∧
      (ResetCars usedStore [⟨5, 4, 4⟩, ⟨6, 7, 7⟩]).1.journeysValue = usedStore.journeysValue ∧
      (ResetCars usedStore [⟨5, 4, 4⟩, ⟨6, 7, 7⟩]).1.pendingValue = usedStore.pendingValue ∧
      ∀ c : Car, c.HasValidSeats = true ↔ 4 ≤ c.Seats ∧ c.Seats ≤ 6) :=
  ⟨by decide, by decide, by decide,
    ResetCars_invalid_seats_rolls_back usedStore [⟨5, 4, 4⟩, ⟨6, 7, 7⟩] (by decide) (by decide)
      (by decide)⟩

/-! ## The invariants of the data model on reachable stores -/

/-- C13, evaluated where the code departs from it. After a fleet reset of one
car with 6 seats and two `NewJourney` calls with the same ID 7 (2 and 3
passengers), all successful, the car has 1 seat available while the journey
store holds a single journey of 3 passengers assigned to it: 5 seats are in
use for 3 passengers. Without any repeated ID, after a `Dropoff` of an unknown
journey has rolled back, the calls of `staleCarCalls` leave the car with all
its 4 seats available while the journey 3, of 2 passengers, is assigned to it. -/
theorem SeatSum_broken_on_reachable_store :
    (PutCars Store.empty [⟨1, 6, 0⟩]).2 = 200 ∧
      (PostJourney (PutCars Store.empty [⟨1, 6, 0⟩]).1 ⟨7, 2, none⟩).2 = 200 ∧
      (PostJourney (PostJourney (PutCars Store.empty [⟨1, 6, 0⟩]).1 ⟨7, 2, none⟩).1
        ⟨7, 3, none⟩).2 = 200 ∧
      (runCalls Store.empty repeatedIdCalls).carsValue = [(1, ⟨1, 6, 1⟩)] ∧
      (runCalls Store.empty repeatedIdCalls).journeysValue =
        [(7, ⟨7, 3, some ⟨1, 6, 1⟩⟩)] ∧
      (runCalls Store.empty repeatedIdCalls).assignedPassengers 1 = 3 ∧
      ¬ (runCalls Store.empty repeatedIdCalls).SeatSum ∧
      (runCalls Store.empty staleCarCalls).carsValue = [(1, ⟨1, 4, 4⟩)] ∧
      (runCalls Store.empty staleCarCalls).journeysValue =
        [(3, ⟨3, 2, some ⟨1, 4, 4⟩⟩)] ∧
      ¬ (runCalls Store.empty staleCarCalls).SeatSum := by
  decide

/-- C14, evaluated where the code departs from it. After two `NewJourney` calls
with the same ID 7 on an empty fleet and `Dropoff 7`, all successful, the
pending queue still holds a journey 7 and the journey store is empty. Without
any repeated ID, after a `Dropoff` of an unknown journey has rolled back, the
dropoff of the journey 1 and the reassignment of its car take the journey 2
out of the pending queue, and the journey store still records it with no
assigned car. -/
theorem PendingXorAssigned_broken_on_reachable_store :
    (PostDropoff (runCalls Store.empty queuedTwiceCalls) 7).2 = 204 ∧
      (runCalls Store.empty (queuedTwiceCalls ++ [.postDropoff 7])).pendingValue =
        [⟨7, 8, none⟩] ∧
      (runCalls Store.empty (queuedTwiceCalls ++ [.postDropoff 7])).journeysValue = [] ∧
      ¬ (runCalls Store.empty (queuedTwiceCalls ++ [.postDropoff 7])).PendingXorAssigned ∧
      (PostDropoff (runCalls Store.empty staleQueueCalls) 1).2 = 200 ∧
      (runCalls Store.empty (staleQueueCalls ++ [.postDropoff 1])).pendingValue = [] ∧
      (runCalls Store.empty (staleQueueCalls ++ [.postDropoff 1])).journeysValue =
        [(2, ⟨2, 3, none⟩)] ∧
      ¬ (runCalls Store.empty (staleQueueCalls ++ [.postDropoff 1])).PendingXorAssigned := by
  decide

/-- C15, evaluated where the code departs from it. The dropoff of the unknown
journey 99 fails and rolls back; from then on the journeys 1 and 2 point to
the car object that the rollback replaced. Their dropoffs copy that object
over the live car, which wipes out the seats that the journey 3 took in
between, and the dropoff of 3 leaves the car of 4 seats with 6 available. -/
theorem SeatBounds_broken_on_reachable_store :
    (PostDropoff (runCalls Store.empty (staleCarCalls.take 3)) 99).2 = 404 ∧
      (runCalls Store.empty (staleCarCalls.take 3)).carsValue = [(1, ⟨1, 4, 0⟩)] ∧
      (runCalls Store.empty (staleCarCalls.take 5)).carsValue = [(1, ⟨1, 4, 2⟩)] ∧
      (runCalls Store.empty (staleCarCalls.take 6)).carsValue = [(1, ⟨1, 4, 0⟩)] ∧
      (runCalls Store.empty staleCarCalls).carsValue = [(1, ⟨1, 4, 4⟩)] ∧
      (PostDropoff (runCalls Store.empty staleCarCalls) 3).2 = 200 ∧
      (runCalls Store.empty (staleCarCalls ++ [.postDropoff 3])).carsValue =
        [(1, ⟨1, 4, 6⟩)] ∧
      ¬ (runCalls Store.empty (staleCarCalls ++ [.postDropoff 3])).SeatBounds := by
  decide

/-- C16, evaluated where the code departs from it. On an empty fleet two
`NewJourney` calls with the same ID 7 both succeed and the pending queue holds
two entries with the ID 7. -/
theorem PendingUnique_broken_on_reachable_store :
    (PostJourney Store.empty ⟨7, 9, none⟩).2 = 200 ∧
      (PostJourney (PostJourney Store.empty ⟨7, 9, none⟩).1 ⟨7, 8, none⟩).2 = 200 ∧
      (runCalls Store.empty queuedTwiceCalls).pendingIds = [7, 7] ∧
      (runCalls Store.empty queuedTwiceCalls).pendingValue =
        [⟨7, 9, none⟩, ⟨7, 8, none⟩] ∧
      ¬ (runCalls Store.empty queuedTwiceCalls).PendingUnique := by
  decide

/-- C17, evaluated where the code departs from it. In the store left by
`staleQueueCalls` the journey 2 is pending. `Dropoff 1` returns the car and
`Reassign` of that car succeeds, takes the journey 2 out of the pending queue
and takes its 3 seats from the car; but the journey object it assigned is the
copy held by the queue since the rollback, and the journey store still
records the journey 2 with no car: `Locate 2` returns no car. -/
theorem Reassign_leaves_journey_store_unassigned :
    (runCalls Store.empty staleQueueCalls).pendingValue = [⟨2, 3, none⟩] ∧
      (Dropoff (runCalls Store.empty staleQueueCalls) 1).2 = (some 0, none) ∧
      (Reassign (Dropoff (runCalls Store.empty staleQueueCalls) 1).1 0).2 = none ∧
      (Reassign (Dropoff (runCalls Store.empty staleQueueCalls) 1).1 0).1.pending = [] ∧
      (Reassign (Dropoff (runCalls Store.empty staleQueueCalls) 1).1 0).1.carsValue =
        [(1, ⟨1, 4, 1⟩)] ∧
      (Reassign (Dropoff (runCalls Store.empty staleQueueCalls) 1).1 0).1.journeysValue =
        [(2, ⟨2, 3, none⟩)] ∧
      (Locate (Reassign (Dropoff (runCalls Store.empty staleQueueCalls) 1).1 0).1 2).2 =
        (none, none) ∧
      (PostLocate (Reassign (Dropoff (runCalls Store.empty staleQueueCalls) 1).1 0).1 2).2 =
        (204, none) := by
  decide

theorem NewJourney_error_code (s : Store) (j : Journey) (e : APIError)
    (h : (NewJourney s j).2 = some e) : e.Code = 500 := by
  unfold NewJourney at h
  simp only [findById_not_failed] at h
  split at h
  · split at h
    · simp only [Option.some.injEq] at h
      rw [← h]
      rfl
    · cases h
  · cases h

/-- C18, evaluated where the code departs from it. With the journey 7 already
in the journey store, `NewJourney` of another journey with the ID 7 returns
no error and `PostJourney` answers 200: the journey store now files the new
journey under 7 and the seats of both are taken from the car. -/
theorem NewJourney_accepts_repeated_id :
    (runCalls Store.empty (repeatedIdCalls.take 2)).journeysValue =
        [(7, ⟨7, 2, some ⟨1, 6, 4⟩⟩)] ∧
      (NewJourney (runCalls Store.empty (repeatedIdCalls.take 2)) ⟨7, 3, none⟩).2 = none ∧
      (PostJourney (runCalls Store.empty (repeatedIdCalls.take 2)) ⟨7, 3, none⟩).2 = 200 ∧
      (NewJourney (runCalls Store.empty (repeatedIdCalls.take 2)) ⟨7, 3, none⟩).1.journeysValue =
        [(7, ⟨7, 3, some ⟨1, 6, 1⟩⟩)] ∧
      (NewJourney (runCalls Store.empty (repeatedIdCalls.take 2)) ⟨7, 3, none⟩).1.carsValue =
        [(1, ⟨1, 6, 1⟩)] := by
  decide

/-! ## Best-fit selection: when no car is returned, and the order of the list -/

theorem findCarLoop_none_of_no_fit (mem : Nat → Car) (seats : Nat) :
    ∀ (cars : List Nat) (minSeats : Nat),
      (∀ p ∈ cars, ¬ (seats ≤ (mem p).AvailableSeats ∧ (mem p).AvailableSeats < minSeats)) →
      findCarLoop mem seats cars none minSeats = none := by
  intro cars
  induction cars with
  | nil => intro minSeats _; rfl
  | cons x xs ih =>
    intro minSeats h
    unfold findCarLoop
    rw [if_neg (h x (List.mem_cons_self _ _))]
    exact ih _ (fun p hp => h p (List.mem_cons_of_mem _ hp))

/-- Counterexample to C19 as stated. The single car of `maxCar` has `maxUint`
seats available, which is enough for one passenger, and `findCar` returns no
car. -/
theorem findCar_none_though_car_fits :
    (maxCar.carAt 0).AvailableSeats = 2 ^ 64 - 1 ∧
      (∃ c ∈ [0], 1 ≤ (maxCar.carAt c).AvailableSeats) ∧
      findCar maxCar.carAt [0] 1 = none ∧
      ¬ (findCar maxCar.carAt [0] 1 = none ↔
        ∀ c ∈ [0], ¬ 1 ≤ (maxCar.carAt c).AvailableSeats) := by
  decide

/-- C19, as amended. `findCar` returns no car exactly when no car of the list
has at least `s` and fewer than `maxUint` seats available. -/
theorem findCar_none_iff (mem : Nat → Car) (cars : List Nat) (s : Nat) :
    findCar mem cars s = none ↔
      ∀ c ∈ cars, ¬ (s ≤ (mem c).AvailableSeats ∧ (mem c).AvailableSeats < maxUint) := by
  constructor
  · intro h c hc hfit
    have hsome := findCarLoop_isSome mem s cars none maxUint (Or.inr ⟨c, hc, hfit⟩)
    have : findCarLoop mem s cars none maxUint = none := h
    rw [this] at hsome
    cases hsome
  · intro h
    exact findCarLoop_none_of_no_fit mem s cars maxUint h

/-- Counterexample to C20 as stated. The cars 1 and 2 of `tiedCars` both have 4
seats available; for 4 passengers `findCar` selects the car with ID 1 when it
comes first in the list and the car with ID 2 when that one comes first. -/
theorem findCar_tie_follows_list_order :
    [0, 1].Perm [1, 0] ∧
      (findCar tiedCars.carAt [0, 1] 4).map (fun c => (tiedCars.carAt c).ID) = some 1 ∧
      (findCar tiedCars.carAt [1, 0] 4).map (fun c => (tiedCars.carAt c).ID) = some 2 := by
  decide

/-- C20, as amended. For two car lists that are permutations of each other,
`findCar` returns a car for both or for neither; the two cars returned have
the same number of seats available; and they have the same ID when every car
of the list with that number of seats available has that ID. -/
theorem findCar_perm (mem : Nat → Car) (l1 l2 : List Nat) (s : Nat) (hp : l1.Perm l2) :
    (findCar mem l1 s = none ↔ findCar mem l2 s = none) ∧
      ∀ c1 c2, findCar mem l1 s = some c1 → findCar mem l2 s = some c2 →
        (mem c1).AvailableSeats = (mem c2).AvailableSeats ∧
        ((∀ d ∈ l1, (mem d).AvailableSeats = (mem c1).AvailableSeats →
            (mem d).ID = (mem c1).ID) →
          (mem c2).ID = (mem c1).ID) := by
  have hnone : ∀ (a b : List Nat), a.Perm b → findCar mem a s = none →
      findCar mem b s = none := by
    intro a b hab h
    apply findCarLoop_none_of_no_fit
    intro c hc hfit
    have hsome := findCarLoop_isSome mem s a none maxUint
      (Or.inr ⟨c, hab.mem_iff.mpr hc, hfit⟩)
    have : findCarLoop mem s a none maxUint = none := h
    rw [this] at hsome
    cases hsome
  refine ⟨⟨hnone l1 l2 hp, hnone l2 l1 hp.symm⟩, ?_⟩
  intro c1 c2 h1 h2
  obtain ⟨hm1, hs1, hlt1⟩ := findCar_lt_maxUint mem l1 s c1 h1
  obtain ⟨hm2, hs2, hlt2⟩ := findCar_lt_maxUint mem l2 s c2 h2
  have hmin1 : ∀ d ∈ l1, s ≤ (mem d).AvailableSeats →
      (mem c1).AvailableSeats ≤ (mem d).AvailableSeats := by
    rcases findCarLoop_spec mem s l1 none maxUint c1 h1 with ⟨_, _, _, hall⟩ | ⟨hb, _⟩
    · exact hall
    · cases hb
  have hmin2 : ∀ d ∈ l2, s ≤ (mem d).AvailableSeats →
      (mem c2).AvailableSeats ≤ (mem d).AvailableSeats := by
    rcases findCarLoop_spec mem s l2 none maxUint c2 h2 with ⟨_, _, _, hall⟩ | ⟨hb, _⟩
    · exact hall
    · cases hb
  have h12 := hmin1 c2 (hp.mem_iff.mpr hm2) hs2
  have h21 := hmin2 c1 (hp.mem_iff.mp hm1) hs1
  have heq : (mem c1).AvailableSeats = (mem c2).AvailableSeats := le_antisymm h12 h21
  exact ⟨heq, fun hu => hu c2 (hp.mem_iff.mpr hm2) heq.symm⟩

/-- Witness of C20: the cars of `twoCars` in both orders; for 4 passengers the
car with ID 2 is selected each time. -/
theorem findCar_perm_witness :
    [0, 1].Perm [1, 0] ∧
      (findCar twoCars.carAt [0, 1] 4 = some 1 ∧ findCar twoCars.carAt [1, 0] 4 = some 1) ∧
      ((findCar twoCars.carAt [0, 1] 4 = none ↔ findCar twoCars.carAt [1, 0] 4 = none) ∧
      ∀ c1 c2, findCar twoCars.carAt [0, 1] 4 = some c1 →
        findCar twoCars.carAt [1, 0] 4 = some c2 →
        (twoCars.carAt c1).AvailableSeats = (twoCars.carAt c2).AvailableSeats ∧
        ((∀ d ∈ [0, 1], (twoCars.carAt d).AvailableSeats = (twoCars.carAt c1).AvailableSeats →
            (twoCars.carAt d).ID = (twoCars.carAt c1).ID) →
          (twoCars.carAt c2).ID = (twoCars.carAt c1).ID)) :=
  ⟨by decide, by decide, findCar_perm twoCars.carAt [0, 1] [1, 0] 4 (by decide)⟩

/-! ## Best fit from the fleet reset to the lookup -/

theorem perm_pair {α : Type} (a b : α) (m : List α) (h : m.Perm [a, b]) :
    m = [a, b] ∨ m = [b, a] := by
  have hl := h.length_eq
  match m, hl with
  | [x, y], _ =>
    have hx : x ∈ [a, b] := h.subset (List.mem_cons_self _ _)
    simp only [List.mem_cons, List.mem_singleton, List.not_mem_nil, or_false] at hx
    rcases hx with rfl | rfl
    · left
      have h2 : [y].Perm [b] := (List.perm_cons x).mp h
      rw [List.perm_singleton.mp h2]
    · right
      have h2 : [x, y].Perm [x, a] := h.trans (List.Perm.swap x a [])
      have h3 : [y].Perm [a] := (List.perm_cons x).mp h2
      rw [List.perm_singleton.mp h3]

theorem map_pair_eq_zip {α β : Type} (f : α → β) (l : List α) :
    l.map (fun p => (f p, p)) = (l.map f).zip l := by
  induction l with
  | nil => rfl
  | cons x xs ih => simp [ih]

theorem ResetCars_success_state (s : Store) (cars : List Car)
    (hseats : ∀ c ∈ cars, MIN_SEATS ≤ c.Seats ∧ c.Seats ≤ MAX_SEATS)
    (hid : (cars.map Car.ID).Nodup) :
    ResetCars s cars =
      ({ carObjs := s.carObjs ++ cars
         journeyObjs := s.journeyObjs
         cars := (cars.map Car.ID).zip (freshPtrs s.carObjs.length cars)
         journeys := []
         pending := [] }, none) := by
  have hfresh := carAt_fresh s cars
  generalize hs0 : ({ s with carObjs := s.carObjs ++ cars } : Store) = s0 at hfresh
  have hvalid : ∀ p ∈ freshPtrs s.carObjs.length cars, (s0.carAt p).HasValidSeats = true := by
    intro p hp
    have hc : s0.carAt p ∈ (freshPtrs s.carObjs.length cars).map s0.carAt :=
      List.mem_map_of_mem _ hp
    rw [hfresh] at hc
    have := hseats _ hc
    simp [Car.HasValidSeats, this.1, this.2]
  have hids : (freshPtrs s.carObjs.length cars).map (fun p => (s0.carAt p).ID) =
      cars.map Car.ID := by
    have : (freshPtrs s.carObjs.length cars).map (fun p => (s0.carAt p).ID) =
        ((freshPtrs s.carObjs.length cars).map s0.carAt).map Car.ID := by
      rw [List.map_map]
      rfl
    rw [this, hfresh]
  have hloop := resetCarsLoop_success (Begin s0) (freshPtrs s.carObjs.length cars) []
    (PendingStorage.ResetMemory (JourneysStorage.ResetMemory (CarStorage.ResetMemory s0)))
    hvalid
    (by
      show ((freshPtrs s.carObjs.length cars).map (fun p => (s0.carAt p).ID)).Nodup
      rw [hids]
      exact hid)
    (by intro p _ h; cases h)
    (by intro p _ h; cases h)
  have hzip : (freshPtrs s.carObjs.length cars).map (fun p => ((s0.carAt p).ID, p)) =
      (cars.map Car.ID).zip (freshPtrs s.carObjs.length cars) := by
    rw [map_pair_eq_zip (fun p => (s0.carAt p).ID), hids]
  unfold ResetCars
  simp only []
  rw [hs0, hloop, handleTxn_Commit]
  show ({ s0 with
      cars := [] ++ (freshPtrs s.carObjs.length cars).map (fun p => ((s0.carAt p).ID, p))
      journeys := []
      pending := [] }, none) = _
  rw [List.nil_append, hzip, ← hs0]

theorem carAt_two_fresh (pre : List Car) (a b : Car) (jo : List Journey)
    (m js : List (Nat × Nat)) (q : List Nat) :
    ({ carObjs := pre ++ [a, b], journeyObjs := jo, cars := m, journeys := js,
       pending := q } : Store).carAt pre.length = a ∧
    ({ carObjs := pre ++ [a, b], journeyObjs := jo, cars := m, journeys := js,
       pending := q } : Store).carAt (pre.length + 1) = b := by
  constructor
  · show (pre ++ [a, b]).getD pre.length default = a
    rw [List.getD_append_right _ _ _ _ (le_refl _)]
    simp
  · show (pre ++ [a, b]).getD (pre.length + 1) default = b
    rw [List.getD_append_right _ _ _ _ (Nat.le_succ _)]
    simp

/-- C21. From any store, after `ResetCars` with the cars {1, 4 seats} and
{2, 6 seats}, whichever of the two orders the car map is iterated in,
`NewJourney` of journey 1 with 4 passengers succeeds and `Locate(1)` returns
the car stored under id 1, which reads {1, 4, 0}; the car stored under id 2
still reads {2, 6, 6}. -/
theorem best_fit_end_to_end (s : Store) (m : List (Nat × Nat))
    (hm : m.Perm (ResetCars s [⟨1, 4, 4⟩, ⟨2, 6, 6⟩]).1.cars) :
    (ResetCars s [⟨1, 4, 4⟩, ⟨2, 6, 6⟩]).2 = none ∧
    ∃ r c c2,
      NewJourney { (ResetCars s [⟨1, 4, 4⟩, ⟨2, 6, 6⟩]).1 with cars := m } ⟨1, 4, none⟩
        = (r, none) ∧
      Locate r 1 = (r, some c, none) ∧ r.carAt c = ⟨1, 4, 0⟩ ∧
      CarStorage.FindById r 1 = .ok c ∧
      CarStorage.FindById r 2 = .ok c2 ∧ r.carAt c2 = ⟨2, 6, 6⟩ := by
  have hst := ResetCars_success_state s [⟨1, 4, 4⟩, ⟨2, 6, 6⟩] (by decide) (by decide)
  have hcars : (([⟨1, 4, 4⟩, ⟨2, 6, 6⟩] : List Car).map Car.ID).zip
      (freshPtrs s.carObjs.length ([⟨1, 4, 4⟩, ⟨2, 6, 6⟩] : List Car)) =
      [(1, s.carObjs.length), (2, s.carObjs.length + 1)] := rfl
  rw [hcars] at hst
  rw [hst] at hm ⊢
  refine ⟨rfl, ?_⟩
  dsimp only at hm ⊢
  obtain ⟨ha, hb⟩ := carAt_two_fresh s.carObjs ⟨1, 4, 4⟩ ⟨2, 6, 6⟩ s.journeyObjs m [] []
  have hlt : s.carObjs.length < (s.carObjs ++ [(⟨1, 4, 4⟩ : Car), ⟨2, 6, 6⟩]).length := by
    simp
  have hne : s.carObjs.length + 1 ≠ s.carObjs.length := Nat.succ_ne_self _
  have hfind : findCar
      ({ carObjs := s.carObjs ++ [⟨1, 4, 4⟩, ⟨2, 6, 6⟩], journeyObjs := s.journeyObjs,
         cars := m, journeys := [], pending := [] } : Store).carAt
      (m.map Prod.snd) 4 = some s.carObjs.length := by
    rcases perm_pair _ _ m hm with rfl | rfl
    · simp [findCar, findCarLoop, ha, hb, maxUint, uintSize]
    · simp [findCar, findCarLoop, ha, hb, maxUint, uintSize]
  have hkey : mapGet m 1 = some s.carObjs.length ∧ mapGet m 2 = some (s.carObjs.length + 1) := by
    rcases perm_pair _ _ m hm with rfl | rfl
    · simp [mapGet]
    · simp [mapGet]
  have hnew := NewJourney_assigned_eq
    { carObjs := s.carObjs ++ [⟨1, 4, 4⟩, ⟨2, 6, 6⟩], journeyObjs := s.journeyObjs,
      cars := m, journeys := [], pending := [] } ⟨1, 4, none⟩ s.carObjs.length hlt
    (by rw [ha]; exact hkey.1) hfind
  rw [ha] at hnew
  refine ⟨_, s.carObjs.length, s.carObjs.length + 1, hnew, ?_, ?_, ?_, ?_, ?_⟩
  · simp [Locate, JourneysStorage.FindById, mapSet, mapGet, Store.journeyAt, Journey.AssignCar]
  · exact carAt_setCar_self
      { carObjs := s.carObjs ++ [⟨1, 4, 4⟩, ⟨2, 6, 6⟩], journeyObjs := _, cars := m,
        journeys := _, pending := [] } s.carObjs.length ⟨1, 4, 0⟩ hlt
  · simp [CarStorage.FindById, hkey.1]
  · simp [CarStorage.FindById, hkey.2]
  · exact (carAt_setCar_ne
      { carObjs := s.carObjs ++ [⟨1, 4, 4⟩, ⟨2, 6, 6⟩], journeyObjs := _, cars := m,
        journeys := _, pending := [] } s.carObjs.length (s.carObjs.length + 1) ⟨1, 4, 0⟩
      hne).trans hb

/-- C21, at the empty store with the car map read in the order 2, 1. -/
theorem best_fit_end_to_end_witness :
    [(2, 1), (1, 0)].Perm (ResetCars Store.empty [⟨1, 4, 4⟩, ⟨2, 6, 6⟩]).1.cars ∧
    ((ResetCars Store.empty [⟨1, 4, 4⟩, ⟨2, 6, 6⟩]).2 = none ∧
    ∃ r c c2,
      NewJourney { (ResetCars Store.empty [⟨1, 4, 4⟩, ⟨2, 6, 6⟩]).1 with cars := [(2, 1), (1, 0)] }
          ⟨1, 4, none⟩ = (r, none) ∧
      Locate r 1 = (r, some c, none) ∧ r.carAt c = ⟨1, 4, 0⟩ ∧
      CarStorage.FindById r 1 = .ok c ∧
      CarStorage.FindById r 2 = .ok c2 ∧ r.carAt c2 = ⟨2, 6, 6⟩) :=
  ⟨by decide, best_fit_end_to_end Store.empty [(2, 1), (1, 0)] (by decide)⟩

/-- C22. On the store reached by `failingReassignCalls`, `Dropoff(10)` succeeds
and returns the car, and `Reassign` of that car returns an error after it has
assigned journey 30: the car store and the pending queue are restored by
value, but the journey store is not, as journey 11 is still bound to the car
object that the loop charged with 3 passengers and reads it with 1 seat
available instead of 4. -/
theorem Reassign_failure_changes_journey_store :
    (Dropoff (runCalls Store.empty failingReassignCalls) 10).2 = (some 0, none) ∧
    (Reassign (Dropoff (runCalls Store.empty failingReassignCalls) 10).1 0).2 =
      some ⟨500, "Failed to update pending journey", "Resource not found"⟩ ∧
    (Reassign (Dropoff (runCalls Store.empty failingReassignCalls) 10).1 0).1.carsValue =
      (Dropoff (runCalls Store.empty failingReassignCalls) 10).1.carsValue ∧
    (Reassign (Dropoff (runCalls Store.empty failingReassignCalls) 10).1 0).1.pendingValue =
      (Dropoff (runCalls Store.empty failingReassignCalls) 10).1.pendingValue ∧
    (Dropoff (runCalls Store.empty failingReassignCalls) 10).1.journeysValue =
      [(11, ⟨11, 2, some ⟨1, 6, 4⟩⟩), (30, ⟨30, 2, none⟩), (31, ⟨31, 5, none⟩),
        (32, ⟨32, 1, none⟩)] ∧
    (Reassign (Dropoff (runCalls Store.empty failingReassignCalls) 10).1 0).1.journeysValue =
      [(11, ⟨11, 2, some ⟨1, 6, 1⟩⟩), (30, ⟨30, 2, none⟩), (31, ⟨31, 5, none⟩),
        (32, ⟨32, 1, none⟩)] := by
  decide

/-- C30. On `threePending`, the store reached when the journey filling the only
car is dropped off with the journeys 30, 31 and 32 pending, `Reassign` of the
car succeeds and leaves in the pending queue the journey 31, whose 2
passengers fit in the 4 seats the car still has available. -/
theorem Reassign_leaves_fitting_journey_pending :
    Dropoff (runCalls Store.empty [.putCars [⟨1, 6, 0⟩], .postJourney 10 6, .postJourney 30 2,
      .postJourney 31 2, .postJourney 32 5]) 10 = (threePending, some 0, none) ∧
    (Reassign threePending 0).2 = none ∧
    (Reassign threePending 0).1.pendingValue = [⟨31, 2, none⟩, ⟨32, 5, none⟩] ∧
    (Reassign threePending 0).1.carsValue = [(1, ⟨1, 6, 4⟩)] ∧
    ∃ p ∈ (Reassign threePending 0).1.pending,
      ((Reassign threePending 0).1.journeyAt p).Passengers ≤
        ((Reassign threePending 0).1.carAt 0).AvailableSeats := by
  decide

/-! ## The dropoff request when the reassignment fails -/

theorem mapGet_none_not_mem (m : List (Nat × Nat)) (k : Nat) (h : mapGet m k = none) :
    k ∉ m.map Prod.fst := by
  induction m with
  | nil => simp
  | cons x xs ih =>
    obtain ⟨a, b⟩ := x
    by_cases hk : a = k
    · simp [mapGet, hk] at h
    · simp only [mapGet, hk, if_false] at h
      simp only [List.map_cons, List.mem_cons, not_or]
      exact ⟨fun he => hk he.symm, ih h⟩

theorem mapGet_zip_none (keys vals : List Nat) (k : Nat) (h : k ∉ keys) :
    mapGet (keys.zip vals) k = none := by
  induction keys generalizing vals with
  | nil => simp [mapGet]
  | cons a as ih =>
    cases vals with
    | nil => simp [mapGet]
    | cons v vs =>
      simp only [List.mem_cons, not_or] at h
      simp only [List.zip_cons_cons, mapGet, if_neg (Ne.symm h.1)]
      exact ih vs h.2

/-- C24. A call of `Commit` returns no error, leaves the live store as it is
and makes `HasCommited` true; `HasCommited` is false on the transaction that
`Begin` returns and stays so across a `Rollback`, which writes no field of the
transaction; and a second `Commit` leaves the transaction, the store and the
returned error as the first call left them. -/
theorem Commit_contract (u : Transaction) (s r : Store) :
    (u.CommitCall s).2.2 = none ∧
    (u.CommitCall s).2.1 = s ∧
    (u.CommitCall s).1.HasCommited = true ∧
    (Begin s).HasCommited = false ∧
    (u.RollbackCall r).1 = u ∧
    ((Begin s).RollbackCall r).1.HasCommited = false ∧
    (((Begin s).RollbackCall r).1.CommitCall ((Begin s).RollbackCall r).2.1).1.HasCommited
      = true ∧
    (u.CommitCall s).1.CommitCall (u.CommitCall s).2.1 = u.CommitCall s :=
  ⟨rfl, rfl, rfl, rfl, rfl, rfl, rfl, rfl⟩

/-- C25. The deferred `handleTxn` leaves the store as it is when the
transaction has been committed; on the transaction begun in `s` and not
committed it replaces the three live collections, whatever they have become,
by collections whose keys, order and struct values are those of `s`, the
`AssignedTo` pointers being the ones copied at `Begin`. -/
theorem handleTxn_contract (u : Transaction) (s r : Store) :
    (u.HasCommited = true → handleTxn u r = r) ∧
    (u.HasCommited = false →
      (handleTxn u r).carsValue = u.carBackup ∧
      (handleTxn u r).journeys.map (fun kv => (kv.1, (handleTxn u r).journeyAt kv.2))
        = u.journeyBackup ∧
      (handleTxn u r).pending.map (handleTxn u r).journeyAt = u.pendingBackup) ∧
    (Begin s).HasCommited = false ∧
    (Begin s).carBackup = s.cars.map (fun kv => (kv.1, s.carAt kv.2)) ∧
    (Begin s).journeyBackup = s.journeys.map (fun kv => (kv.1, s.journeyAt kv.2)) ∧
    (Begin s).pendingBackup = s.pending.map s.journeyAt := by
  refine ⟨?_, ?_, rfl, rfl, rfl, rfl⟩
  · intro h
    simp [handleTxn, h]
  · intro h
    have hh : handleTxn u r = u.Rollback r := by simp [handleTxn, h]
    rw [hh]
    refine ⟨Rollback_carsValue u r, ?_, ?_⟩
    · have := fresh_zip_values (default : Journey) id u.journeyBackup r.journeyObjs
        u.pendingBackup
      simpa [Transaction.Rollback, Store.journeyAt, freshPtrs] using this
    · have := fresh_values (default : Journey) id u.pendingBackup
        (r.journeyObjs ++ u.journeyBackup.map Prod.snd)
      show List.map (fun p => (u.Rollback r).journeyAt p) _ = _
      simpa [Transaction.Rollback, Store.journeyAt, freshPtrs] using this

/-- C25, on a transaction begun in `busyStore` and committed, and on one not
committed. -/
theorem handleTxn_contract_witness :
    (Begin busyStore).Commit.HasCommited = true ∧
    handleTxn (Begin busyStore).Commit twoQueued = twoQueued ∧
    (Begin busyStore).HasCommited = false ∧
    (handleTxn (Begin busyStore) twoQueued).carsValue = (Begin busyStore).carBackup ∧
    (handleTxn (Begin busyStore) twoQueued).pending.map
      (handleTxn (Begin busyStore) twoQueued).journeyAt = (Begin busyStore).pendingBackup :=
  ⟨rfl, (handleTxn_contract (Begin busyStore).Commit busyStore twoQueued).1 rfl, rfl,
   ((handleTxn_contract (Begin busyStore) busyStore twoQueued).2.1 rfl).1,
   ((handleTxn_contract (Begin busyStore) busyStore twoQueued).2.1 rfl).2.2⟩

/-! ## Two transactions on one store -/

theorem Rollback_car_absent (s r : Store) (k : Nat) (h : mapGet s.cars k = none) :
    CarStorage.FindById ((Begin s).Rollback r) k = .error ErrNotFound := by
  have hk : mapGet ((Begin s).Rollback r).cars k = none := by
    apply mapGet_zip_none
    have : (Begin s).carBackup.map Prod.fst = s.cars.map Prod.fst := by
      simp [Begin, cloneCars, List.map_map, Function.comp_def]
    rw [this]
    exact mapGet_none_not_mem _ _ h
  simp [CarStorage.FindById, hk]

theorem carAt_insertNewCar (s : Store) (car : Car) :
    (insertNewCar s car).carAt s.carObjs.length = car := by
  simp [insertNewCar, CarStorage.NewCar, Store.carAt, List.getD_eq_getElem?_getD]

/-- C26. `T1` and then `T2` are begun in the store `s`; a car whose ID is
not in the car store is inserted through the handle of `T2`, and `T2` commits.
A lookup of its ID in the live store, which both handles denote, then finds
the car; once `T1` is rolled back the lookup fails with not-found and the car
store has the contents of `s` by value, as have the journey store and the
pending queue when the pointers of `s` are valid. -/
theorem Rollback_discards_committed_insert (s : Store) (car : Car)
    (hnew : mapGet s.cars car.ID = none) :
    ((Begin s).Commit.HasCommited = true ∧
      ((Begin s).CommitCall (insertNewCar s car)).2.1 = insertNewCar s car) ∧
    (∃ p, CarStorage.FindById (insertNewCar s car) car.ID = .ok p ∧
      (insertNewCar s car).carAt p = car) ∧
    CarStorage.FindById ((Begin s).RollbackCall (insertNewCar s car)).2.1 car.ID
      = .error ErrNotFound ∧
    ((Begin s).RollbackCall (insertNewCar s car)).2.1.carsValue = s.carsValue ∧
    (s.PtrValid →
      ((Begin s).RollbackCall (insertNewCar s car)).2.1.journeysValue = s.journeysValue ∧
      ((Begin s).RollbackCall (insertNewCar s car)).2.1.pendingValue = s.pendingValue) := by
  have hat := carAt_insertNewCar s car
  refine ⟨⟨rfl, rfl⟩, ⟨s.carObjs.length, ?_, hat⟩, Rollback_car_absent s _ _ hnew,
    Rollback_carsValue _ _, fun hv => ?_⟩
  · have : mapGet (insertNewCar s car).cars car.ID = some s.carObjs.length := by
      have hc : ({ s with carObjs := s.carObjs ++ [car] } : Store).carAt s.carObjs.length
          = car := hat
      show mapGet (mapSet s.cars
        (({ s with carObjs := s.carObjs ++ [car] } : Store).carAt s.carObjs.length).ID
        s.carObjs.length) car.ID = _
      rw [hc]
      exact mapGet_mapSet_self _ _ _
    simp [CarStorage.FindById, this]
  · have h := values_after_Rollback s (insertNewCar s car) hv
      (by simp [insertNewCar, CarStorage.NewCar])
      (fun a ha => carAt_append_old s [car] a ha)
    exact h.2

/-- C26, on `busyStore` and a car with the new ID 3. -/
theorem Rollback_discards_committed_insert_witness :
    mapGet busyStore.cars (⟨3, 5, 5⟩ : Car).ID = none ∧ busyStore.PtrValid ∧
    CarStorage.FindById (insertNewCar busyStore ⟨3, 5, 5⟩) 3 = .ok 2 ∧
    CarStorage.FindById ((Begin busyStore).RollbackCall (insertNewCar busyStore ⟨3, 5, 5⟩)).2.1
      (⟨3, 5, 5⟩ : Car).ID = .error ErrNotFound ∧
    ((Begin busyStore).RollbackCall (insertNewCar busyStore ⟨3, 5, 5⟩)).2.1.carsValue
      = busyStore.carsValue ∧
    ((Begin busyStore).RollbackCall (insertNewCar busyStore ⟨3, 5, 5⟩)).2.1.journeysValue
      = busyStore.journeysValue :=
  ⟨by decide, by decide, rfl,
    (Rollback_discards_committed_insert busyStore ⟨3, 5, 5⟩ (by decide)).2.2.1,
    (Rollback_discards_committed_insert busyStore ⟨3, 5, 5⟩ (by decide)).2.2.2.1,
    ((Rollback_discards_committed_insert busyStore ⟨3, 5, 5⟩ (by decide)).2.2.2.2
      (by decide)).1⟩

/-! ## The car storage -/

theorem mapGet_none_of_not_mem (m : List (Nat × Nat)) (k : Nat) (h : k ∉ m.map Prod.fst) :
    mapGet m k = none := by
  induction m with
  | nil => rfl
  | cons x xs ih =>
    obtain ⟨a, b⟩ := x
    simp only [List.map_cons, List.mem_cons, not_or] at h
    simp only [mapGet, if_neg (Ne.symm h.1)]
    exact ih h.2

theorem mapGet_isSome_of_mem (m : List (Nat × Nat)) (k : Nat) (h : k ∈ m.map Prod.fst) :
    ∃ p, mapGet m k = some p := by
  cases hg : mapGet m k with
  | none => exact absurd h (mapGet_none_not_mem m k hg)
  | some p => exact ⟨p, rfl⟩

/-- In a store whose cars are filed under their IDs, as the service keeps
them, no two ids hold the same car object. -/
theorem CarsFiled.ptr_nodup (s : Store) (h : s.CarsFiled) : (s.cars.map Prod.snd).Nodup := by
  have hinj : ∀ a ∈ s.cars, ∀ b ∈ s.cars, a.2 = b.2 → a.1 = b.1 := by
    intro a ha b hb hab
    rw [← h.2 a ha, ← h.2 b hb, hab]
  have hn : s.cars.Nodup := List.Nodup.of_map Prod.fst h.1
  exact List.Nodup.map_on (fun a ha b hb hab => Prod.ext (hinj a ha b hb hab) hab) hn

/-- C27. In a store whose pointers are valid and where no two ids hold the
same car object, `FindById(id)` returns not-found exactly when no car is
stored under `id` and a stored car otherwise; `UpdateCar(id, v)` on an `id`
that is not stored returns not-found and writes nothing, and succeeds on a
stored one; after a successful `UpdateCar(id, v)`, `FindById(id)` returns a
car that reads as `v`, and a lookup of any other id returns the same car with
the same contents as before. -/
theorem CarStorage_update_lookup (s : Store) (id v : Nat) (hv : s.PtrValid)
    (hf : (s.cars.map Prod.snd).Nodup) :
    (CarStorage.FindById s id = .error ErrNotFound ↔ id ∉ s.cars.map Prod.fst) ∧
    (id ∈ s.cars.map Prod.fst → ∃ p, CarStorage.FindById s id = .ok p ∧ (id, p) ∈ s.cars) ∧
    (id ∉ s.cars.map Prod.fst → CarStorage.UpdateCar s id v = .error ErrNotFound) ∧
    (id ∈ s.cars.map Prod.fst → ∃ r, CarStorage.UpdateCar s id v = .ok r) ∧
    (∀ r, CarStorage.UpdateCar s id v = .ok r →
      (∃ p, CarStorage.FindById r id = .ok p ∧ r.carAt p = s.carAt v) ∧
      ∀ k, k ≠ id → CarStorage.FindById r k = CarStorage.FindById s k ∧
        ∀ q, CarStorage.FindById s k = .ok q → r.carAt q = s.carAt q) := by
  refine ⟨⟨?_, ?_⟩, ?_, ?_, ?_, ?_⟩
  · intro h
    cases hg : mapGet s.cars id with
    | none => exact mapGet_none_not_mem _ _ hg
    | some p => simp [CarStorage.FindById, hg] at h
  · intro h
    simp [CarStorage.FindById, mapGet_none_of_not_mem _ _ h]
  · intro h
    obtain ⟨p, hp⟩ := mapGet_isSome_of_mem _ _ h
    exact ⟨p, by simp [CarStorage.FindById, hp], mapGet_mem _ _ _ hp⟩
  · intro h
    simp [CarStorage.UpdateCar, mapGet_none_of_not_mem _ _ h]
  · intro h
    obtain ⟨p, hp⟩ := mapGet_isSome_of_mem _ _ h
    exact ⟨s.setCar p (s.carAt v), by simp only [CarStorage.UpdateCar, hp]⟩
  · intro r hr
    cases hg : mapGet s.cars id with
    | none => simp [CarStorage.UpdateCar, hg] at hr
    | some p =>
      simp only [CarStorage.UpdateCar, hg, Except.ok.injEq] at hr
      subst hr
      have hmem := mapGet_mem _ _ _ hg
      have hpl : p < s.carObjs.length := hv.1 _ hmem
      refine ⟨⟨p, ?_, carAt_setCar_self s p _ hpl⟩, fun k hk => ⟨rfl, fun q hq => ?_⟩⟩
      · show CarStorage.FindById s id = .ok p
        simp [CarStorage.FindById, hg]
      · apply carAt_setCar_ne
        intro hqp
        subst hqp
        cases hgk : mapGet s.cars k with
        | none => simp [CarStorage.FindById, hgk] at hq
        | some q2 =>
          simp only [CarStorage.FindById, hgk, Except.ok.injEq] at hq
          subst hq
          have he := List.inj_on_of_nodup_map hf (mapGet_mem _ _ _ hgk) hmem rfl
          exact hk (Prod.mk.inj he).1

/-- C27, on `busyStore`: the car stored under 2 is given the contents of the
car object 0. -/
theorem CarStorage_update_lookup_witness :
    busyStore.PtrValid ∧ (busyStore.cars.map Prod.snd).Nodup ∧
    CarStorage.UpdateCar busyStore 2 0 = .ok (busyStore.setCar 1 ⟨1, 4, 4⟩) ∧
    ((∃ p, CarStorage.FindById (busyStore.setCar 1 ⟨1, 4, 4⟩) 2 = .ok p ∧
        (busyStore.setCar 1 ⟨1, 4, 4⟩).carAt p = busyStore.carAt 0) ∧
      ∀ k, k ≠ 2 →
        CarStorage.FindById (busyStore.setCar 1 ⟨1, 4, 4⟩) k = CarStorage.FindById busyStore k ∧
        ∀ q, CarStorage.FindById busyStore k = .ok q →
          (busyStore.setCar 1 ⟨1, 4, 4⟩).carAt q = busyStore.carAt q) :=
  ⟨by decide, by decide, rfl,
    (CarStorage_update_lookup busyStore 2 0 (by decide) (by decide)).2.2.2.2 _ rfl⟩

/-! ## Deletion from the pending queue -/

theorem removePending_of_absent (mem : Nat → Journey) (k : Nat) :
    ∀ l : List Nat, (∀ p ∈ l, (mem p).Id ≠ k) → removePending mem k l = l := by
  intro l
  induction l with
  | nil => intro _; rfl
  | cons x xs ih =>
    intro h
    have hx : (mem x).Id ≠ k := h x (List.mem_cons_self _ _)
    rw [removePending, if_neg hx, ih (fun p hp => h p (List.mem_cons_of_mem _ hp))]

theorem removePending_of_present (mem : Nat → Journey) (k : Nat) :
    ∀ l : List Nat, (∃ p ∈ l, (mem p).Id = k) →
      ∃ pre x post, l = pre ++ x :: post ∧ (mem x).Id = k ∧
        (∀ y ∈ pre, (mem y).Id ≠ k) ∧ removePending mem k l = pre ++ post := by
  intro l
  induction l with
  | nil =>
    rintro ⟨p, hp, _⟩
    cases hp
  | cons x xs ih =>
    rintro ⟨p, hp, hpk⟩
    by_cases hx : (mem x).Id = k
    · refine ⟨[], x, xs, rfl, hx, ?_, ?_⟩
      · intro y hy
        cases hy
      · rw [removePending, if_pos hx]
        rfl
    · have hp2 : p ∈ xs := by
        rcases List.mem_cons.mp hp with rfl | h
        · exact absurd hpk hx
        · exact h
      obtain ⟨pre, y, post, hl, hy, hpre, hrem⟩ := ih ⟨p, hp2, hpk⟩
      refine ⟨x :: pre, y, post, by rw [hl]; rfl, hy, ?_, ?_⟩
      · intro z hz
        rcases List.mem_cons.mp hz with rfl | h
        · exact hx
        · exact hpre z h
      · rw [removePending, if_neg hx, hrem]
        rfl

/-- C28. `PendingStorage.DeleteById(k)` returns no error on any queue and
writes the pending queue only: a queue with no entry of ID `k` is left as it
is, and otherwise the queue loses the first entry whose ID is `k` and keeps
all the other entries in their order. -/
theorem PendingStorage_DeleteById_removes_first (s : Store) (k : Nat) :
    (PendingStorage.DeleteById s k).carObjs = s.carObjs ∧
    (PendingStorage.DeleteById s k).journeyObjs = s.journeyObjs ∧
    (PendingStorage.DeleteById s k).cars = s.cars ∧
    (PendingStorage.DeleteById s k).journeys = s.journeys ∧
    ((∀ p ∈ s.pending, (s.journeyAt p).Id ≠ k) →
      (PendingStorage.DeleteById s k).pending = s.pending) ∧
    ((∃ p ∈ s.pending, (s.journeyAt p).Id = k) →
      ∃ pre x post, s.pending = pre ++ x :: post ∧ (s.journeyAt x).Id = k ∧
        (∀ y ∈ pre, (s.journeyAt y).Id ≠ k) ∧
        (PendingStorage.DeleteById s k).pending = pre ++ post) :=
  ⟨rfl, rfl, rfl, rfl, removePending_of_absent s.journeyAt k s.pending,
    removePending_of_present s.journeyAt k s.pending⟩

/-- C28, on `twoQueued`: no entry has ID 99, and the entry of ID 22 is removed. -/
theorem PendingStorage_DeleteById_removes_first_witness :
    (∀ p ∈ twoQueued.pending, (twoQueued.journeyAt p).Id ≠ 99) ∧
    (PendingStorage.DeleteById twoQueued 99).pending = twoQueued.pending ∧
    (∃ p ∈ twoQueued.pending, (twoQueued.journeyAt p).Id = 22) ∧
    (PendingStorage.DeleteById twoQueued 22).pending = [0] :=
  ⟨by decide,
    (PendingStorage_DeleteById_removes_first twoQueued 99).2.2.2.2.1 (by decide),
    by decide, by decide⟩

/-! ## Accesses to the collections and the mutexes -/

theorem Method.mem_all (m : Method) : m ∈ Method.all := by
  cases m <;> decide

/-- C29. The methods of the three storages access their collection with the
mutex held, but `Begin` reads the three collections and `Rollback` writes
them with no mutex held, and the loop of `Reassign` reads the live pending
slice after `GetAllPendings` has released the mutex: `Begin` races with a
parallel `NewCar`, `Rollback` with a parallel `FindById`, the loop with a
parallel `DeleteById` on the pending queue, and every race between two methods
involves one of these three. -/
theorem Begin_and_Rollback_access_without_mutex :
    Method.all.filter (fun m => !(m.accesses.all Access.guarded)) =
      [.factoryBegin, .txnRollback, .reassignRange] ∧
    Method.factoryBegin.accesses =
      [⟨.cars, false, .free⟩, ⟨.journeys, false, .free⟩, ⟨.pending, false, .free⟩] ∧
    Method.txnRollback.accesses =
      [⟨.cars, true, .free⟩, ⟨.journeys, true, .free⟩, ⟨.pending, true, .free⟩] ∧
    Method.carNewCar.accesses = [⟨.cars, true, .exclusive⟩] ∧
    Method.carFindById.accesses = [⟨.cars, false, .shared⟩] ∧
    Method.factoryBegin.races .carNewCar = true ∧
    Method.txnRollback.races .carFindById = true ∧
    Method.reassignRange.races .pendingDeleteById = true ∧
    (∀ m ∈ Method.all, ∀ n ∈ Method.all, m.races n = true →
      m ∈ [Method.factoryBegin, .txnRollback, .reassignRange] ∨
      n ∈ [Method.factoryBegin, .txnRollback, .reassignRange]) := by
  decide

/-! ## The first car of the list at the minimum -/

theorem findCarLoop_first (mem : Nat → Car) (seats : Nat) :
    ∀ (cars : List Nat) (bestCar : Option Nat) (minSeats c : Nat),
      findCarLoop mem seats cars bestCar minSeats = some c →
      (∃ pre post, cars = pre ++ c :: post ∧ seats ≤ (mem c).AvailableSeats ∧
          (mem c).AvailableSeats < minSeats ∧
          (∀ d ∈ cars, seats ≤ (mem d).AvailableSeats →
            (mem c).AvailableSeats ≤ (mem d).AvailableSeats) ∧
          (∀ d ∈ pre, seats ≤ (mem d).AvailableSeats →
            (mem c).AvailableSeats < (mem d).AvailableSeats)) ∨
      (bestCar = some c ∧
          ∀ d ∈ cars, seats ≤ (mem d).AvailableSeats → minSeats ≤ (mem d).AvailableSeats) := by
  intro cars
  induction cars with
  | nil =>
    intro bestCar minSeats c h
    right
    exact ⟨by simpa [findCarLoop] using h, by simp⟩
  | cons x xs ih =>
    intro bestCar minSeats c h
    unfold findCarLoop at h
    split at h
    · rename_i hx
      left
      rcases ih _ _ _ h with ⟨pre, post, hl, hs, hlt, hall, hpre⟩ | ⟨hb, hall⟩
      · refine ⟨x :: pre, post, by rw [hl]; rfl, hs, by omega, ?_, ?_⟩
        · intro d hd hsd
          rcases List.mem_cons.mp hd with rfl | hd
          · omega
          · exact hall d hd hsd
        · intro d hd hsd
          rcases List.mem_cons.mp hd with rfl | hd
          · exact hlt
          · exact hpre d hd hsd
      · obtain rfl : x = c := by simpa using hb
        refine ⟨[], xs, rfl, hx.1, hx.2, ?_, ?_⟩
        · intro d hd hsd
          rcases List.mem_cons.mp hd with rfl | hd
          · exact le_refl _
          · exact hall d hd hsd
        · intro d hd
          cases hd
    · rename_i hx
      rcases ih _ _ _ h with ⟨pre, post, hl, hs, hlt, hall, hpre⟩ | ⟨hb, hall⟩
      · left
        have hxc : seats ≤ (mem x).AvailableSeats →
            (mem c).AvailableSeats < (mem x).AvailableSeats := by
          intro hsx
          have : ¬ (mem x).AvailableSeats < minSeats := fun hh => hx ⟨hsx, hh⟩
          omega
        refine ⟨x :: pre, post, by rw [hl]; rfl, hs, hlt, ?_, ?_⟩
        · intro d hd hsd
          rcases List.mem_cons.mp hd with rfl | hd
          · exact le_of_lt (hxc hsd)
          · exact hall d hd hsd
        · intro d hd hsd
          rcases List.mem_cons.mp hd with rfl | hd
          · exact hxc hsd
          · exact hpre d hd hsd
      · right
        refine ⟨hb, ?_⟩
        intro d hd hsd
        rcases List.mem_cons.mp hd with rfl | hd
        · have : ¬ (mem d).AvailableSeats < minSeats := fun hh => hx ⟨hsd, hh⟩
          omega
        · exact hall d hd hsd

/-- C33, evaluated where the code departs from it. Both cars of `twoMaxCars`
have `2^64 - 1` seats available, which is enough for 4 passengers and is the
least sufficient value of the list; `findCar` returns no car instead of the
first of the two. -/
theorem findCar_none_at_maxUint_minimum :
    (∀ c ∈ [0, 1], 4 ≤ (twoMaxCars.carAt c).AvailableSeats ∧
      (twoMaxCars.carAt c).AvailableSeats = 2 ^ 64 - 1) ∧
    findCar twoMaxCars.carAt [0, 1] 4 = none ∧
    findCar twoMaxCars.carAt [0, 1] 4 ≠ some 0 := by
  decide

/-- C33, as amended. When some car of the list has at least `s` and fewer than
`maxUint` seats available, `findCar` returns a car of the list that has at
least `s` seats available and no more than any car of the list with at least
`s`, and every car that comes before it in the list and has at least `s` seats
available has strictly more than it: the car returned is the first of the
list at the least sufficient value. -/
theorem findCar_first_at_minimum (mem : Nat → Car) (cars : List Nat) (s : Nat)
    (h : ∃ d ∈ cars, s ≤ (mem d).AvailableSeats ∧ (mem d).AvailableSeats < maxUint) :
    ∃ pre c post, cars = pre ++ c :: post ∧ findCar mem cars s = some c ∧
      s ≤ (mem c).AvailableSeats ∧
      (∀ d ∈ cars, s ≤ (mem d).AvailableSeats →
        (mem c).AvailableSeats ≤ (mem d).AvailableSeats) ∧
      (∀ d ∈ pre, s ≤ (mem d).AvailableSeats →
        (mem c).AvailableSeats < (mem d).AvailableSeats) := by
  have hsome := findCarLoop_isSome mem s cars none maxUint (Or.inr h)
  cases hf : findCar mem cars s with
  | none =>
    unfold findCar at hf
    rw [hf] at hsome
    cases hsome
  | some c =>
    rcases findCarLoop_first mem s cars none maxUint c hf with
      ⟨pre, post, hl, hs, _, hall, hpre⟩ | ⟨hb, _⟩
    · exact ⟨pre, c, post, hl, rfl, hs, hall, hpre⟩
    · cases hb

/-- C33 as amended, on `tiedCars` with the list in the order 1, 0: both cars
have 4 seats available and the car returned is the first of the list. -/
theorem findCar_first_at_minimum_witness :
    (∃ d ∈ [1, 0], 4 ≤ (tiedCars.carAt d).AvailableSeats ∧
      (tiedCars.carAt d).AvailableSeats < maxUint) ∧
    findCar tiedCars.carAt [1, 0] 4 = some 1 ∧
    ∃ pre c post, [1, 0] = pre ++ c :: post ∧ findCar tiedCars.carAt [1, 0] 4 = some c ∧
      4 ≤ (tiedCars.carAt c).AvailableSeats ∧
      (∀ d ∈ [1, 0], 4 ≤ (tiedCars.carAt d).AvailableSeats →
        (tiedCars.carAt c).AvailableSeats ≤ (tiedCars.carAt d).AvailableSeats) ∧
      (∀ d ∈ pre, 4 ≤ (tiedCars.carAt d).AvailableSeats →
        (tiedCars.carAt c).AvailableSeats < (tiedCars.carAt d).AvailableSeats) :=
  ⟨by decide, by decide, findCar_first_at_minimum tiedCars.carAt [1, 0] 4 (by decide)⟩

/-! ## Rollback on a committed transaction -/

/-- C34. `Rollback` called on a transaction after `Commit` returns no error
and leaves the car store, the journey store and the pending queue empty,
whatever they held, where `handleTxn` on the same transaction leaves the store
as it is; on `busyStore` the store after such a `Rollback` differs from the
store before. -/
theorem Rollback_after_Commit_empties_store (u : Transaction) (s : Store) :
    ((u.CommitCall s).1.RollbackCall (u.CommitCall s).2.1).2.2 = none ∧
    ((u.CommitCall s).1.RollbackCall (u.CommitCall s).2.1).2.1.cars = [] ∧
    ((u.CommitCall s).1.RollbackCall (u.CommitCall s).2.1).2.1.journeys = [] ∧
    ((u.CommitCall s).1.RollbackCall (u.CommitCall s).2.1).2.1.pending = [] ∧
    ((u.CommitCall s).1.RollbackCall (u.CommitCall s).2.1).2.1.carsValue = [] ∧
    ((u.CommitCall s).1.RollbackCall (u.CommitCall s).2.1).2.1.journeysValue = [] ∧
    ((u.CommitCall s).1.RollbackCall (u.CommitCall s).2.1).2.1.pendingValue = [] ∧
    handleTxn (u.CommitCall s).1 (u.CommitCall s).2.1 = s ∧
    (((Begin busyStore).CommitCall busyStore).1.RollbackCall busyStore).2.1.carsValue
      ≠ busyStore.carsValue ∧
    busyStore.carsValue = [(1, ⟨1, 4, 4⟩), (2, ⟨2, 4, 0⟩)] := by
  refine ⟨rfl, rfl, rfl, rfl, rfl, rfl, rfl, handleTxn_Commit u s, by decide, by decide⟩

/-! ## The error of a fleet reset -/

theorem resetCarsLoop_first_offence (txn : Transaction) :
    ∀ (pre : List Car) (ptrs seenIDs : List Nat) (s : Store) (c : Car) (post : List Car),
      ptrs.map s.carAt = pre ++ c :: post →
      (∀ d ∈ pre, d.HasValidSeats = true) →
      (pre.map Car.ID).Nodup →
      (∀ d ∈ pre, d.ID ∉ seenIDs) →
      (c.HasValidSeats = false →
        (resetCarsLoop txn ptrs seenIDs s).2 = some ErrInvalidSeats) ∧
      (c.HasValidSeats = true → c.ID ∈ seenIDs ∨ c.ID ∈ pre.map Car.ID →
        (resetCarsLoop txn ptrs seenIDs s).2 = some ErrDuplicatedID) := by
  intro pre
  induction pre with
  | nil =>
    intro ptrs seenIDs s c post hmap _ _ _
    cases ptrs with
    | nil => simp at hmap
    | cons x xs =>
      have hx : s.carAt x = c := by
        simp only [List.map_cons, List.nil_append, List.cons.injEq] at hmap
        exact hmap.1
      constructor
      · intro hc
        unfold resetCarsLoop
        simp [hx, hc]
      · intro hc hin
        have hin2 : c.ID ∈ seenIDs := by
          rcases hin with h | h
          · exact h
          · cases h
        unfold resetCarsLoop
        simp [hx, hc, hin2]
  | cons a as ih =>
    intro ptrs seenIDs s c post hmap hvalid hnd hseen
    cases ptrs with
    | nil => simp at hmap
    | cons x xs =>
      simp only [List.map_cons, List.cons_append, List.cons.injEq] at hmap
      obtain ⟨hx, hrest⟩ := hmap
      have ha := hvalid a (List.mem_cons_self _ _)
      have has := hseen a (List.mem_cons_self _ _)
      rw [List.map_cons, List.nodup_cons] at hnd
      have hstep : resetCarsLoop txn (x :: xs) seenIDs s =
          resetCarsLoop txn xs (a.ID :: seenIDs) (CarStorage.NewCar s x) := by
        rw [resetCarsLoop]
        simp only [hx, ha, Bool.not_true, Bool.false_eq_true, if_false, has]
        unfold CarStorage.FindById
        cases mapGet s.cars a.ID with
        | none => simp
        | some _ => rfl
      rw [hstep]
      have hrec := ih xs (a.ID :: seenIDs) (CarStorage.NewCar s x) c post hrest
        (fun d hd => hvalid d (List.mem_cons_of_mem _ hd)) hnd.2
        (by
          intro d hd hin
          rcases List.mem_cons.mp hin with h | h
          · exact hnd.1 (h ▸ List.mem_map_of_mem Car.ID hd)
          · exact hseen d (List.mem_cons_of_mem _ hd) h)
      refine ⟨hrec.1, fun hc hin => hrec.2 hc ?_⟩
      rcases hin with h | h
      · exact Or.inl (List.mem_cons_of_mem _ h)
      · rcases List.mem_cons.mp h with h | h
        · exact Or.inl (h ▸ List.mem_cons_self _ _)
        · exact Or.inr h

theorem resetCarsLoop_none (txn : Transaction) :
    ∀ (ptrs seenIDs : List Nat) (s : Store),
      (resetCarsLoop txn ptrs seenIDs s).2 = none →
      (∀ p ∈ ptrs, (s.carAt p).HasValidSeats = true) ∧
      (ptrs.map (fun p => (s.carAt p).ID)).Nodup ∧
      ∀ p ∈ ptrs, (s.carAt p).ID ∉ seenIDs := by
  intro ptrs
  induction ptrs with
  | nil =>
    intro seenIDs s _
    simp
  | cons x xs ih =>
    intro seenIDs s h
    by_cases hx : (s.carAt x).HasValidSeats = true
    · by_cases hseen : (s.carAt x).ID ∈ seenIDs
      · rw [resetCarsLoop] at h
        simp [hx, hseen] at h
      · have hstep : resetCarsLoop txn (x :: xs) seenIDs s =
            resetCarsLoop txn xs ((s.carAt x).ID :: seenIDs) (CarStorage.NewCar s x) := by
          rw [resetCarsLoop]
          simp only [hx, Bool.not_true, Bool.false_eq_true, if_false, hseen]
          unfold CarStorage.FindById
          cases mapGet s.cars (s.carAt x).ID with
          | none => simp
          | some _ => rfl
        rw [hstep] at h
        obtain ⟨h1, h2, h3⟩ := ih _ _ h
        refine ⟨?_, ?_, ?_⟩
        · intro p hp
          rcases List.mem_cons.mp hp with rfl | hp
          · exact hx
          · exact h1 p hp
        · rw [List.map_cons, List.nodup_cons]
          refine ⟨?_, h2⟩
          intro hmem
          obtain ⟨p, hp, hpe⟩ := List.mem_map.mp hmem
          exact h3 p hp (by rw [carAt_NewCar]; rw [hpe]; exact List.mem_cons_self _ _)
        · intro p hp
          rcases List.mem_cons.mp hp with rfl | hp
          · exact hseen
          · intro hmem
            exact h3 p hp (List.mem_cons_of_mem _ hmem)
    · rw [resetCarsLoop] at h
      simp [hx] at h

theorem HasValidSeats_iff (c : Car) :
    c.HasValidSeats = true ↔ MIN_SEATS ≤ c.Seats ∧ c.Seats ≤ MAX_SEATS := by
  simp [Car.HasValidSeats]

theorem HasValidSeats_false_iff (c : Car) :
    c.HasValidSeats = false ↔ c.Seats < MIN_SEATS ∨ MAX_SEATS < c.Seats := by
  rw [← Bool.not_eq_true, HasValidSeats_iff]
  omega

theorem resetCarsLoop_errors (txn : Transaction) :
    ∀ (ptrs seenIDs : List Nat) (s : Store),
      (resetCarsLoop txn ptrs seenIDs s).2 = none ∨
      (resetCarsLoop txn ptrs seenIDs s).2 = some ErrInvalidSeats ∨
      (resetCarsLoop txn ptrs seenIDs s).2 = some ErrDuplicatedID := by
  intro ptrs
  induction ptrs with
  | nil =>
    intro seenIDs s
    left
    rfl
  | cons x xs ih =>
    intro seenIDs s
    by_cases hx : (s.carAt x).HasValidSeats = true
    · by_cases hseen : (s.carAt x).ID ∈ seenIDs
      · right
        right
        rw [resetCarsLoop]
        simp [hx, hseen]
      · have hstep : resetCarsLoop txn (x :: xs) seenIDs s =
            resetCarsLoop txn xs ((s.carAt x).ID :: seenIDs) (CarStorage.NewCar s x) := by
          rw [resetCarsLoop]
          simp only [hx, Bool.not_true, Bool.false_eq_true, if_false, hseen]
          unfold CarStorage.FindById
          cases mapGet s.cars (s.carAt x).ID with
          | none => simp
          | some _ => rfl
        rw [hstep]
        exact ih _ _
    · right
      left
      rw [resetCarsLoop]
      simp [hx]

/-- C35. `ResetCars` returns no error exactly when every car of the batch has
between 4 and 6 seats and no ID comes twice, and otherwise returns
`ErrInvalidSeats` or `ErrDuplicatedID`. With the batch cut at a car `c` before
which every car has valid seats and no ID comes twice, the error is
`ErrInvalidSeats` when the seats of `c` are invalid, whether or not its ID
has come before, and `ErrDuplicatedID` when its seats are valid and its ID is
the ID of an earlier car. -/
theorem ResetCars_error_precedence (s : Store) (cars : List Car) :
    ((ResetCars s cars).2 = none ↔
      (∀ c ∈ cars, MIN_SEATS ≤ c.Seats ∧ c.Seats ≤ MAX_SEATS) ∧ (cars.map Car.ID).Nodup) ∧
    ((ResetCars s cars).2 = none ∨ (ResetCars s cars).2 = some ErrInvalidSeats ∨
      (ResetCars s cars).2 = some ErrDuplicatedID) ∧
    ∀ pre c post, cars = pre ++ c :: post →
      (∀ d ∈ pre, MIN_SEATS ≤ d.Seats ∧ d.Seats ≤ MAX_SEATS) → (pre.map Car.ID).Nodup →
      ((c.Seats < MIN_SEATS ∨ MAX_SEATS < c.Seats) →
        (ResetCars s cars).2 = some ErrInvalidSeats) ∧
      (MIN_SEATS ≤ c.Seats ∧ c.Seats ≤ MAX_SEATS → c.ID ∈ pre.map Car.ID →
        (ResetCars s cars).2 = some ErrDuplicatedID) := by
  have hfresh := carAt_fresh s cars
  have hdef : ResetCars s cars = resetCarsLoop (Begin { s with carObjs := s.carObjs ++ cars })
      (freshPtrs s.carObjs.length cars) []
      (PendingStorage.ResetMemory (JourneysStorage.ResetMemory
        (CarStorage.ResetMemory { s with carObjs := s.carObjs ++ cars }))) := rfl
  have hmap : (freshPtrs s.carObjs.length cars).map
      (PendingStorage.ResetMemory (JourneysStorage.ResetMemory
        (CarStorage.ResetMemory { s with carObjs := s.carObjs ++ cars }))).carAt = cars :=
    hfresh
  refine ⟨⟨?_, ?_⟩, ?_, ?_⟩
  · intro h
    rw [hdef] at h
    obtain ⟨h1, h2, _⟩ := resetCarsLoop_none _ _ _ _ h
    constructor
    · intro c hc
      rw [← hmap] at hc
      obtain ⟨p, hp, hpe⟩ := List.mem_map.mp hc
      rw [← hpe]
      exact (HasValidSeats_iff _).mp (h1 p hp)
    · have : (freshPtrs s.carObjs.length cars).map (fun p =>
          ((PendingStorage.ResetMemory (JourneysStorage.ResetMemory
            (CarStorage.ResetMemory { s with carObjs := s.carObjs ++ cars }))).carAt p).ID) =
          cars.map Car.ID := by
        conv_rhs => rw [← hmap]
        rw [List.map_map]
        rfl
      rw [← this]
      exact h2
  · intro h
    exact (ResetCars_success_eq s cars h.1 h.2).1
  · rw [hdef]
    exact resetCarsLoop_errors _ _ _ _
  · intro pre c post hcut hvalid hnd
    rw [hdef]
    have hl := resetCarsLoop_first_offence (Begin { s with carObjs := s.carObjs ++ cars })
      pre (freshPtrs s.carObjs.length cars) []
      (PendingStorage.ResetMemory (JourneysStorage.ResetMemory
        (CarStorage.ResetMemory { s with carObjs := s.carObjs ++ cars }))) c post
      (hmap.trans hcut) (fun d hd => (HasValidSeats_iff d).mpr (hvalid d hd)) hnd
      (fun d _ h => by cases h)
    refine ⟨fun hbad => hl.1 ((HasValidSeats_false_iff c).mpr hbad), fun hok hin => ?_⟩
    exact hl.2 ((HasValidSeats_iff c).mpr hok) (Or.inr hin)

/-- C35, on the batch 1 (4 seats), 2 (5 seats), 1 (9 seats): the third car
repeats the ID 1 and has invalid seats, and the error is `ErrInvalidSeats`; on
the batch 1 (4 seats), 1 (5 seats), 3 (9 seats) the second car is the first at
fault and the error is `ErrDuplicatedID`. -/
theorem ResetCars_error_precedence_witness :
    (ResetCars busyStore [⟨1, 4, 4⟩, ⟨2, 5, 5⟩, ⟨1, 9, 9⟩]).2 = some ErrInvalidSeats ∧
    (ResetCars busyStore [⟨1, 4, 4⟩, ⟨1, 5, 5⟩, ⟨3, 9, 9⟩]).2 = some ErrDuplicatedID :=
  ⟨((ResetCars_error_precedence busyStore [⟨1, 4, 4⟩, ⟨2, 5, 5⟩, ⟨1, 9, 9⟩]).2.2
      [⟨1, 4, 4⟩, ⟨2, 5, 5⟩] ⟨1, 9, 9⟩ [] rfl (by decide) (by decide)).1 (by decide),
   ((ResetCars_error_precedence busyStore [⟨1, 4, 4⟩, ⟨1, 5, 5⟩, ⟨3, 9, 9⟩]).2.2
      [⟨1, 4, 4⟩] ⟨1, 5, 5⟩ [⟨3, 9, 9⟩] rfl (by decide) (by decide)).2 (by decide)
      (by decide)⟩

/-! ## Seats are taken only from a car that has them -/

theorem journeyAt_setJourney (s : Store) (q x : Nat) (v : Journey) :
    (s.setJourney q v).journeyAt x =
      if x = q ∧ q < s.journeyObjs.length then v else s.journeyAt x := by
  unfold Store.setJourney Store.journeyAt
  simp only [List.getD_eq_getElem?_getD, List.getElem?_set]
  by_cases hx : q = x
  · subst hx
    by_cases hq : q < s.journeyObjs.length
    · simp [hq]
    · simp [hq, List.getElem?_eq_none (Nat.le_of_not_lt hq)]
  · have hx2 : ¬ x = q := fun h => hx h.symm
    simp [hx, hx2]

theorem journeyAt_setJourney_copy (s : Store) (q p : Nat) :
    (s.setJourney q (s.journeyAt p)).journeyAt p = s.journeyAt p := by
  rw [journeyAt_setJourney]
  split
  · rfl
  · rfl

theorem Passengers_setJourney_assigned (s : Store) (p : Nat) (a : Option Nat) :
    ((s.setJourney p { s.journeyAt p with AssignedTo := a }).journeyAt p).Passengers =
      (s.journeyAt p).Passengers := by
  rw [journeyAt_setJourney]
  split
  · rfl
  · rfl

theorem reassignBody_takes_le (car p : Nat) (s : Store) :
    ∀ t ∈ reassignBody.takes car p s, t.2 ≤ t.1 := by
  intro t ht
  unfold reassignBody.takes at ht
  split at ht
  · rename_i hfit
    simp only [PendingStorage.UpdatePending] at ht
    split at ht
    · cases ht
    · rename_i r heq
      split at heq
      · cases heq
      · rename_i q hq
        cases heq
        simp only [List.mem_singleton] at ht
        subst ht
        show ((Store.setJourney _ q _).journeyAt p).Passengers ≤ (s.carAt car).AvailableSeats
        rw [journeyAt_setJourney_copy, Passengers_setJourney_assigned]
        exact hfit
  · cases ht

theorem reassignLoop_takes_le (car : Nat) :
    ∀ (idxs arr : List Nat) (s : Store), ∀ t ∈ reassignLoop.takes car idxs arr s, t.2 ≤ t.1 := by
  intro idxs
  induction idxs with
  | nil =>
    intro arr s t ht
    cases ht
  | cons i is ih =>
    intro arr s t ht
    unfold reassignLoop.takes at ht
    rcases List.mem_append.mp ht with h | h
    · exact reassignBody_takes_le car _ s t h
    · split at h
      · cases h
      · exact ih _ _ t h

/-- C32. Every call of `TakeSeats` made by `NewJourney` and by `Reassign`, on
any store, journey and pending queue, is made on a car that has at least the
amount available at that moment, so that the unsigned subtraction is the
exact difference; on `oneCar` the call of `NewJourney` takes 4 seats of 4,
and on `threePending` the call of `Reassign` takes 2 seats of 6. -/
theorem TakeSeats_never_underflows (s : Store) (j : Journey) (car : Nat) :
    (∀ t ∈ NewJourney.takes s j, t.2 ≤ t.1 ∧ (t.1 < uintSize → uintSub t.1 t.2 = t.1 - t.2)) ∧
    (∀ t ∈ Reassign.takes s car,
      t.2 ≤ t.1 ∧ (t.1 < uintSize → uintSub t.1 t.2 = t.1 - t.2)) ∧
    NewJourney.takes oneCar ⟨5, 4, none⟩ = [(4, 4)] ∧
    (NewJourney oneCar ⟨5, 4, none⟩).1.carsValue = [(1, ⟨1, 4, 0⟩)] ∧
    Reassign.takes threePending 0 = [(6, 2)] ∧
    (Reassign threePending 0).1.carsValue = [(1, ⟨1, 6, 4⟩)] := by
  refine ⟨?_, ?_, by decide, by decide, by decide, by decide⟩
  · intro t ht
    have hle : t.2 ≤ t.1 := by
      unfold NewJourney.takes at ht
      simp only [findById_not_failed] at ht
      split at ht
      · rename_i c hc
        simp only [List.mem_singleton] at ht
        subst ht
        exact (findCar_lt_maxUint _ _ _ _ hc).2.1
      · cases ht
    exact ⟨hle, fun hb => uintSub_of_le _ _ hle hb⟩
  · intro t ht
    have hle : t.2 ≤ t.1 := reassignLoop_takes_le car _ _ s t ht
    exact ⟨hle, fun hb => uintSub_of_le _ _ hle hb⟩

/-! ## Seat accounting of `Reassign` -/

theorem findPending_some (mem : Nat → Journey) (k : Nat) :
    ∀ (l : List Nat) (q : Nat), findPending mem k l = some q → q ∈ l ∧ (mem q).Id = k := by
  intro l
  induction l with
  | nil =>
    intro q h
    simp [findPending] at h
  | cons x xs ih =>
    intro q h
    unfold findPending at h
    split at h
    · rename_i hx
      obtain rfl : x = q := by simpa using h
      exact ⟨List.mem_cons_self _ _, hx⟩
    · obtain ⟨h1, h2⟩ := ih q h
      exact ⟨List.mem_cons_of_mem _ h1, h2⟩

theorem carAt_set (s : Store) (c x : Nat) (w : Car) (hc : c < s.carObjs.length) :
    ({ s with carObjs := s.carObjs.set c w } : Store).carAt x = if x = c then w else s.carAt x := by
  by_cases hx : x = c
  · subst hx
    rw [if_pos rfl]
    exact carAt_setCar_self s x w hc
  · rw [if_neg hx]
    exact carAt_setCar_ne s c x w hx

/-- The loop body of `Reassign` on a pending journey `p` whose ID no other
entry of the queue has, for a car filed under its ID: the journey does not
fit and nothing changes, or the body returns an error, or the journey is
marked, the seats are taken and the journey leaves the queue. -/
theorem reassignBody_cases (c p : Nat) (s : Store)
    (hp : p < s.journeyObjs.length) (hc : c < s.carObjs.length)
    (hkey : mapGet s.cars (s.carAt c).ID = some c)
    (hu : ∀ q ∈ s.pending, (s.journeyAt q).Id = (s.journeyAt p).Id → q = p) :
    (¬ (s.journeyAt p).Passengers ≤ (s.carAt c).AvailableSeats ∧
      reassignBody c p s = (s, none)) ∨
    (reassignBody c p s).2 ≠ none ∨
    ((s.journeyAt p).Passengers ≤ (s.carAt c).AvailableSeats ∧
      ∃ pre post, s.pending = pre ++ p :: post ∧
        reassignBody c p s =
          ({ carObjs := s.carObjs.set c ((s.carAt c).TakeSeats (s.journeyAt p).Passengers)
             journeyObjs := s.journeyObjs.set p { s.journeyAt p with AssignedTo := some c }
             cars := s.cars
             journeys := s.journeys
             pending := pre ++ post }, none)) := by
  by_cases hfit : (s.journeyAt p).Passengers ≤ (s.carAt c).AvailableSeats
  swap
  · left
    exact ⟨hfit, by simp [reassignBody, hfit]⟩
  right
  -- the store once the journey is marked
  generalize hv : ({ s.journeyAt p with AssignedTo := some c } : Journey) = v
  have hvid : v.Id = (s.journeyAt p).Id := by rw [← hv]
  have hvp : v.Passengers = (s.journeyAt p).Passengers := by rw [← hv]
  have h1p : (s.setJourney p v).journeyAt p = v := by
    rw [journeyAt_setJourney, if_pos ⟨rfl, hp⟩]
  have h1id : ∀ q, ((s.setJourney p v).journeyAt q).Id = (s.journeyAt q).Id := by
    intro q
    rw [journeyAt_setJourney]
    split
    · rename_i h
      rw [hvid, h.1]
    · rfl
  cases hf : findPending (s.setJourney p v).journeyAt v.Id s.pending with
  | none =>
    left
    unfold reassignBody
    rw [if_pos hfit, hv]
    simp only [PendingStorage.UpdatePending, h1p]
    have hf2 : findPending (s.setJourney p v).journeyAt v.Id (s.setJourney p v).pending = none :=
      hf
    rw [hf2]
    simp
  | some q =>
    right
    obtain ⟨hq, hqid⟩ := findPending_some _ _ _ _ hf
    have hqp : q = p := hu q hq (by rw [← h1id, hqid, hvid])
    subst hqp
    have hpres : ∃ x ∈ s.pending, ((s.setJourney q v).journeyAt x).Id = v.Id :=
      ⟨q, hq, by rw [h1p]⟩
    obtain ⟨pre, x, post, hl, hxid, _, hrem⟩ :=
      removePending_of_present (s.setJourney q v).journeyAt v.Id s.pending hpres
    have hxq : x = q := by
      apply hu x (by rw [hl]; simp)
      rw [← h1id, hxid, hvid]
    subst hxq
    refine ⟨hfit, pre, post, hl, ?_⟩
    unfold reassignBody
    rw [if_pos hfit, hv]
    simp only [PendingStorage.UpdatePending, h1p]
    have hf2 : findPending (s.setJourney x v).journeyAt v.Id (s.setJourney x v).pending
        = some x := hf
    rw [hf2]
    simp only []
    have hs2 : (s.setJourney x v).setJourney x v = s.setJourney x v := by
      simp [Store.setJourney, List.set_set]
    rw [hs2]
    have hca : (s.setJourney x v).carAt c = s.carAt c := rfl
    rw [hca, h1p, hvp]
    generalize hw : (s.carAt c).TakeSeats (s.journeyAt x).Passengers = w
    have hwid : w.ID = (s.carAt c).ID := by rw [← hw]; rfl
    have h3c : ((s.setJourney x v).setCar c w).carAt c = w :=
      carAt_setCar_self (s.setJourney x v) c w hc
    simp only [CarStorage.UpdateCar, h3c, hwid]
    have hk3 : mapGet ((s.setJourney x v).setCar c w).cars (s.carAt c).ID = some c := hkey
    rw [hk3]
    simp only []
    have hs4 : ((s.setJourney x v).setCar c w).setCar c w = (s.setJourney x v).setCar c w := by
      simp [Store.setCar, List.set_set]
    rw [hs4]
    have h5 : (((s.setJourney x v).setCar c w).journeyAt x) = v := h1p
    simp only [PendingStorage.DeleteById, h5]
    have hrem2 : removePending ((s.setJourney x v).setCar c w).journeyAt v.Id
        ((s.setJourney x v).setCar c w).pending = pre ++ post := hrem
    rw [hrem2]
    rfl

theorem ReassignedFrom_refl (s : Store) (c : Nat) : s.ReassignedFrom s c :=
  ⟨rfl, rfl, rfl, fun _ _ => rfl, rfl, rfl, rfl, fun _ => ⟨rfl, rfl⟩, List.Sublist.refl _,
    [], by simp, by simp⟩

theorem same_id_eq (s0 : Store)
    (hu : (s0.pending.map (fun q => (s0.journeyAt q).Id)).Nodup) (q p : Nat)
    (hq : q ∈ s0.pending) (hp : p ∈ s0.pending)
    (h : (s0.journeyAt q).Id = (s0.journeyAt p).Id) : q = p :=
  List.inj_on_of_nodup_map hu hq hp h

/-- A round of the loop of `Reassign` that returns no error keeps the
relation `ReassignedFrom`. -/
theorem ReassignedFrom_reassignBody (s0 s s2 : Store) (c p : Nat)
    (hcl : c < s0.carObjs.length)
    (hkey : mapGet s0.cars (s0.carAt c).ID = some c)
    (hu : (s0.pending.map (fun q => (s0.journeyAt q).Id)).Nodup)
    (hpv : ∀ q ∈ s0.pending, q < s0.journeyObjs.length)
    (hb : (s0.carAt c).AvailableSeats < uintSize)
    (hp : p ∈ s0.pending)
    (hI : s.ReassignedFrom s0 c)
    (hbody : reassignBody c p s = (s2, none)) :
    s2.ReassignedFrom s0 c := by
  obtain ⟨ha, hbj, hcl2, hd, he1, he2, hf, hg, hh, removed, hperm, hsum⟩ := hI
  have hp2 : p < s.journeyObjs.length := by rw [hf]; exact hpv p hp
  have hc2 : c < s.carObjs.length := by rw [hcl2]; exact hcl
  have hkey2 : mapGet s.cars (s.carAt c).ID = some c := by rw [ha, he1]; exact hkey
  have hu2 : ∀ q ∈ s.pending, (s.journeyAt q).Id = (s.journeyAt p).Id → q = p := by
    intro q hq hid
    apply same_id_eq s0 hu q p (hh.subset hq) hp
    rw [← (hg q).1, ← (hg p).1, hid]
  rcases reassignBody_cases c p s hp2 hc2 hkey2 hu2 with ⟨_, hr⟩ | hr | ⟨hfit, pre, post, hl, hr⟩
  · rw [hr] at hbody
    obtain rfl : s = s2 := (Prod.mk.inj hbody).1
    exact ⟨ha, hbj, hcl2, hd, he1, he2, hf, hg, hh, removed, hperm, hsum⟩
  · rw [hbody] at hr
    exact absurd rfl hr
  · rw [hr] at hbody
    have hs2 := (Prod.mk.inj hbody).1
    have hco : s2.carObjs = s.carObjs.set c
        ((s.carAt c).TakeSeats (s.journeyAt p).Passengers) := by rw [← hs2]
    have hjb2 : s2.journeyObjs = s.journeyObjs.set p
        { s.journeyAt p with AssignedTo := some c } := by rw [← hs2]
    have hcs : s2.cars = s.cars := by rw [← hs2]
    have hjs : s2.journeys = s.journeys := by rw [← hs2]
    have hps : s2.pending = pre ++ post := by rw [← hs2]
    have hcar : ∀ x, s2.carAt x =
        if x = c then (s.carAt c).TakeSeats (s.journeyAt p).Passengers else s.carAt x := by
      intro x
      unfold Store.carAt
      rw [hco]
      exact carAt_set s c x _ hc2
    have hjo : ∀ x, s2.journeyAt x =
        if x = p ∧ p < s.journeyObjs.length then
          { s.journeyAt p with AssignedTo := some c } else s.journeyAt x := by
      intro x
      unfold Store.journeyAt
      rw [hjb2]
      exact journeyAt_setJourney s p x _
    refine ⟨hcs.trans ha, hjs.trans hbj, ?_, ?_, ?_, ?_, ?_, ?_, ?_, p :: removed, ?_, ?_⟩
    · rw [hco, List.length_set, hcl2]
    · intro q hq
      rw [hcar, if_neg hq]
      exact hd q hq
    · rw [hcar, if_pos rfl]
      exact he1
    · rw [hcar, if_pos rfl]
      exact he2
    · rw [hjb2, List.length_set, hf]
    · intro q
      rw [hjo]
      split
      · rename_i h
        rw [h.1]
        exact hg p
      · exact hg q
    · rw [hps]
      refine List.Sublist.trans ?_ hh
      rw [hl]
      exact List.Sublist.append_left (List.sublist_cons_self p post) pre
    · rw [hps]
      refine hperm.trans ?_
      rw [hl]
      have h1 : (pre ++ p :: post ++ removed).Perm (p :: (pre ++ post) ++ removed) :=
        List.Perm.append_right removed List.perm_middle
      refine h1.trans ?_
      exact List.perm_middle.symm
    · rw [hcar, if_pos rfl]
      have hle : (s.carAt c).AvailableSeats < uintSize := by omega
      show uintSub (s.carAt c).AvailableSeats (s.journeyAt p).Passengers + _ = _
      rw [uintSub_of_le _ _ hfit hle, List.map_cons, List.sum_cons, ← (hg p).2]
      omega

theorem ReassignedFrom_reassignLoop (s0 : Store) (c : Nat)
    (hcl : c < s0.carObjs.length)
    (hkey : mapGet s0.cars (s0.carAt c).ID = some c)
    (hu : (s0.pending.map (fun q => (s0.journeyAt q).Id)).Nodup)
    (hpv : ∀ q ∈ s0.pending, q < s0.journeyObjs.length)
    (hb : (s0.carAt c).AvailableSeats < uintSize) :
    ∀ (idxs arr : List Nat) (s r : Store),
      (∀ i ∈ idxs, i < arr.length) → arr.length = s0.pending.length →
      (∀ x ∈ arr, x ∈ s0.pending) → s.ReassignedFrom s0 c →
      reassignLoop c idxs arr s = (r, none) → r.ReassignedFrom s0 c := by
  intro idxs
  induction idxs with
  | nil =>
    intro arr s r _ _ _ hI h
    obtain rfl : s = r := (Prod.mk.inj h).1
    exact hI
  | cons i is ih =>
    intro arr s r hidx hlen harr hI h
    have hi : i < arr.length := hidx i (List.mem_cons_self _ _)
    have hp : arr.getD i 0 ∈ s0.pending := by
      rw [List.getD_eq_getElem _ _ hi]
      exact harr _ (List.getElem_mem _)
    unfold reassignLoop at h
    split at h
    · cases h
    · rename_i s2 hbody
      have hI2 := ReassignedFrom_reassignBody s0 s s2 c _ hcl hkey hu hpv hb hp hI hbody
      have hsub : s2.pending.Sublist s0.pending := hI2.2.2.2.2.2.2.2.2.1
      have hle : s2.pending.length ≤ arr.length := by
        rw [hlen]
        exact hsub.length_le
      refine ih _ s2 r ?_ ?_ ?_ hI2 h
      · intro j hj
        rw [List.length_append, List.length_drop]
        have := hidx j (List.mem_cons_of_mem _ hj)
        omega
      · rw [List.length_append, List.length_drop]
        omega
      · intro x hx
        rcases List.mem_append.mp hx with hx | hx
        · exact hsub.subset hx
        · exact harr x (List.mem_of_mem_drop hx)

theorem Reassign_success_loop (s : Store) (c : Nat) (hok : (Reassign s c).2 = none) :
    reassignLoop c (List.range s.pending.length) s.pending s = ((Reassign s c).1, none) := by
  unfold Reassign at hok ⊢
  simp only [PendingStorage.GetAllPendings] at hok ⊢
  split
  · rename_i heq
    rw [heq] at hok
    simp at hok
  · rename_i heq
    rw [heq, handleTxn_Commit]

/-- C31, evaluated where the code departs from it. In the store left by
`repeatedPendingCalls` and the dropoff of journey 10, the car 1 is in the car
store with 4 seats available and the queue holds two journeys with the ID 7,
of 5 and of 2 passengers. `Reassign` of the car succeeds: the queue loses the
journey of 5 passengers and keeps the one of 2, now marked as assigned, and
the car has 2 seats available, not 4 minus the 5 passengers of the journey
that left the queue. -/
theorem Reassign_removes_other_journey_of_same_id :
    (Dropoff (runCalls Store.empty repeatedPendingCalls) 10).2 = (some 0, none) ∧
    (Dropoff (runCalls Store.empty repeatedPendingCalls) 10).1.PtrValid ∧
    (Dropoff (runCalls Store.empty repeatedPendingCalls) 10).1.CarsFiled ∧
    (Dropoff (runCalls Store.empty repeatedPendingCalls) 10).1.carsValue = [(1, ⟨1, 4, 4⟩)] ∧
    (Dropoff (runCalls Store.empty repeatedPendingCalls) 10).1.pending = [1, 2] ∧
    (Dropoff (runCalls Store.empty repeatedPendingCalls) 10).1.pendingValue =
      [⟨7, 5, none⟩, ⟨7, 2, none⟩] ∧
    (Reassign (Dropoff (runCalls Store.empty repeatedPendingCalls) 10).1 0).2 = none ∧
    (Reassign (Dropoff (runCalls Store.empty repeatedPendingCalls) 10).1 0).1.pending = [2] ∧
    (Reassign (Dropoff (runCalls Store.empty repeatedPendingCalls) 10).1 0).1.pendingValue =
      [⟨7, 2, some ⟨1, 4, 2⟩⟩] ∧
    (Reassign (Dropoff (runCalls Store.empty repeatedPendingCalls) 10).1 0).1.carsValue =
      [(1, ⟨1, 4, 2⟩)] ∧
    ((Reassign (Dropoff (runCalls Store.empty repeatedPendingCalls) 10).1 0).1.carAt
        0).AvailableSeats +
      ((Dropoff (runCalls Store.empty repeatedPendingCalls) 10).1.journeyAt 1).Passengers ≠
      ((Dropoff (runCalls Store.empty repeatedPendingCalls) 10).1.carAt 0).AvailableSeats := by
  decide

/-- C31, as amended. In a store whose pointers are valid and whose pending
journeys have pairwise different IDs, for a car `c` filed under its ID in the
car store with a number of available seats that is a `uint`, a successful
`Reassign(c)` leaves in the pending queue a sublist of the initial queue; with
`removed` the journeys that left it, the final `AvailableSeats` of `c` is the
initial one minus the sum of their passengers, which does not exceed it; the
car map and every car object other than `c` are unchanged, `c` keeps its ID
and seats; and the journey map is unchanged. -/
theorem Reassign_seat_accounting (s : Store) (c : Nat) (hv : s.PtrValid)
    (hcl : c < s.carObjs.length)
    (hkey : mapGet s.cars (s.carAt c).ID = some c)
    (hu : (s.pending.map (fun q => (s.journeyAt q).Id)).Nodup)
    (hb : (s.carAt c).AvailableSeats < uintSize)
    (hok : (Reassign s c).2 = none) :
    (Reassign s c).1.pending.Sublist s.pending ∧
    (∃ removed, s.pending.Perm ((Reassign s c).1.pending ++ removed) ∧
      (removed.map (fun q => (s.journeyAt q).Passengers)).sum ≤ (s.carAt c).AvailableSeats ∧
      ((Reassign s c).1.carAt c).AvailableSeats =
        (s.carAt c).AvailableSeats - (removed.map (fun q => (s.journeyAt q).Passengers)).sum) ∧
    (Reassign s c).1.cars = s.cars ∧
    (∀ q, q ≠ c → (Reassign s c).1.carAt q = s.carAt q) ∧
    ((Reassign s c).1.carAt c).ID = (s.carAt c).ID ∧
    ((Reassign s c).1.carAt c).Seats = (s.carAt c).Seats ∧
    (Reassign s c).1.journeys = s.journeys := by
  have hloop := Reassign_success_loop s c hok
  have hI := ReassignedFrom_reassignLoop s c hcl hkey hu hv.2.2.1 hb
    (List.range s.pending.length) s.pending s (Reassign s c).1
    (fun i hi => List.mem_range.mp hi) rfl (fun _ hx => hx) (ReassignedFrom_refl s c) hloop
  obtain ⟨ha, hbj, _, hd, he1, he2, _, _, hh, removed, hperm, hsum⟩ := hI
  exact ⟨hh, ⟨removed, hperm, by omega, by omega⟩, ha, hd, he1, he2, hbj⟩

/-- C31 as amended, on `threePending`, where `Reassign` of the car removes the
journey 30 from the queue and takes its 2 seats. -/
theorem Reassign_seat_accounting_witness :
    threePending.PtrValid ∧
    (threePending.pending.map (fun q => (threePending.journeyAt q).Id)).Nodup ∧
    (Reassign threePending 0).2 = none ∧
    ((Reassign threePending 0).1.pending.Sublist threePending.pending ∧
    (∃ removed, threePending.pending.Perm ((Reassign threePending 0).1.pending ++ removed) ∧
      (removed.map (fun q => (threePending.journeyAt q).Passengers)).sum ≤
        (threePending.carAt 0).AvailableSeats ∧
      ((Reassign threePending 0).1.carAt 0).AvailableSeats =
        (threePending.carAt 0).AvailableSeats -
          (removed.map (fun q => (threePending.journeyAt q).Passengers)).sum) ∧
    (Reassign threePending 0).1.cars = threePending.cars ∧
    (∀ q, q ≠ 0 → (Reassign threePending 0).1.carAt q = threePending.carAt q) ∧
    ((Reassign threePending 0).1.carAt 0).ID = (threePending.carAt 0).ID ∧
    ((Reassign threePending 0).1.carAt 0).Seats = (threePending.carAt 0).Seats ∧
    (Reassign threePending 0).1.journeys = threePending.journeys) :=
  ⟨by decide, by decide, by decide,
    Reassign_seat_accounting threePending 0 (by decide) (by decide) (by decide) (by decide)
      (by decide) (by decide)⟩

end CarPool
